import Mathlib

/-!
# Quizzy: the quiz-session runtime

A shallow embedding of `containers/QuizContainer.js`, of the parts of
`views/QuizView.js` and `containers/ResultContainer.js` that drive or read it,
of `utils/saveDailyQuizResult.js`, of the quiz set keys and titles that
`containers/QuizSetContainer.js` builds, of `utils/dailyQuiz.js`, of the local rank
of `containers/HomeContainer.js` and of the "Happy Camper" progress of
`utils/badgeLogic.js`.

Modelling conventions.

* JavaScript numbers are modelled by integers (`ℤ`) and rationals (`ℚ`);
  `Math.floor` and `Math.round` are the exact floor and round-half-up functions.
  The rounding of a result to the nearest Number is modelled where it can change
  a value: in the score (`toDouble`), in `parseInt`, in the digits a template
  literal prints and in the XP totals of the ranking (`toNumber`). Elsewhere the
  arithmetic is exact: it is on integers below `2 ^ 53` in size, where JavaScript
  is exact too, or on quotients whose floor is the same in Numbers for the values
  that occur (the XP formula with the time budgets 30, 45 and 60, the durations
  in seconds and minutes).
* `null` and `undefined` are both modelled by `none`.
* React state is a record; a handler is a function of the render snapshot it
  closed over (`c`) and of the state at the time its updates are applied (`s`).
  A functional update `setX(prev => f prev)` reads `s`, every other read is
  from `c`.
* Calls to collaborators (backend, notifications, storage, navigation) are
  recorded as a list of effects, in call order; a rejected `await` ends the list.
-/

namespace Quizzy

/-! ## JavaScript helpers -/

/-- Models `Math.floor` on exact rationals. -/
def mathFloor (x : ℚ) : ℤ := ⌊x⌋

/-- Models `Math.round` on exact rationals: nearest integer, ties towards `+∞`. -/
def mathRound (x : ℚ) : ℤ := ⌊x + 1 / 2⌋

/-- The integer nearest to a rational, a tie going to the even one. -/
def roundHalfEven (x : ℚ) : ℤ :=
  if x - ⌊x⌋ < 1 / 2 then ⌊x⌋
  else if 1 / 2 < x - ⌊x⌋ then ⌊x⌋ + 1
  else if ⌊x⌋ % 2 = 0 then ⌊x⌋ else ⌊x⌋ + 1

/-- The Number nearest to a rational: the result of a division or a multiplication of
Numbers is its exact value rounded to a significand of 53 bits, a tie going to the even
significand. The exponent range is not bounded here (no subnormal values, no
`Infinity`). -/
def toDouble (x : ℚ) : ℚ :=
  if x = 0 then 0
  else
    (roundHalfEven (|x| * 2 ^ (52 - Int.log 2 |x|)) : ℚ) * 2 ^ (Int.log 2 |x| - 52) *
      (if x < 0 then -1 else 1)

/-- Array indexing `xs[k]` with a numeric index: `undefined` outside the array. -/
def jsIndex {α : Type} (xs : List α) (k : ℤ) : Option α :=
  if k < 0 then none else xs[k.toNat]?

/-- Models `String.prototype.toLowerCase`, on the ASCII letters. The keys looked up
below contain no `k`, the only ASCII letter that a non-ASCII character
lower-cases to, so the lookup result agrees with the Unicode-aware original. -/
def toLowerCase (s : String) : String := ⟨s.data.map Char.toLower⟩

/-- Models `String.prototype.startsWith`. -/
def startsWith (s p : String) : Bool := p.data.isPrefixOf s.data

/-! ## Route parameters and the time budget (QuizContainer.js 19-22) -/

/-- Result of a property read `obj[key]` on an object literal with numeric values. -/
inductive JSLookup where
  /-- an own property, holding a number -/
  | number (n : ℤ)
  /-- a property inherited from `Object.prototype` (a function or an object) -/
  | inherited
  /-- no such property -/
  | undefined
  deriving DecidableEq, Repr

/-- Models `durationByDifficulty[key]` for `{ easy: 60, medium: 45, hard: 30 }`. -/
def durationByDifficulty (key : String) : JSLookup :=
  if key = "easy" then .number 60
  else if key = "medium" then .number 45
  else if key = "hard" then .number 30
  else if key = "constructor" ∨ key = "__proto__" then .inherited
  else .undefined

/-- Models `const totalTime = durationByDifficulty[difficulty.toLowerCase()] || 60`, where
`difficulty` has the default `'hard'` when the route gives none.
`none` is returned when the value is not a number (a truthy inherited property). -/
def totalTime (difficulty : Option String) : Option ℤ :=
  match durationByDifficulty (toLowerCase (difficulty.getD "hard")) with
  | .number n => if n = 0 then some 60 else some n
  | .inherited => none
  | .undefined => some 60

/-! ## Session state (QuizContainer.js 27-39) -/

/-- The decoded question held in `questionData`. -/
structure QuestionData where
  question : String
  options : List String
  correctAnswer : String
  deriving DecidableEq, Repr

/-- The `status` of a review item. -/
inductive Status where
  | correct
  | incorrect
  | unanswered
  deriving DecidableEq, Repr

/-- One entry of `reviewItems`. -/
structure ReviewItem where
  number : ℤ
  question : String
  correctAnswer : String
  selectedAnswer : Option String
  status : Status
  deriving DecidableEq, Repr

/-- The `useState` cells of `QuizContainer`, with the constant `totalTime` and the
`startTime` ref. The handlers below run only once `questionData` is loaded
(`QuizView` renders no controls before that), so it is not optional here. -/
structure QuizState where
  totalTime : ℤ
  startTime : ℤ
  remainingTime : ℤ
  currentIndex : ℕ
  questionData : QuestionData
  selected : Option String
  submitted : Bool
  correctCount : ℤ
  incorrectCount : ℤ
  usedHint : Bool
  eliminatedOption : Option String
  earnedXP : ℤ
  totalEarnedXP : ℤ
  showXPMessage : Bool
  reviewItems : List ReviewItem
  deriving DecidableEq, Repr

/-! ## Hint (QuizContainer.js 66-70, QuizView.js 139-144) -/

/-- Models `handleHint`, with `rand` the value returned by `Math.random()`. -/
def handleHint (rand : ℚ) (s : QuizState) : QuizState :=
  let incorrect := s.questionData.options.filter (fun o => o != s.questionData.correctAnswer)
  { s with
    eliminatedOption := jsIndex incorrect (mathFloor (rand * incorrect.length))
    usedHint := true }

/-- The hint button of `QuizView`: `onPress={() => { if (!usedHint) handleHint(); }}`,
`disabled={usedHint}`. -/
def onPressHint (rand : ℚ) (s : QuizState) : QuizState :=
  if !s.usedHint then handleHint rand s else s

/-! ## Answer selection (QuizView.js 190-193) -/

/-- An option button of `QuizView`: `onPress={() => !submitted && setSelected(item)}`. -/
def onPressOption (item : String) (s : QuizState) : QuizState :=
  if !s.submitted then { s with selected := some item } else s

/-! ## Submission (QuizContainer.js 121-171) -/

/-- Models `const isUnanswered = selected === null`. -/
def isUnanswered (c : QuizState) : Bool := decide (c.selected = none)

/-- Models `const isCorrect = selected === questionData?.correctAnswer`. -/
def isCorrect (c : QuizState) : Bool := decide (c.selected = some c.questionData.correctAnswer)

/-- The value of `gainedXP` when `handleSubmit` has run its XP calculation (lines 124-157). -/
def gainedXP (c : QuizState) : ℤ :=
  if !isUnanswered c then
    if isCorrect c then
      let full := mathFloor ((c.remainingTime : ℚ) / (c.totalTime : ℚ) * 100)
      if c.usedHint then mathFloor ((full : ℚ) / 2) else full
    else 0
  else 0

/-- The state updates of `handleSubmit` before its `setTimeout` (lines 126-161):
`c` is the render the callback closed over, `s` the state the updates apply to. -/
def handleSubmit (c s : QuizState) : QuizState :=
  { s with
    submitted := true
    correctCount :=
      if !isUnanswered c && isCorrect c then s.correctCount + 1 else s.correctCount
    incorrectCount :=
      if !isUnanswered c && !isCorrect c then s.incorrectCount + 1 else s.incorrectCount
    earnedXP := gainedXP c
    totalEarnedXP := s.totalEarnedXP + gainedXP c
    showXPMessage := !isUnanswered c }

/-- Models `finalReviewItem` (lines 164-170). -/
def finalReviewItem (c : QuizState) : ReviewItem :=
  { number := (c.currentIndex : ℤ) + 1
    question := c.questionData.question
    correctAnswer := c.questionData.correctAnswer
    selectedAnswer := c.selected
    status :=
      if isUnanswered c then .unanswered else if isCorrect c then .correct else .incorrect }

/-- Models `const fullReview = [...reviewItems, finalReviewItem]`. -/
def fullReview (c : QuizState) : List ReviewItem := c.reviewItems ++ [finalReviewItem c]

/-! ## Route parameters and the strings parsed at finalization -/

/-- A question record as supplied in `route.params.questions`. -/
structure RawQuestion where
  question : String
  correct_answer : String
  incorrect_answers : List String
  deriving DecidableEq, Repr

/-- The parameters read from `route.params` (line 19); `difficulty` may be absent. -/
structure RouteParams where
  quizSetId : String
  quizTitle : String
  questions : List RawQuestion
  difficulty : Option String
  deriving DecidableEq, Repr

/-- The regular expression `cat(\d+)_` tried at the head of the input: the digits
captured. `\d+` is greedy and `_` is no digit, so the only candidate is the
longest run of digits. -/
def matchCatHere : List Char → Option (List Char)
  | 'c' :: 'a' :: 't' :: rest =>
    match rest.takeWhile Char.isDigit, rest.dropWhile Char.isDigit with
    | d :: ds, '_' :: _ => some (d :: ds)
    | _, _ => none
  | _ => none

/-- The capture group of the leftmost match of `cat(\d+)_`, as `String.prototype.match`
finds it; `none` when there is no match. -/
def matchCat : List Char → Option (List Char)
  | [] => none
  | c :: cs =>
    match matchCatHere (c :: cs) with
    | some ds => some ds
    | none => matchCat cs

/-- The number of low bits that do not fit into the 53 bits of the significand of a
Number: the least `e` with `v / 2 ^ e < 2 ^ 53`, found by halving; `fuel` bounds the
number of halvings. -/
def excessBits : ℕ → ℕ → ℕ
  | 0, _ => 0
  | fuel + 1, v => if v < 2 ^ 53 then 0 else excessBits fuel (v / 2) + 1

/-- The Number value of the natural number `v`: the nearest value with a significand
of 53 bits, a tie going to the even significand. Below `2 ^ 53` it is `v` itself. From
`2 ^ 1024 - 2 ^ 970` on the JavaScript value is `Infinity`, which has no counterpart
here. -/
def toNumber (v : ℕ) : ℕ :=
  if 2 * (v % 2 ^ excessBits v v) < 2 ^ excessBits v v ∨
      (2 * (v % 2 ^ excessBits v v) = 2 ^ excessBits v v ∧
        v / 2 ^ excessBits v v % 2 = 0) then
    v / 2 ^ excessBits v v * 2 ^ excessBits v v
  else (v / 2 ^ excessBits v v + 1) * 2 ^ excessBits v v

/-- The integer a string of decimal digits denotes. -/
def digitsValue (ds : List Char) : ℕ :=
  ds.foldl (fun acc d => 10 * acc + (d.toNat - 48)) 0

/-- Models `parseInt` of a string of decimal digits: the Number value of the integer
the digits denote. -/
def parseInt (ds : List Char) : ℤ := (toNumber (digitsValue ds) : ℕ)

/-- Models `parseInt(quizSetId.match(/cat(\d+)_/)[1])` (line 207); `none` when `match`
returns `null`, where indexing it throws a `TypeError`. -/
def category_id (quizSetId : String) : Option ℤ :=
  (matchCat quizSetId.data).map parseInt

/-- The characters matched by `\s` in a JavaScript regular expression. -/
def isJsSpace (c : Char) : Bool :=
  let n := c.toNat
  (0x09 ≤ n && n ≤ 0x0D) || n == 0x20 || n == 0xA0 || n == 0x1680 ||
  (0x2000 ≤ n && n ≤ 0x200A) || n == 0x2028 || n == 0x2029 || n == 0x202F ||
  n == 0x205F || n == 0x3000 || n == 0xFEFF

/-- Models `quizTitle.replace(/^#\d+\s*/, '')` (line 208). -/
def category_title (quizTitle : String) : String :=
  match quizTitle.data with
  | '#' :: rest =>
    match rest.takeWhile Char.isDigit with
    | [] => quizTitle
    | _ :: _ => ⟨(rest.dropWhile Char.isDigit).dropWhile isJsSpace⟩
  | _ => quizTitle

/-! ## The daily record (utils/saveDailyQuizResult.js) -/

/-- The fields of an existing `quiz_history` row that `saveDailyQuizResult` reads. -/
structure ExistingRow where
  id : ℤ
  score : ℤ
  deriving DecidableEq, Repr

/-- The `payload` written by `saveDailyQuizResult` (lines 24-36). -/
structure DailyPayload where
  user_id : Option String
  category_id : ℤ
  category_title : String
  quiz_title : String
  difficulty : String
  score : ℤ
  xp : ℤ
  time_taken_seconds : ℤ
  date_taken : String
  time_taken : String
  review_data : List ReviewItem
  deriving DecidableEq, Repr

/-- A write issued by `saveDailyQuizResult`. -/
inductive DbWrite where
  /-- Models `.update(payload).eq('id', id)` -/
  | update (id : ℤ) (payload : DailyPayload)
  /-- Models `.insert(payload)` -/
  | insert (payload : DailyPayload)
  deriving DecidableEq, Repr

/-- The backend and the clock as they stand during one call of `saveDailyQuizResult`. -/
structure DailyBackend where
  /-- Models `now.toISOString().split('T')[0]` -/
  dateTaken : String
  /-- Models `now.toISOString()` -/
  timeTaken : String
  /-- the rows of `quiz_history` stored under the user id and the daily title of today -/
  rows : List ExistingRow
  /-- whether the lookup request fails (network, permissions) -/
  lookupFails : Bool
  /-- whether the write resolves with an `error` -/
  writeError : Bool
  deriving DecidableEq, Repr

/-- The `data` of the lookup of lines 15-20. The query ends in `.single()`: it answers
the row when the request succeeds and exactly one row matches, and otherwise `data` is
`null` and `error` is set. The function binds the error to `fetchError` and never
reads it. -/
def DailyBackend.existing (db : DailyBackend) : Option ExistingRow :=
  if db.lookupFails then none
  else
    match db.rows with
    | [row] => some row
    | _ => none

/-- The function `saveDailyQuizResult`: the write it issues, if any, and whether the
returned promise is rejected (`throw error`, line 50). -/
def saveDailyQuizResult (db : DailyBackend) (userId : Option String) (score xp : ℤ)
    (reviewData : List ReviewItem) (timeTakenSeconds : ℤ) : Option DbWrite × Bool :=
  let payload : DailyPayload :=
    { user_id := userId
      category_id := 0
      category_title := "Mixed"
      quiz_title := "Daily Quiz - " ++ db.dateTaken
      difficulty := "random"
      score := score
      xp := xp
      time_taken_seconds := timeTakenSeconds
      date_taken := db.dateTaken
      time_taken := db.timeTaken
      review_data := reviewData }
  match db.existing with
  | none => (some (.insert payload), db.writeError)
  | some row =>
    if score > row.score then (some (.update row.id payload), db.writeError)
    else (none, false)

/-! ## Advance or finish (QuizContainer.js 176-231) -/

/-- The row inserted into `quiz_history` for a normal session (lines 205-216);
`review_data` stands for its `JSON.stringify` image. -/
structure HistoryRecord where
  user_id : Option String
  category_id : ℤ
  category_title : String
  quiz_title : String
  difficulty : String
  score : ℤ
  xp : ℤ
  time_taken_seconds : ℤ
  review_data : List ReviewItem
  quiz_set_id : String
  deriving DecidableEq, Repr

/-- The parameters handed to `ResultContainer` (lines 220-229). -/
structure ResultParams where
  totalQuestions : ℤ
  correct : ℤ
  incorrect : ℤ
  unanswered : ℤ
  timeTaken : ℤ
  xpEarned : ℤ
  reviewData : List ReviewItem
  categoryTitle : String
  deriving DecidableEq, Repr

/-- A call made by the finishing branch on one of its collaborators. -/
inductive Effect where
  /-- Models `saveDailyQuizResult(userId, score, xp, fullReview, timeTaken)` -/
  | saveDailyQuizResult (userId : Option String) (score xp : ℤ)
      (reviewData : List ReviewItem) (timeTaken : ℤ)
  /-- Models `Notifications.cancelAllScheduledNotificationsAsync()` -/
  | cancelAllScheduledNotifications
  /-- Models `AsyncStorage.setItem('lastDailyQuizDate', value)` -/
  | setLastDailyQuizDate (value : String)
  /-- Models `supabase.from('quiz_history').insert([record])` -/
  | insertQuizHistory (record : HistoryRecord)
  /-- Models `navigation.navigate('ResultContainer', params)` -/
  | navigateResult (params : ResultParams)
  deriving DecidableEq, Repr

/-- What the collaborators answer while the finishing branch runs. A backend
failure of `insert` is the `error` field of the value its promise resolves to (the
convention `saveDailyQuizResult` reads at its lines 39-48), which line 205 drops. -/
structure Env where
  /-- Models `user?.data?.user?.id` -/
  userId : Option String
  /-- Models `Date.now()` -/
  now : ℤ
  /-- Models `new Date().toDateString()` -/
  dateString : String
  /-- the backend as seen by `saveDailyQuizResult` -/
  daily : DailyBackend
  /-- whether `cancelAllScheduledNotificationsAsync()` is rejected -/
  cancelRejects : Bool
  /-- whether `AsyncStorage.setItem` is rejected -/
  setItemRejects : Bool
  /-- whether the `quiz_history` insert resolves with an `error` -/
  insertError : Bool
  deriving DecidableEq, Repr

/-- Models `const score = Math.round((correctCount / quizQuestions.length) * 100)`
(line 190), for a question list that is not empty: the quotient and the product are
Numbers, so 23 correct answers of 40 give 57 (the product is 57.49999999999999). -/
def score (p : RouteParams) (c : QuizState) : ℤ :=
  mathRound (toDouble (toDouble ((c.correctCount : ℚ) / (p.questions.length : ℚ)) * 100))

/-- Models `const xp = totalEarnedXP + gainedXP` (line 191). -/
def xp (c : QuizState) : ℤ := c.totalEarnedXP + gainedXP c

/-- Models `const timeTaken = Math.floor((Date.now() - startTime.current) / 1000)` (line 192). -/
def timeTaken (env : Env) (c : QuizState) : ℤ :=
  mathFloor (((env.now - c.startTime : ℤ) : ℚ) / 1000)

/-- Models `finalCorrect` (line 195). -/
def finalCorrect (c : QuizState) : ℤ :=
  if isUnanswered c then c.correctCount
  else if isCorrect c then c.correctCount + 1 else c.correctCount

/-- Models `finalIncorrect` (line 196). -/
def finalIncorrect (c : QuizState) : ℤ :=
  if isUnanswered c then c.incorrectCount
  else if !isCorrect c then c.incorrectCount + 1 else c.incorrectCount

/-- Models `finalUnanswered` (line 197). -/
def finalUnanswered (p : RouteParams) (c : QuizState) : ℤ :=
  (p.questions.length : ℤ) - finalCorrect c - finalIncorrect c

/-- The object passed to `navigation.navigate('ResultContainer', ...)` (lines 220-229). -/
def resultParams (p : RouteParams) (env : Env) (c : QuizState) : ResultParams :=
  { totalQuestions := p.questions.length
    correct := finalCorrect c
    incorrect := finalIncorrect c
    unanswered := finalUnanswered p c
    timeTaken := timeTaken env c * 1000
    xpEarned := xp c
    reviewData := fullReview c
    categoryTitle := p.quizTitle }

/-- The record of line 205-216, given the parsed category id. -/
def historyRecord (p : RouteParams) (env : Env) (c : QuizState) (cat : ℤ) : HistoryRecord :=
  { user_id := env.userId
    category_id := cat
    category_title := category_title p.quizTitle
    quiz_title := p.quizTitle
    difficulty := p.difficulty.getD "hard"
    score := score p c
    xp := xp c
    time_taken_seconds := timeTaken env c
    review_data := fullReview c
    quiz_set_id := p.quizSetId }

/-- The `else` branch of the delayed callback (lines 187-229): the calls made, in
order. Every call is awaited, so a rejected promise or a thrown error ends the
callback and the calls after it are not made. -/
def finish (p : RouteParams) (env : Env) (c : QuizState) : List Effect :=
  if startsWith p.quizTitle "Daily Quiz -" then
    Effect.saveDailyQuizResult env.userId (score p c) (xp c) (fullReview c) (timeTaken env c) ::
      (if (saveDailyQuizResult env.daily env.userId (score p c) (xp c) (fullReview c)
            (timeTaken env c)).2 then []
       else Effect.cancelAllScheduledNotifications ::
         (if env.cancelRejects then []
          else Effect.setLastDailyQuizDate env.dateString ::
            (if env.setItemRejects then []
             else [Effect.navigateResult (resultParams p env c)])))
  else
    match category_id p.quizSetId with
    | none => []
    | some cat =>
      [Effect.insertQuizHistory (historyRecord p env c cat),
       Effect.navigateResult (resultParams p env c)]

/-- The state updates of the `if` branch of the delayed callback (lines 178-185). -/
def advance (c s : QuizState) : QuizState :=
  { s with
    reviewItems := fullReview c
    selected := none
    submitted := false
    remainingTime := c.totalTime
    eliminatedOption := none
    usedHint := false
    showXPMessage := false
    currentIndex := c.currentIndex + 1 }

/-- The callback that `handleSubmit` schedules with `setTimeout(..., 1500)`
(lines 176-231): the next state and the calls made. -/
def afterDelay (p : RouteParams) (env : Env) (c s : QuizState) : QuizState × List Effect :=
  if (c.currentIndex : ℤ) < (p.questions.length : ℤ) - 1 then (advance c s, [])
  else (s, finish p env c)

/-! ## The result screen (ResultContainer.js 21-25) -/

/-- Models `const score = Math.round((correct / totalQuestions) * 100)` in
`ResultContainer`, for `totalQuestions` other than 0; the quotient and the product are
Numbers. -/
def ResultContainer.score (r : ResultParams) : ℤ :=
  mathRound (toDouble (toDouble ((r.correct : ℚ) / (r.totalQuestions : ℚ)) * 100))

/-! ## Construction -/

/-- The initial values of the `useState` cells (lines 27-39) for a time budget `T`,
the session start `start` and the first loaded question `qd`. -/
def initialState (T start : ℤ) (qd : QuestionData) : QuizState :=
  { totalTime := T
    startTime := start
    remainingTime := T
    currentIndex := 0
    questionData := qd
    selected := none
    submitted := false
    correctCount := 0
    incorrectCount := 0
    usedHint := false
    eliminatedOption := none
    earnedXP := 0
    totalEarnedXP := 0
    showXPMessage := false
    reviewItems := [] }

/-! ## Sample data used to evaluate the definitions -/

/-- A loaded question with four options, as in the container tests. -/
def sampleQuestion : QuestionData :=
  { question := "3 * 3 = ?", options := ["6", "9", "12", "3"], correctAnswer := "9" }

/-- The raw record `sampleQuestion` is loaded from. -/
def sampleRaw : RawQuestion :=
  { question := "3 * 3 = ?", correct_answer := "9", incorrect_answers := ["6", "12", "3"] }

/-- A hard session (30 s per question) started at time 0 on `sampleQuestion`. -/
def sampleStart : QuizState := initialState 30 0 sampleQuestion

/-- Collaborators that all succeed, 12 s after the session start. -/
def sampleEnv : Env :=
  { userId := some "user-123"
    now := 12000
    dateString := "Tue Jul 01 2025"
    daily :=
      { dateTaken := "2025-07-01", timeTaken := "2025-07-01T08:00:12.000Z",
        rows := [], lookupFails := false, writeError := false }
    cancelRejects := false
    setItemRejects := false
    insertError := false }

/-- The state `sampleStart` after the user picked the correct option "9". -/
def sampleAnswered : QuizState := onPressOption "9" sampleStart

/-- The state `sampleAnswered` after the user pressed submit. -/
def sampleSubmitted : QuizState := handleSubmit sampleAnswered sampleAnswered

/-- A single-question daily session, as `generateDailyQuiz` titles it. -/
def sampleDaily : RouteParams :=
  { quizSetId := "daily-2025-07-01", quizTitle := "Daily Quiz - 2025-07-01",
    questions := [sampleRaw], difficulty := some "hard" }

/-- A single-question normal session, as `QuizSetContainer` starts it. -/
def sampleNormal : RouteParams :=
  { quizSetId := "cat9_hard_set1", quizTitle := "#1 General Knowledge",
    questions := [sampleRaw], difficulty := some "hard" }

/-- The review log of the sample session once its only question is answered. -/
def sampleReview : List ReviewItem :=
  [{ number := 1, question := "3 * 3 = ?", correctAnswer := "9", selectedAnswer := some "9",
     status := .correct }]

/-- The parameters handed to the result screen at the end of the sample session. -/
def sampleResult (title : String) : ResultParams :=
  { totalQuestions := 1, correct := 1, incorrect := 0, unanswered := 0, timeTaken := 12000,
    xpEarned := 100, reviewData := sampleReview, categoryTitle := title }

/-- The collaborators of `sampleEnv`, except that every backend write reports an error. -/
def sampleEnvWriteError : Env :=
  { sampleEnv with
    daily := { sampleEnv.daily with writeError := true }
    insertError := true }

/-- The row inserted at the end of the sample normal session. -/
def sampleRecord : HistoryRecord :=
  { user_id := some "user-123", category_id := 9, category_title := "General Knowledge",
    quiz_title := "#1 General Knowledge", difficulty := "hard", score := 0, xp := 100,
    time_taken_seconds := 12, review_data := sampleReview, quiz_set_id := "cat9_hard_set1" }

/-- A session whose title has the 12 characters `Daily Quiz -` but no space after them. -/
def sampleNoSpace : RouteParams :=
  { quizSetId := "cat9_hard_set1", quizTitle := "Daily Quiz -2025",
    questions := [sampleRaw], difficulty := some "hard" }

/-! ## Countdown (QuizContainer.js 75-87) and auto-submit (92-99) -/

/-- The update passed to `setRemainingTime` by the interval callback (lines 79-83). -/
def tickUpdate (prev : ℤ) : ℤ := if prev > 0 then prev - 1 else 0

/-- One firing of the one-second interval. -/
def tick (s : QuizState) : QuizState := { s with remainingTime := tickUpdate s.remainingTime }

/-- Whether the countdown effect keeps an interval alive: it returns early when
`remainingTime <= 0 || submitted` (line 76). -/
def countdownRunning (s : QuizState) : Bool := !(decide (s.remainingTime ≤ 0) || s.submitted)

/-- The condition of the auto-submit effect: `remainingTime === 0 && !submitted` (line 93). -/
def autoSubmitDue (s : QuizState) : Bool := decide (s.remainingTime = 0) && !s.submitted

/-- The state update of the auto-submit effect: `setSubmitted(true)` (line 94). -/
def autoSubmit (s : QuizState) : QuizState := { s with submitted := true }

/-- Whether the submit button of `QuizView` is enabled: `disabled={!selected || submitted}`
(an empty string is falsy). -/
def submitEnabled (s : QuizState) : Bool :=
  (match s.selected with
    | some a => a != ""
    | none => false) && !s.submitted

/-! ## Question load (QuizContainer.js 50-61) -/

/-- The decoded options before they are shuffled:
`[...raw.incorrect_answers, raw.correct_answer].map(decode)`. -/
def baseOptions (decode : String → String) (raw : RawQuestion) : List String :=
  (raw.incorrect_answers ++ [raw.correct_answer]).map decode

/-- The value given to `setQuestionData`, where `options` is what
`.sort(() => 0.5 - Math.random())` returned. -/
def loadQuestion (decode : String → String) (raw : RawQuestion) (options : List String) :
    QuestionData :=
  { question := decode raw.question
    options := options
    correctAnswer := decode raw.correct_answer }

/-! ## The session as a transition system

Every event is handled against the current state (a render is taken to follow each
state change before the next event), and at any time the callbacks scheduled with
`setTimeout` that have not fired yet are part of the configuration. -/

/-- A callback scheduled with `setTimeout(..., 1500)`, with the render it closed over. -/
inductive Timer where
  /-- the call of `handleSubmit` scheduled by the auto-submit effect (lines 95-97) -/
  | submit (c : QuizState)
  /-- the advance-or-finish callback scheduled by `handleSubmit` (line 176) -/
  | next (c : QuizState)
  deriving DecidableEq, Repr

/-- The render a scheduled callback closed over. -/
def Timer.closure : Timer → QuizState
  | .submit c => c
  | .next c => c

/-- A configuration of a running session: the state cells, the scheduled callbacks
and the calls made on collaborators so far. -/
structure Session where
  state : QuizState
  timers : List Timer
  calls : List Effect
  deriving DecidableEq, Repr

/-- What can happen to a session. -/
inductive Event where
  /-- the one-second interval fires -/
  | tick
  /-- the user presses the option button showing `item` -/
  | pressOption (item : String)
  /-- the user presses the hint button and `Math.random()` returns `rand` -/
  | pressHint (rand : ℚ)
  /-- the user presses the submit button -/
  | pressSubmit
  /-- the auto-submit effect runs -/
  | timeUp
  /-- the scheduled callback number `k` fires; `env` is what the collaborators answer
  if it finishes the session and `options` the shuffled options if it loads a question -/
  | fire (k : ℕ) (env : Env) (options : List String)

/-- The handler of the submit button: `handleSubmit` of the current render, which
schedules its delayed callback. -/
def submitNow (cfg : Session) : Session :=
  { cfg with
    state := handleSubmit cfg.state cfg.state
    timers := cfg.timers ++ [Timer.next cfg.state] }

/-- The effect of one event, `none` when the event cannot happen in the configuration
(a disabled or unrendered control, an absent timer) or when the component throws
(a question load past the end of the list). The shuffled options of a question load
are a permutation of the decoded options. -/
def step (p : RouteParams) (decode : String → String) (e : Event) (cfg : Session) :
    Option Session :=
  match e with
  | .tick =>
    if countdownRunning cfg.state then some { cfg with state := tick cfg.state } else none
  | .pressOption item =>
    if item ∈ cfg.state.questionData.options ∧ cfg.state.eliminatedOption ≠ some item then
      some { cfg with state := onPressOption item cfg.state }
    else none
  | .pressHint rand =>
    if 0 ≤ rand ∧ rand < 1 then some { cfg with state := onPressHint rand cfg.state } else none
  | .pressSubmit => if submitEnabled cfg.state then some (submitNow cfg) else none
  | .timeUp =>
    if autoSubmitDue cfg.state then
      some { cfg with
        state := autoSubmit cfg.state
        timers := cfg.timers ++ [Timer.submit cfg.state] }
    else none
  | .fire k env options =>
    match cfg.timers[k]? with
    | none => none
    | some (.submit c) =>
      some { cfg with
        state := handleSubmit c cfg.state
        timers := cfg.timers.eraseIdx k ++ [Timer.next c] }
    | some (.next c) =>
      let r := afterDelay p env c cfg.state
      if r.1.currentIndex = cfg.state.currentIndex then
        some { state := r.1, timers := cfg.timers.eraseIdx k, calls := cfg.calls ++ r.2 }
      else
        match p.questions[r.1.currentIndex]? with
        | none => none
        | some raw =>
          if options.isPerm (baseOptions decode raw) then
            some
              { state := { r.1 with questionData := loadQuestion decode raw options }
                timers := cfg.timers.eraseIdx k
                calls := cfg.calls ++ r.2 }
          else none

/-- The effect of a sequence of events. -/
def run (p : RouteParams) (decode : String → String) : List Event → Session → Option Session
  | [], cfg => some cfg
  | e :: es, cfg => (step p decode e cfg).bind (run p decode es)

/-- The configuration after mount: the budget of the difficulty, the first question
loaded with the shuffled `options`, no timer, no call. `none` when the budget is not a
number or the question list is empty (the first load throws). -/
def initSession (p : RouteParams) (decode : String → String) (start : ℤ)
    (options : List String) : Option Session :=
  match totalTime p.difficulty, p.questions[0]? with
  | some T, some raw =>
    if options.isPerm (baseOptions decode raw) then
      some
        { state := initialState T start (loadQuestion decode raw options)
          timers := []
          calls := [] }
    else none
  | _, _ => none

/-- The configurations a session can be in. -/
def Reachable (p : RouteParams) (decode : String → String) (cfg : Session) : Prop :=
  ∃ start options cfg0 evs,
    initSession p decode start options = some cfg0 ∧ run p decode evs cfg0 = some cfg

/-- The invariant of the reachable configurations: the time budget is that of the
difficulty and bounds the remaining time, the index is inside the question list, the
review log has one item per past question, at most one callback is scheduled and only
while the question is locked, every scheduled callback closed over a render of the
current question, the counters count at most one answer per question, and every
handoff carries one review item per question. -/
structure Inv (p : RouteParams) (cfg : Session) : Prop where
  budget : totalTime p.difficulty = some cfg.state.totalTime
  time_nonneg : 0 ≤ cfg.state.remainingTime
  time_le : cfg.state.remainingTime ≤ cfg.state.totalTime
  index_lt : cfg.state.currentIndex < p.questions.length
  review_length : cfg.state.reviewItems.length = cfg.state.currentIndex
  idle : cfg.state.submitted = false → cfg.timers = []
  timers_le : cfg.timers.length ≤ 1
  closure : ∀ t ∈ cfg.timers,
    t.closure.totalTime = cfg.state.totalTime ∧
    t.closure.currentIndex = cfg.state.currentIndex ∧
    t.closure.reviewItems = cfg.state.reviewItems
  counts_nonneg : 0 ≤ cfg.state.correctCount ∧ 0 ≤ cfg.state.incorrectCount
  counts_le :
    cfg.state.correctCount + cfg.state.incorrectCount ≤ (cfg.state.currentIndex : ℤ) + 1
  counts_idle : cfg.state.submitted = false →
    cfg.state.correctCount + cfg.state.incorrectCount ≤ (cfg.state.currentIndex : ℤ)
  counts_pending : ∀ c, Timer.submit c ∈ cfg.timers →
    cfg.state.correctCount + cfg.state.incorrectCount ≤ (cfg.state.currentIndex : ℤ)
  handoff : ∀ r, Effect.navigateResult r ∈ cfg.calls →
    r.reviewData.length = p.questions.length

/-! ## Identifiers and titles built by QuizSetContainer -/

/-- The decimal digits a template literal prints for a natural number. -/
def decimal (n : ℕ) : List Char := Nat.toDigits 10 n

/-- The search for the shortest decimal that denotes the Number `x`: the multiples of
`10 ^ j` next to `x` are tried for `j = k, k - 1, ..., 1`, and the first one whose
Number value is `x` is taken, the nearer one if both are; `x` itself is left at `j = 0`. -/
def shortestFrom (x : ℕ) : ℕ → ℕ
  | 0 => x
  | j + 1 =>
    if toNumber (x / 10 ^ (j + 1) * 10 ^ (j + 1)) = x then
      if toNumber (x / 10 ^ (j + 1) * 10 ^ (j + 1) + 10 ^ (j + 1)) = x ∧
          x / 10 ^ (j + 1) * 10 ^ (j + 1) + 10 ^ (j + 1) - x <
            x - x / 10 ^ (j + 1) * 10 ^ (j + 1) then
        x / 10 ^ (j + 1) * 10 ^ (j + 1) + 10 ^ (j + 1)
      else x / 10 ^ (j + 1) * 10 ^ (j + 1)
    else if toNumber (x / 10 ^ (j + 1) * 10 ^ (j + 1) + 10 ^ (j + 1)) = x then
      x / 10 ^ (j + 1) * 10 ^ (j + 1) + 10 ^ (j + 1)
    else shortestFrom x j

/-- The integer with the fewest significant digits whose Number value is `x`. -/
def shortestValue (x : ℕ) : ℕ := shortestFrom x (decimal x).length

/-- A digit string without its trailing zeros. -/
def dropZeros (ds : List Char) : List Char :=
  (ds.reverse.dropWhile (fun c => c = '0')).reverse

/-- The string a template literal prints for a Number `x` whose value is a natural
number (`Number::toString`): the shortest digits that denote `x`, followed by zeros up
to the size of `x` below `10 ^ 21`, and in exponent form (`1e+21`, `1.5e+22`) from
there on. -/
def numberDigits (x : ℕ) : List Char :=
  if shortestValue x < 10 ^ 21 then decimal (shortestValue x)
  else
    match dropZeros (decimal (shortestValue x)) with
    | [] => []
    | [d] => d :: 'e' :: '+' :: decimal ((decimal (shortestValue x)).length - 1)
    | d :: rest =>
      d :: '.' :: (rest ++ 'e' :: '+' :: decimal ((decimal (shortestValue x)).length - 1))

/-- The key of a quiz set, `cat${category.id}_${difficulty}_set${i}`
(QuizSetContainer.js line 37), which becomes the `quizSetId` of the session;
`categoryId` is the value of `category.id`, a Number, and `i` the loop counter, which
runs from 1 to `SETS_PER_DIFFICULTY`. -/
def quizSetKey (categoryId : ℕ) (difficulty : String) (i : ℕ) : String :=
  "cat" ++ String.mk (numberDigits categoryId) ++ "_" ++ difficulty ++ "_set" ++
    String.mk (decimal i)

/-- The title of a normal session, `#${item.displayIndex} ${category.title}`
(QuizSetContainer.js line 126). -/
def quizSetTitle (displayIndex : ℕ) (title : String) : String :=
  "#" ++ String.mk (decimal displayIndex) ++ " " ++ title

/-- The string contains an occurrence of `cat<digits>_`: the letters "cat", one or
more decimal digits and an underscore, one after the other. -/
def HasCatPattern (s : List Char) : Prop :=
  ∃ pre ds post, ds ≠ [] ∧ (∀ d ∈ ds, d.isDigit = true) ∧
    s = pre ++ 'c' :: 'a' :: 't' :: (ds ++ '_' :: post)

/-! ## The backend table behind the daily record -/

/-- The rows of one user and daily title after the backend applied a write of
`saveDailyQuizResult`: `update` rewrites the score of the rows with the given id,
`insert` adds a row under the id `fresh` chosen by the backend. -/
def applyWrite (rows : List ExistingRow) (fresh : ℤ) : Option DbWrite → List ExistingRow
  | none => rows
  | some (.update id payload) =>
    rows.map (fun r => if r.id = id then { r with score := payload.score } else r)
  | some (.insert payload) => rows ++ [{ id := fresh, score := payload.score }]

/-! ## More sample data -/

/-- The sample normal session right after mount. -/
def sampleSession : Session := { state := sampleStart, timers := [], calls := [] }

/-- The sample session after its 30 seconds ran out with nothing selected. -/
def sampleTimedOut : Session :=
  { state := { sampleStart with remainingTime := 0 }, timers := [], calls := [] }

/-- A backend holding a row of today with score 90, whose lookup request fails. -/
def sampleBackend : DailyBackend :=
  { dateTaken := "2025-07-01", timeTaken := "2025-07-01T08:00:12.000Z",
    rows := [{ id := 7, score := 90 }], lookupFails := true, writeError := false }

/-- The payload `saveDailyQuizResult` builds on 2025-07-01 for the sample user with
the given score. -/
def samplePayload (score : ℤ) : DailyPayload :=
  { user_id := some "user-123", category_id := 0, category_title := "Mixed",
    quiz_title := "Daily Quiz - 2025-07-01", difficulty := "random", score := score,
    xp := 100, time_taken_seconds := 12, date_taken := "2025-07-01",
    time_taken := "2025-07-01T08:00:12.000Z", review_data := sampleReview }

/-- A correct answer on an easy question (60 s) with a hint used, submitted with
`R` seconds left. -/
def sampleHinted (R : ℤ) : QuizState :=
  { initialState 60 0 sampleQuestion with
    remainingTime := R, selected := some "9", usedHint := true,
    eliminatedOption := some "6" }

/-! ## Sorting with the random comparator (QuizContainer.js 54, dailyQuiz.js 29)

The sort algorithm belongs to the JavaScript engine. It is modelled by an insertion
sort that asks the comparator `() => 0.5 - Math.random()` once for each comparison it
makes; `rand k` is the value of the `k`-th call of `Math.random()`. -/

/-- Inserts `x` into the part sorted so far: `x` goes before the first element for
which the comparator, at the draw `k` and after, returns a value that is not
positive. The second component is the number of the next draw. -/
def insertRandom {α : Type} (rand : ℕ → ℚ) (x : α) : ℕ → List α → List α × ℕ
  | k, [] => ([x], k)
  | k, y :: ys =>
    if 1 / 2 - rand k ≤ 0 then (x :: y :: ys, k + 1)
    else ((y :: (insertRandom rand x (k + 1) ys).1), (insertRandom rand x (k + 1) ys).2)

/-- Models `xs.sort(() => 0.5 - Math.random())`. -/
def sortRandom {α : Type} (rand : ℕ → ℚ) (xs : List α) : List α :=
  (xs.foldl (fun acc x => insertRandom rand x acc.2 acc.1) (([] : List α), 0)).1

/-- The question load effect (lines 50-61) for the record `raw`. -/
def loadShuffled (decode : String → String) (rand : ℕ → ℚ) (raw : RawQuestion) :
    QuestionData :=
  loadQuestion decode raw (sortRandom rand (baseOptions decode raw))

/-! ## The daily quiz (utils/dailyQuiz.js) -/

/-- The UTF-16 code units of a character, which `split('')` and `charCodeAt(0)` see. -/
def charCodes (c : Char) : List ℕ :=
  if c.toNat < 0x10000 then [c.toNat]
  else [0xD800 + (c.toNat - 0x10000) / 0x400, 0xDC00 + (c.toNat - 0x10000) % 0x400]

/-- The function `hashString`: the sum of the character codes of the string. -/
def hashString (str : String) : ℕ :=
  ((str.data.map charCodes).flatten).foldl (fun acc code => acc + code) 0

/-- The object returned by `generateDailyQuiz` (lines 35-42). -/
structure DailyQuiz where
  quizTitle : String
  quizSetId : String
  dateTaken : String
  categoryTitle : String
  difficulty : String
  questions : List RawQuestion
  deriving DecidableEq, Repr

/-- The key `allKeys[seed % allKeys.length]` (lines 15-21); `quizSetMap` lists the
entries of the imported map in the order of `Object.keys`. -/
def chosenKey (today : String) (quizSetMap : List (String × List RawQuestion)) :
    Option String :=
  (quizSetMap.map Prod.fst)[hashString today % (quizSetMap.map Prod.fst).length]?

/-- The function `generateDailyQuiz`, for the date string `today` and the imported
`quizSetMap` (each key with its `results`); `none` when reading `.results` of a
missing entry throws. -/
def generateDailyQuiz (today : String) (quizSetMap : List (String × List RawQuestion))
    (rand : ℕ → ℚ) : Option DailyQuiz :=
  match chosenKey today quizSetMap with
  | none => none
  | some key =>
    match quizSetMap.lookup key with
    | none => none
    | some allQuestions =>
      some
        { quizTitle := "Daily Quiz - " ++ today
          quizSetId := "daily-" ++ today
          dateTaken := today
          categoryTitle := "Mixed"
          difficulty := "random"
          questions := (sortRandom rand allQuestions).take 10 }

/-- The route parameters of a session started with `{ ...daily }`
(HomeContainer.js line 111, DailyQuizWrapper.js line 23). -/
def dailyRouteParams (q : DailyQuiz) : RouteParams :=
  { quizSetId := q.quizSetId
    quizTitle := q.quizTitle
    questions := q.questions
    difficulty := some q.difficulty }

/-! ## The time string of the result screen (ResultContainer.js 23-25) -/

/-- The string a template literal prints for an integer. -/
def numberToString (n : ℤ) : String :=
  if n < 0 then "-" ++ String.mk (decimal n.natAbs) else String.mk (decimal n.toNat)

/-- Models `timeStr`: the minutes and seconds of `timeTaken` milliseconds; `%` is the
remainder with the sign of the dividend. -/
def ResultContainer.timeStr (r : ResultParams) : String :=
  numberToString (mathFloor ((r.timeTaken : ℚ) / 60000)) ++ " m " ++
    numberToString (mathFloor (((Int.tmod r.timeTaken 60000 : ℤ) : ℚ) / 1000)) ++ " s"

/-! ## The local rank (HomeContainer.js 34-69)

Profile ids are UUIDs, so a property read of `xpMap` never meets an inherited
property; `created_at` is the time value of the parsed date. -/

/-- A row of `quiz_history` as selected for the ranking: `user_id, xp`. -/
structure XpRow where
  user_id : String
  xp : Option ℤ
  deriving DecidableEq, Repr

/-- A row of `profiles` as selected for the ranking: `id, created_at`. -/
structure Profile where
  id : String
  created_at : ℤ
  deriving DecidableEq, Repr

/-- An element of `combined` (lines 53-57). -/
structure RankEntry where
  id : String
  created_at : ℤ
  totalXP : ℤ
  deriving DecidableEq, Repr

/-- The Number value of an integer: `toNumber` of its size, with its sign. -/
def toNumberInt (z : ℤ) : ℤ :=
  if 0 ≤ z then (toNumber z.toNat : ℕ) else -((toNumber (-z).toNat : ℕ) : ℤ)

/-- Models `xpMap[id] || 0` after the `forEach` of lines 42-45: `xp || 0` of the rows
of the user, added up in the order of the rows; each `+` gives the Number value of the
sum. -/
def xpMap (historyData : List XpRow) (id : String) : ℤ :=
  (historyData.filter (fun h => h.user_id = id)).foldl
    (fun sum h => toNumberInt (sum + h.xp.getD 0)) 0

/-- The list `combined` before it is sorted. -/
def combined (historyData : List XpRow) (profiles : List Profile) : List RankEntry :=
  profiles.map (fun p => { id := p.id, created_at := p.created_at, totalXP := xpMap historyData p.id })

/-- The comparator of line 60-63. -/
def rankCompare (a b : RankEntry) : ℤ :=
  if b.totalXP ≠ a.totalXP then b.totalXP - a.totalXP else a.created_at - b.created_at

/-- The order the comparator asks for: `a` is not to come after `b`. -/
def rankBefore (a b : RankEntry) : Prop := rankCompare a b ≤ 0

instance rankBefore.decidable : DecidableRel rankBefore :=
  fun a b => inferInstanceAs (Decidable (rankCompare a b ≤ 0))

/-- Models `combined.sort(...)`: with this comparator, a consistent one, the sort
returns the elements in the order asked for, equal elements in their original order;
an insertion sort computes that list. -/
def sortedRanking (historyData : List XpRow) (profiles : List Profile) : List RankEntry :=
  (combined historyData profiles).insertionSort rankBefore

/-- The string given to `setLocalRank` (lines 66-67). -/
def localRank (historyData : List XpRow) (profiles : List Profile) (userId : String) :
    String :=
  match (sortedRanking historyData profiles).findIdx? (fun entry => entry.id = userId) with
  | some i => "#" ++ String.mk (decimal (i + 1))
  | none => "-"

/-! ## The Happy Camper badge (utils/badgeLogic.js 70, 100) -/

/-- Models `new Set(history.map(q => q.date_taken)).size`: the number of different
values of `date_taken`. -/
def datesSize (dates : List (Option String)) : ℕ := dates.dedup.length

/-- The progress given to `upsertBadgeProgress(12, ...)`: `Math.min(dates.size / 7, 1)`. -/
def happyCamperProgress (dates : List (Option String)) : ℚ :=
  min ((datesSize dates : ℚ) / 7) 1

/-- The number of the day `y-m-d` of the proleptic Gregorian calendar, counted from
1970-01-01. -/
def daysFromCivil (y m d : ℤ) : ℤ :=
  let y1 := if m ≤ 2 then y - 1 else y
  let era := y1 / 400
  let yoe := y1 - era * 400
  let mp := (m + 9) % 12
  let doy := (153 * mp + 2) / 5 + d - 1
  let doe := yoe * 365 + yoe / 4 - yoe / 100 + doy
  era * 146097 + doe - 719468

/-- The day number of a date string `YYYY-MM-DD`. -/
def dayNumber (date : String) : Option ℤ :=
  match date.data with
  | [y1, y2, y3, y4, '-', m1, m2, '-', d1, d2] =>
    if [y1, y2, y3, y4, m1, m2, d1, d2].all Char.isDigit then
      some (daysFromCivil (parseInt [y1, y2, y3, y4]) (parseInt [m1, m2]) (parseInt [d1, d2]))
    else none
  | _ => none

/-- The history has plays on 7 consecutive calendar days. -/
def SevenConsecutiveDays (dates : List (Option String)) : Prop :=
  ∃ first : ℤ, ∀ i : ℤ, 0 ≤ i → i < 7 →
    ∃ date, some date ∈ dates ∧ dayNumber date = some (first + i)

/-- A history with plays on seven days of January 2025, every second day. -/
def sampleDates : List (Option String) :=
  [some "2025-01-01", some "2025-01-03", some "2025-01-05", some "2025-01-07",
   some "2025-01-09", some "2025-01-11", some "2025-01-13", some "2025-01-13"]

/-- The hinted XP computed in the other order: halve the ratio first, take the floor
once, `floor((R / T * 100) / 2)`. -/
def halveThenFloor (R T : ℤ) : ℤ := mathFloor ((R : ℚ) / (T : ℚ) * 100 / 2)

/-- A quiz-set map with a single set holding the sample question. -/
def sampleMap : List (String × List RawQuestion) := [("cat9_hard_set1", [sampleRaw])]

/-- Another question record. -/
def sampleRawTwo : RawQuestion :=
  { question := "2 + 2 = ?", correct_answer := "4", incorrect_answers := ["3", "5", "22"] }

/-- A quiz-set map with three sets; the third one holds the sample question. -/
def sampleMapThree : List (String × List RawQuestion) :=
  [("cat9_easy_set1", [sampleRawTwo]), ("cat9_medium_set1", [sampleRawTwo, sampleRaw]),
   ("cat9_hard_set1", [sampleRaw])]

/-- The daily quiz generated from `sampleMap` on 2025-07-01. -/
def sampleDailyQuiz : DailyQuiz :=
  { quizTitle := "Daily Quiz - 2025-07-01", quizSetId := "daily-2025-07-01",
    dateTaken := "2025-07-01", categoryTitle := "Mixed", difficulty := "random",
    questions := [sampleRaw] }

/-- The history rows of four users: "u1" has 150 XP in two rows, "u2" and "u3" have
100 XP each, "u3" with a row without XP, and "u4" has 70 XP. -/
def sampleXpRows : List XpRow :=
  [⟨"u1", some 100⟩, ⟨"u2", some 100⟩, ⟨"u1", some 50⟩, ⟨"u3", some 100⟩, ⟨"u3", none⟩,
   ⟨"u4", some 70⟩]

/-- The profiles of three of the users of `sampleXpRows`: "u3" registered on
2025-07-01, "u2" on 2025-07-02 and "u1" on 2025-07-03; "u4" has no profile. -/
def sampleProfiles : List Profile :=
  [⟨"u2", 1751414400000⟩, ⟨"u3", 1751328000000⟩, ⟨"u1", 1751500800000⟩]

/-! ## Bookkeeping over a run: XP gained per question, statuses of the review -/

/-- The number of review items with the given status. -/
def countStatus (st : Status) (items : List ReviewItem) : ℤ :=
  ((items.filter (fun item => item.status = st)).length : ℤ)

/-- The XP a call on a collaborator carries, if it carries one. -/
def Effect.xpArg : Effect → Option ℤ
  | .saveDailyQuizResult _ _ x _ _ => some x
  | .insertQuizHistory record => some record.xp
  | .navigateResult params => some params.xpEarned
  | _ => none

/-- The XP gained by the submission an event performs, if it performs one: the
submit button runs `handleSubmit` of the current render, a firing timer may run the
`handleSubmit` that the auto-submit effect scheduled. -/
def gainOf (e : Event) (cfg : Session) : List ℤ :=
  match e with
  | .pressSubmit => [gainedXP cfg.state]
  | .fire k _ _ =>
    match cfg.timers[k]? with
    | some (.submit c) => [gainedXP c]
    | _ => []
  | _ => []

/-- The XP gained on each question submitted during a run, in order. -/
def xpGains (p : RouteParams) (decode : String → String) : List Event → Session → List ℤ
  | [], _ => []
  | e :: es, cfg =>
    match step p decode e cfg with
    | none => []
    | some cfg' => gainOf e cfg ++ xpGains p decode es cfg'

/-- The second invariant of the reachable configurations, for a run that gained the
XP values `g` so far: the total is their sum, one value is recorded per question
submitted, the counters agree with the statuses of the review log, every call made
carries the total and counts that agree with its review data, and the displayed
question is the decoded question at the current index with its options permuted. -/
structure Inv2 (p : RouteParams) (decode : String → String) (cfg : Session) (g : List ℤ) :
    Prop where
  total : cfg.state.totalEarnedXP = g.sum
  glen_idle : (cfg.state.submitted = false ∨ ∃ c, Timer.submit c ∈ cfg.timers) →
    g.length = cfg.state.currentIndex
  glen_locked : cfg.state.submitted = true → (∀ c, Timer.submit c ∉ cfg.timers) →
    g.length = cfg.state.currentIndex + 1
  counts_idle : (cfg.state.submitted = false ∨ ∃ c, Timer.submit c ∈ cfg.timers) →
    cfg.state.correctCount = countStatus Status.correct cfg.state.reviewItems ∧
    cfg.state.incorrectCount = countStatus Status.incorrect cfg.state.reviewItems
  pend_submit : ∀ c, Timer.submit c ∈ cfg.timers →
    c.totalEarnedXP = cfg.state.totalEarnedXP ∧
    c.correctCount = cfg.state.correctCount ∧
    c.incorrectCount = cfg.state.incorrectCount
  pend_next : ∀ c, Timer.next c ∈ cfg.timers →
    c.totalEarnedXP + gainedXP c = cfg.state.totalEarnedXP ∧
    cfg.state.correctCount = finalCorrect c ∧
    cfg.state.incorrectCount = finalIncorrect c ∧
    c.correctCount = countStatus Status.correct c.reviewItems ∧
    c.incorrectCount = countStatus Status.incorrect c.reviewItems
  finished : cfg.calls ≠ [] → cfg.state.submitted = true ∧ cfg.timers = []
  calls_xp : ∀ e ∈ cfg.calls, ∀ x, e.xpArg = some x → x = g.sum
  calls_length : cfg.calls ≠ [] → g.length = p.questions.length
  calls_counts : ∀ r, Effect.navigateResult r ∈ cfg.calls →
    r.correct = countStatus Status.correct r.reviewData ∧
    r.incorrect = countStatus Status.incorrect r.reviewData ∧
    r.unanswered = countStatus Status.unanswered r.reviewData
  question : ∃ raw, p.questions[cfg.state.currentIndex]? = some raw ∧
    cfg.state.questionData.options.Perm (baseOptions decode raw) ∧
    cfg.state.questionData.question = decode raw.question ∧
    cfg.state.questionData.correctAnswer = decode raw.correct_answer

/-- A normal session of two questions. -/
def sampleTwo : RouteParams :=
  { quizSetId := "cat9_hard_set1", quizTitle := "#1 General Knowledge",
    questions := [sampleRaw, sampleRaw], difficulty := some "hard" }

/-- The events of a session of two questions: the first answered correctly ("9"),
the second incorrectly ("6"), each submitted with the button. -/
def sampleTwoEvents : List Event :=
  [Event.pressOption "9", Event.pressSubmit, Event.fire 0 sampleEnv ["6", "9", "12", "3"],
   Event.pressOption "6", Event.pressSubmit, Event.fire 0 sampleEnv []]

/-- The counts of the payloads handed off among the calls of a configuration. -/
def handoffCounts (cfg : Session) : List (ℤ × ℤ × ℤ × ℤ) :=
  cfg.calls.filterMap (fun e =>
    match e with
    | .navigateResult r => some (r.totalQuestions, r.correct, r.incorrect, r.unanswered)
    | _ => none)

/-- The sample normal session after its only question was answered with "9" and
submitted, and the delayed callback finished it. -/
def sampleFinished : Session :=
  { state := sampleSubmitted
    timers := []
    calls :=
      [Effect.insertQuizHistory sampleRecord,
       Effect.navigateResult (sampleResult "#1 General Knowledge")] }

/-- The events that lead the sample normal session to `sampleFinished`. -/
def sampleEvents : List Event :=
  [Event.pressOption "9", Event.pressSubmit, Event.fire 0 sampleEnv []]

/-- The two-question sample session with its first question answered and submitted:
the delayed callback of the render `sampleAnswered` is pending. -/
def sampleTwoLocked : Session :=
  { state := sampleSubmitted, timers := [Timer.next sampleAnswered], calls := [] }

/-- The two-question sample session after the advance to its second question. -/
def sampleTwoAdvanced : Session :=
  { state :=
      { advance sampleAnswered sampleSubmitted with
        questionData := loadQuestion id sampleRaw ["6", "9", "12", "3"] }
    timers := []
    calls := [] }

/-! ## Arithmetic of `Math.floor` and `Math.round` on ratios -/

theorem mathFloor_intCast_div (a b : ℤ) (hb : 0 < b) :
    mathFloor ((a : ℚ) / (b : ℚ)) = a / b := by
  obtain ⟨n, rfl⟩ := Int.eq_ofNat_of_zero_le hb.le
  simpa [mathFloor] using Rat.floor_intCast_div_natCast a n

theorem mathFloor_ratio (R T : ℤ) (hT : 0 < T) :
    mathFloor ((R : ℚ) / (T : ℚ) * 100) = R * 100 / T := by
  rw [← mathFloor_intCast_div _ _ hT]
  congr 1
  push_cast
  ring

theorem mathRound_ratio (a n : ℤ) (hn : 0 < n) :
    mathRound ((a : ℚ) / (n : ℚ) * 100) = (200 * a + n) / (2 * n) := by
  have h2 : (0 : ℤ) < 2 * n := by omega
  rw [← mathFloor_intCast_div _ _ h2]
  unfold mathRound mathFloor
  congr 1
  have : (n : ℚ) ≠ 0 := by exact_mod_cast hn.ne'
  push_cast
  field_simp
  ring


/-! ## Numbers: integers below `2 ^ 53` are Numbers -/

theorem roundHalfEven_intCast (m : ℤ) : roundHalfEven (m : ℚ) = m := by
  simp [roundHalfEven]

theorem toDouble_natCast (n : ℕ) (h : n < 2 ^ 53) : toDouble (n : ℚ) = n := by
  by_cases h0 : n = 0
  · subst h0
    simp [toDouble]
  have hpos : (0 : ℚ) < n := by exact_mod_cast Nat.pos_of_ne_zero h0
  have hlog : Int.log 2 (n : ℚ) = (Nat.log 2 n : ℤ) := Int.log_natCast 2 n
  have he : Nat.log 2 n < 53 := Nat.log_lt_of_lt_pow h0 h
  obtain ⟨k, hk⟩ : ∃ k : ℕ, (52 : ℤ) - (Nat.log 2 n : ℤ) = (k : ℤ) :=
    ⟨52 - Nat.log 2 n, by omega⟩
  have hk2 : (Nat.log 2 n : ℤ) - 52 = -(k : ℤ) := by omega
  have hcast : (n : ℚ) * 2 ^ (k : ℤ) = ((n * 2 ^ k : ℕ) : ℤ) := by
    rw [zpow_natCast]
    push_cast
    ring
  unfold toDouble
  rw [if_neg hpos.ne', abs_of_pos hpos, hlog, hk, hk2, hcast, roundHalfEven_intCast,
    if_neg (not_lt.mpr hpos.le)]
  push_cast
  rw [zpow_neg, zpow_natCast]
  field_simp

theorem toDouble_one : toDouble 1 = 1 := by
  simpa using toDouble_natCast 1 (by norm_num)

theorem toDouble_hundred : toDouble 100 = 100 := by
  simpa using toDouble_natCast 100 (by norm_num)

/-! ## Evaluation of the sample session -/

theorem sample_score (p : RouteParams) (h : p.questions.length = 1) :
    score p sampleAnswered = 0 := by
  norm_num [score, h, sampleAnswered, sampleStart, initialState, onPressOption, mathRound,
    toDouble]

theorem sample_xp : xp sampleAnswered = 100 := by
  have hu : isUnanswered sampleAnswered = false := by decide
  have hc : isCorrect sampleAnswered = true := by decide
  simp only [xp, gainedXP, hu, hc]
  norm_num [sampleAnswered, sampleStart, initialState, onPressOption, mathFloor]

theorem sample_timeTaken (env : Env) (h : env.now = 12000) :
    timeTaken env sampleAnswered = 12 := by
  norm_num [timeTaken, h, sampleAnswered, sampleStart, initialState, onPressOption, mathFloor]

theorem sample_fullReview : fullReview sampleAnswered = sampleReview := by
  decide

theorem sample_resultParams (p : RouteParams) (env : Env) (h : p.questions.length = 1)
    (hn : env.now = 12000) :
    resultParams p env sampleAnswered = sampleResult p.quizTitle := by
  simp [resultParams, sampleResult, sample_xp, sample_timeTaken env hn, sample_fullReview, h,
    finalUnanswered]
  decide

theorem sample_last (p : RouteParams) (h : p.questions.length = 1) :
    ((sampleAnswered.currentIndex : ℤ) < (p.questions.length : ℤ) - 1) = False := by
  simp [sampleAnswered, sampleStart, initialState, onPressOption, h]

theorem sample_finish_daily (p : RouteParams) (env : Env) (h : p.questions.length = 1)
    (hn : env.now = 12000) (ht : startsWith p.quizTitle "Daily Quiz -" = true) :
    (afterDelay p env sampleAnswered sampleSubmitted).2 =
      Effect.saveDailyQuizResult env.userId 0 100 sampleReview 12 ::
        (if (saveDailyQuizResult env.daily env.userId 0 100 sampleReview 12).2 then []
         else Effect.cancelAllScheduledNotifications ::
           (if env.cancelRejects then []
            else Effect.setLastDailyQuizDate env.dateString ::
              (if env.setItemRejects then []
               else [Effect.navigateResult (sampleResult p.quizTitle)]))) := by
  simp only [afterDelay, sample_last p h, if_false, finish, ht, if_true, sample_score p h,
    sample_xp, sample_timeTaken env hn, sample_fullReview, sample_resultParams p env h hn]

theorem sample_finish_normal (env : Env) (hn : env.now = 12000)
    (hu : env.userId = some "user-123") :
    (afterDelay sampleNormal env sampleAnswered sampleSubmitted).2 =
      [Effect.insertQuizHistory sampleRecord,
       Effect.navigateResult (sampleResult "#1 General Knowledge")] := by
  have ht : startsWith sampleNormal.quizTitle "Daily Quiz -" = false := by decide
  have hc : category_id sampleNormal.quizSetId = some 9 := by decide
  have hr : historyRecord sampleNormal env sampleAnswered 9 = sampleRecord := by
    simp only [historyRecord, sample_score sampleNormal rfl, sample_xp,
      sample_timeTaken env hn, sample_fullReview, hu]
    decide
  simp only [afterDelay, sample_last sampleNormal rfl, if_false, finish, ht, hc, hr,
    sample_resultParams sampleNormal env rfl hn]
  simp [sampleNormal]

/-! ## The claims -/

/-- Claim C1 (evaluation at the failing input). A single-question daily session,
answered correctly: the score given to `saveDailyQuizResult` is 0, computed from the
correct count of the render before the last answer, while the payload handed to the
result screen has `correct = 1` and the result screen shows 100. -/
theorem finish_score_omits_last_answer :
    (afterDelay sampleDaily sampleEnv sampleAnswered sampleSubmitted).2 =
      [Effect.saveDailyQuizResult (some "user-123") 0 100 sampleReview 12,
       Effect.cancelAllScheduledNotifications,
       Effect.setLastDailyQuizDate "Tue Jul 01 2025",
       Effect.navigateResult (sampleResult "Daily Quiz - 2025-07-01")] ∧
    (sampleResult "Daily Quiz - 2025-07-01").correct = 1 ∧
    ResultContainer.score (sampleResult "Daily Quiz - 2025-07-01") = 100 := by
  refine ⟨?_, rfl, ?_⟩
  · rw [sample_finish_daily sampleDaily sampleEnv rfl rfl (by decide)]
    simp [saveDailyQuizResult, DailyBackend.existing, sampleEnv, sampleDaily]
  · norm_num [ResultContainer.score, sampleResult, mathRound, toDouble_one, toDouble_hundred]

/-- Claim C2. A correct answer submitted in a render with remaining time `R` and time
budget `T > 0` gains `floor(R / T * 100)` XP without a hint and
`floor(floor(R / T * 100) / 2)` with one, the floors taken over the exact rationals
(equivalently the integer quotients `100 R / T` and `(100 R / T) / 2`); this is the
value `handleSubmit` stores in `earnedXP`. It holds for every integer `R`. -/
theorem gainedXP_of_correct (c s : QuizState)
    (hsel : c.selected = some c.questionData.correctAnswer) (hT : 0 < c.totalTime) :
    (handleSubmit c s).earnedXP = gainedXP c ∧
    gainedXP c =
      (if c.usedHint then
        ⌊((⌊(c.remainingTime : ℚ) / (c.totalTime : ℚ) * 100⌋ : ℤ) : ℚ) / 2⌋
       else ⌊(c.remainingTime : ℚ) / (c.totalTime : ℚ) * 100⌋) ∧
    gainedXP c =
      (if c.usedHint then c.remainingTime * 100 / c.totalTime / 2
       else c.remainingTime * 100 / c.totalTime) := by
  have hu : isUnanswered c = false := by simp [isUnanswered, hsel]
  have hc : isCorrect c = true := by simp [isCorrect, hsel]
  have h2 : ∀ a : ℤ, mathFloor ((a : ℚ) / 2) = a / 2 := fun a => by
    simpa using mathFloor_intCast_div a 2 (by norm_num)
  refine ⟨rfl, by simp [gainedXP, hu, hc, mathFloor], ?_⟩
  simp only [gainedXP, hu, hc, mathFloor_ratio _ _ hT, h2]
  simp

/-- Witness of `gainedXP_of_correct`: 29 of 30 seconds left, no hint, gives 96 XP. -/
theorem gainedXP_of_correct_witness :
    gainedXP { sampleAnswered with remainingTime := 29 } = 96 := by
  have h := (gainedXP_of_correct { sampleAnswered with remainingTime := 29 } sampleAnswered
    (by decide) (by decide)).2.2
  rw [h]
  decide

/-- Claim C3. A submission whose selected answer is `null` or differs from the correct
answer gains exactly 0 XP, whatever the remaining time and the hint flag, and leaves
the total XP of the session unchanged. -/
theorem gainedXP_of_not_correct (c s : QuizState)
    (h : c.selected = none ∨ c.selected ≠ some c.questionData.correctAnswer) :
    gainedXP c = 0 ∧ (handleSubmit c s).earnedXP = 0 ∧
      (handleSubmit c s).totalEarnedXP = s.totalEarnedXP ∧ xp c = c.totalEarnedXP := by
  have hg : gainedXP c = 0 := by
    rcases h with h | h
    · simp [gainedXP, isUnanswered, h]
    · simp [gainedXP, isCorrect, h]
  refine ⟨hg, ?_, ?_, ?_⟩
  · simpa [handleSubmit] using hg
  · simp [handleSubmit, hg]
  · simp [xp, hg]

/-- Witness of `gainedXP_of_not_correct`: nothing selected on the sample question. -/
theorem gainedXP_of_not_correct_witness :
    gainedXP sampleStart = 0 ∧ (handleSubmit sampleStart sampleStart).earnedXP = 0 ∧
      (handleSubmit sampleStart sampleStart).totalEarnedXP = sampleStart.totalEarnedXP ∧
      xp sampleStart = sampleStart.totalEarnedXP :=
  gainedXP_of_not_correct sampleStart sampleStart (Or.inl rfl)

/-- Claim C9. A second press of the hint button on the same question changes nothing:
the state after two presses is the state after the first, whatever the random draws. -/
theorem onPressHint_twice (r1 r2 : ℚ) (s : QuizState) :
    onPressHint r2 (onPressHint r1 s) = onPressHint r1 s := by
  unfold onPressHint
  cases hs : s.usedHint <;> simp [hs, handleHint]

/-- Claim C10 (evaluation at the failing input). After the sample answer is submitted
(`submitted = true`, no hint used so far), a press of the hint button still runs
`handleHint`: `usedHint` becomes true and an option is eliminated. -/
theorem onPressHint_after_submit :
    sampleSubmitted.submitted = true ∧ sampleSubmitted.usedHint = false ∧
    sampleSubmitted.eliminatedOption = none ∧
    (onPressHint 0 sampleSubmitted).usedHint = true ∧
    (onPressHint 0 sampleSubmitted).eliminatedOption = some "6" := by
  refine ⟨rfl, rfl, rfl, rfl, ?_⟩
  have hf : sampleSubmitted.questionData.options.filter
      (fun o => o != sampleSubmitted.questionData.correctAnswer) = ["6", "12", "3"] := by
    decide
  have hu : sampleSubmitted.usedHint = false := rfl
  simp only [onPressHint, hu, handleHint, hf]
  simp [mathFloor, jsIndex]

theorem jsIndex_mem {α : Type} (xs : List α) (k : ℤ) (a : α) (h : jsIndex xs k = some a) :
    a ∈ xs := by
  unfold jsIndex at h
  split at h
  · exact absurd h (by simp)
  · exact List.getElem?_mem h

theorem jsIndex_isSome {α : Type} (xs : List α) (k : ℤ) (h0 : 0 ≤ k) (h1 : k < xs.length) :
    ∃ a, jsIndex xs k = some a := by
  unfold jsIndex
  rw [if_neg (by omega)]
  have hlt : k.toNat < xs.length := by omega
  exact ⟨xs[k.toNat], List.getElem?_eq_getElem hlt⟩

/-- Claim C8. For every option list, correct answer and random value in `[0, 1)`, the
option chosen by `handleHint` is never the correct answer: it is an option different
from the correct answer, or absent when every option equals the correct answer. -/
theorem handleHint_never_correct (rand : ℚ) (s : QuizState) (h0 : 0 ≤ rand) (h1 : rand < 1) :
    (handleHint rand s).eliminatedOption ≠ some s.questionData.correctAnswer ∧
    ((∃ o, (handleHint rand s).eliminatedOption = some o ∧ o ∈ s.questionData.options ∧
        o ≠ s.questionData.correctAnswer) ∨
     ((handleHint rand s).eliminatedOption = none ∧
        ∀ o ∈ s.questionData.options, o = s.questionData.correctAnswer)) := by
  have key : ∀ o, (handleHint rand s).eliminatedOption = some o →
      o ∈ s.questionData.options ∧ o ≠ s.questionData.correctAnswer := by
    intro o ho
    have hm := jsIndex_mem _ _ _ ho
    simpa using hm
  refine ⟨fun h => (key _ h).2 rfl, ?_⟩
  by_cases hne : s.questionData.options.filter (fun o => o != s.questionData.correctAnswer) = []
  · right
    constructor
    · simp [handleHint, hne, jsIndex]
    · intro o ho
      by_contra hc
      have : o ∈ s.questionData.options.filter (fun o => o != s.questionData.correctAnswer) := by
        simp [ho, hc]
      rw [hne] at this
      exact absurd this (by simp)
  · left
    set inc := s.questionData.options.filter (fun o => o != s.questionData.correctAnswer) with hinc
    have hpos : 0 < inc.length := List.length_pos.mpr hne
    have hposq : (0 : ℚ) < (inc.length : ℚ) := by exact_mod_cast hpos
    have hk0 : 0 ≤ mathFloor (rand * inc.length) := Int.floor_nonneg.mpr (by positivity)
    have hk1 : mathFloor (rand * inc.length) < inc.length := by
      unfold mathFloor
      rw [Int.floor_lt]
      push_cast
      nlinarith
    obtain ⟨a, ha⟩ := jsIndex_isSome inc _ hk0 hk1
    have ha' : (handleHint rand s).eliminatedOption = some a := ha
    exact ⟨a, ha', key a ha'⟩

/-- Witness of `handleHint_never_correct`: the random value 1/2 on the sample question. -/
theorem handleHint_never_correct_witness :
    (handleHint (1 / 2) sampleStart).eliminatedOption ≠ some "9" :=
  (handleHint_never_correct (1 / 2) sampleStart (by norm_num) (by norm_num)).1

/-- Claim C7. The parameters handed to the result screen at the end of a session
satisfy `correct + incorrect + unanswered = totalQuestions`. -/
theorem resultParams_counts_sum (p : RouteParams) (env : Env) (c s : QuizState)
    (r : ResultParams) (h : Effect.navigateResult r ∈ (afterDelay p env c s).2) :
    r.correct + r.incorrect + r.unanswered = r.totalQuestions := by
  have hr : r = resultParams p env c := by
    unfold afterDelay at h
    split at h
    · simp at h
    · unfold finish at h
      split at h
      · simp only [List.mem_cons] at h
        rcases h with h | h
        · cases h
        · split at h
          · simp at h
          · simp only [List.mem_cons] at h
            rcases h with h | h
            · cases h
            · split at h
              · simp at h
              · simp only [List.mem_cons] at h
                rcases h with h | h
                · cases h
                · split at h
                  · simp at h
                  · simpa using h
      · split at h
        · simp at h
        · simpa using h
  subst hr
  simp [resultParams, finalUnanswered]

/-- Witness of `resultParams_counts_sum`: the end of the sample daily session. -/
theorem resultParams_counts_sum_witness :
    (sampleResult "Daily Quiz - 2025-07-01").correct +
      (sampleResult "Daily Quiz - 2025-07-01").incorrect +
      (sampleResult "Daily Quiz - 2025-07-01").unanswered =
      (sampleResult "Daily Quiz - 2025-07-01").totalQuestions :=
  resultParams_counts_sum sampleDaily sampleEnv sampleAnswered sampleSubmitted _
    (by
      rw [sample_finish_daily sampleDaily sampleEnv rfl rfl (by decide)]
      simp [saveDailyQuizResult, DailyBackend.existing, sampleEnv, sampleDaily])

/-- Claim C4 (counterexample). The title "Daily Quiz -2025" does not start with
"Daily Quiz - " (with the trailing space), yet the session takes the daily path:
`saveDailyQuizResult` is called, notifications are cancelled and no `quiz_history`
insert is made. -/
theorem daily_path_without_trailing_space :
    startsWith sampleNoSpace.quizTitle "Daily Quiz - " = false ∧
    (afterDelay sampleNoSpace sampleEnv sampleAnswered sampleSubmitted).2 =
      [Effect.saveDailyQuizResult (some "user-123") 0 100 sampleReview 12,
       Effect.cancelAllScheduledNotifications,
       Effect.setLastDailyQuizDate "Tue Jul 01 2025",
       Effect.navigateResult (sampleResult "Daily Quiz -2025")] := by
  refine ⟨by decide, ?_⟩
  rw [sample_finish_daily sampleNoSpace sampleEnv rfl rfl (by decide)]
  simp [saveDailyQuizResult, DailyBackend.existing, sampleEnv, sampleNoSpace]

/-- Claim C4 (amended). The finishing branch takes the daily path exactly when the
title starts with the 12 characters `Daily Quiz -`: then `saveDailyQuizResult` is the
first call, no `quiz_history` insert is made, and notifications are cancelled once the
daily save has resolved. Otherwise `saveDailyQuizResult` and the cancellation are never
called, and the `quiz_history` insert followed by the handoff are the calls made
whenever the quiz set id contains `cat<digits>_`. -/
theorem finish_branch (p : RouteParams) (env : Env) (c : QuizState) :
    (startsWith p.quizTitle "Daily Quiz -" = true →
      (∃ rest, finish p env c =
        Effect.saveDailyQuizResult env.userId (score p c) (xp c) (fullReview c)
          (timeTaken env c) :: rest) ∧
      (∀ r, Effect.insertQuizHistory r ∉ finish p env c) ∧
      ((saveDailyQuizResult env.daily env.userId (score p c) (xp c) (fullReview c)
          (timeTaken env c)).2 = false →
        Effect.cancelAllScheduledNotifications ∈ finish p env c)) ∧
    (startsWith p.quizTitle "Daily Quiz -" = false →
      (∀ u sc x rv t, Effect.saveDailyQuizResult u sc x rv t ∉ finish p env c) ∧
      Effect.cancelAllScheduledNotifications ∉ finish p env c ∧
      (∀ cat, category_id p.quizSetId = some cat →
        finish p env c =
          [Effect.insertQuizHistory (historyRecord p env c cat),
           Effect.navigateResult (resultParams p env c)])) := by
  constructor
  · intro h
    refine ⟨⟨_, by rw [finish, if_pos h]⟩, ?_, ?_⟩
    · intro r hr
      rw [finish, if_pos h] at hr
      split_ifs at hr <;> simp at hr
    · intro hs
      simp [finish, h, hs]
  · intro h
    have hn : ¬ startsWith p.quizTitle "Daily Quiz -" = true := by simp [h]
    refine ⟨?_, ?_, ?_⟩
    · intro u sc x rv t hm
      rw [finish, if_neg hn] at hm
      split at hm <;> simp at hm
    · intro hm
      rw [finish, if_neg hn] at hm
      split at hm <;> simp at hm
    · intro cat hc
      simp [finish, h, hc]

/-- Witness of `finish_branch`: the sample daily session and the sample normal session. -/
theorem finish_branch_witness :
    Effect.cancelAllScheduledNotifications ∈ finish sampleDaily sampleEnv sampleAnswered ∧
    finish sampleNormal sampleEnv sampleAnswered =
      [Effect.insertQuizHistory (historyRecord sampleNormal sampleEnv sampleAnswered 9),
       Effect.navigateResult (resultParams sampleNormal sampleEnv sampleAnswered)] :=
  ⟨((finish_branch sampleDaily sampleEnv sampleAnswered).1 (by decide)).2.2 rfl,
   ((finish_branch sampleNormal sampleEnv sampleAnswered).2 (by decide)).2.2 9 (by decide)⟩

/-- Claim C5 (evaluation at the failing input). When the backend reports an error on
every write, the daily session stops after `saveDailyQuizResult`: its rejection ends
the callback and the result screen is never opened. The normal session, whose insert
resolves with the error, still opens it. -/
theorem finish_daily_write_error :
    (afterDelay sampleDaily sampleEnvWriteError sampleAnswered sampleSubmitted).2 =
      [Effect.saveDailyQuizResult (some "user-123") 0 100 sampleReview 12] ∧
    (afterDelay sampleNormal sampleEnvWriteError sampleAnswered sampleSubmitted).2 =
      [Effect.insertQuizHistory sampleRecord,
       Effect.navigateResult (sampleResult "#1 General Knowledge")] := by
  refine ⟨?_, sample_finish_normal sampleEnvWriteError rfl rfl⟩
  rw [sample_finish_daily sampleDaily sampleEnvWriteError rfl rfl (by decide)]
  simp [saveDailyQuizResult, DailyBackend.existing, sampleEnvWriteError, sampleEnv]

/-- Claim C6 (counterexample). The difficulty "random" of a generated daily quiz gets
the budget 60, not the hard budget 30. -/
theorem totalTime_random :
    totalTime (some "random") = some 60 ∧ totalTime (some "random") ≠ some 30 := by
  decide

/-- Claim C6 (amended). The time budget is 60 for "easy", 45 for "medium" and 30 for
"hard", compared case-insensitively; it is 60 for every other string whose lower-case
form is not the name of a property that every object inherits ("constructor",
"__proto__"), such as "random"; an absent difficulty gives 30. -/
theorem totalTime_by_difficulty (d : String) :
    (toLowerCase d = "easy" → totalTime (some d) = some 60) ∧
    (toLowerCase d = "medium" → totalTime (some d) = some 45) ∧
    (toLowerCase d = "hard" → totalTime (some d) = some 30) ∧
    (toLowerCase d ≠ "easy" → toLowerCase d ≠ "medium" → toLowerCase d ≠ "hard" →
      toLowerCase d ≠ "constructor" → toLowerCase d ≠ "__proto__" →
      totalTime (some d) = some 60) ∧
    totalTime none = some 30 := by
  refine ⟨?_, ?_, ?_, ?_, by decide⟩
  · intro h
    simp [totalTime, durationByDifficulty, h]
  · intro h
    simp [totalTime, durationByDifficulty, h]
  · intro h
    simp [totalTime, durationByDifficulty, h]
  · intro h1 h2 h3 h4 h5
    simp [totalTime, durationByDifficulty, h1, h2, h3, h4, h5]

/-- Witness of `totalTime_by_difficulty`: "EASY", "Medium", "hard" and "mixed". -/
theorem totalTime_by_difficulty_witness :
    totalTime (some "EASY") = some 60 ∧ totalTime (some "Medium") = some 45 ∧
    totalTime (some "hard") = some 30 ∧ totalTime (some "mixed") = some 60 :=
  ⟨(totalTime_by_difficulty "EASY").1 (by decide),
   (totalTime_by_difficulty "Medium").2.1 (by decide),
   (totalTime_by_difficulty "hard").2.2.1 (by decide),
   (totalTime_by_difficulty "mixed").2.2.2.1 (by decide) (by decide) (by decide) (by decide)
     (by decide)⟩


/-! ## The invariant of the reachable configurations -/

theorem durationByDifficulty_cases (key : String) :
    durationByDifficulty key = .number 60 ∨ durationByDifficulty key = .number 45 ∨
    durationByDifficulty key = .number 30 ∨ durationByDifficulty key = .inherited ∨
    durationByDifficulty key = .undefined := by
  unfold durationByDifficulty
  split_ifs <;> simp

theorem totalTime_values (d : Option String) (T : ℤ) (h : totalTime d = some T) :
    T = 60 ∨ T = 45 ∨ T = 30 := by
  unfold totalTime at h
  rcases durationByDifficulty_cases (toLowerCase (d.getD "hard")) with hd | hd | hd | hd | hd <;>
    rw [hd] at h <;> simp at h <;> omega

theorem timers_single {ts : List Timer} {k : ℕ} {t : Timer} (hl : ts.length ≤ 1)
    (hk : ts[k]? = some t) : ts = [t] ∧ ts.eraseIdx k = [] := by
  cases ts with
  | nil => exact absurd hk (by simp)
  | cons a tl =>
    cases tl with
    | nil =>
      cases k with
      | zero =>
        have : a = t := by simpa using hk
        subst this
        exact ⟨rfl, rfl⟩
      | succ k => exact absurd hk (by simp)
    | cons b tl => exact absurd hl (by simp)

theorem handleSubmit_counts (c s : QuizState) :
    (handleSubmit c s).correctCount + (handleSubmit c s).incorrectCount ≤
        s.correctCount + s.incorrectCount + 1 ∧
    s.correctCount ≤ (handleSubmit c s).correctCount ∧
    s.incorrectCount ≤ (handleSubmit c s).incorrectCount := by
  simp only [handleSubmit]
  cases isUnanswered c <;> cases isCorrect c <;> simp <;> omega

theorem finish_handoff (p : RouteParams) (env : Env) (c : QuizState) (r : ResultParams)
    (h : Effect.navigateResult r ∈ finish p env c) : r = resultParams p env c := by
  unfold finish at h
  split_ifs at h <;> first | (simp at h; try exact h) | skip
  split at h <;> simp at h
  exact h

theorem inv_init (p : RouteParams) (decode : String → String) (start : ℤ)
    (options : List String) (cfg : Session)
    (h : initSession p decode start options = some cfg) : Inv p cfg := by
  unfold initSession at h
  split at h
  · rename_i T raw hT hq
    split_ifs at h
    cases h
    have hv := totalTime_values _ _ hT
    have hlen : 0 < p.questions.length := by
      rcases List.getElem?_eq_some.mp hq with ⟨hlt, _⟩
      exact hlt
    refine ⟨hT, ?_, ?_, hlen, rfl, fun _ => rfl, by simp, by simp, by simp [initialState],
      by simp [initialState], by simp [initialState], by simp, by simp⟩
    · simp only [initialState]; omega
    · simp [initialState]
  · cases h

theorem inv_frame (p : RouteParams) (cfg : Session) (s : QuizState) (hi : Inv p cfg)
    (h1 : s.totalTime = cfg.state.totalTime) (h2 : s.currentIndex = cfg.state.currentIndex)
    (h3 : s.reviewItems = cfg.state.reviewItems) (h4 : s.submitted = cfg.state.submitted)
    (h5 : s.correctCount = cfg.state.correctCount)
    (h6 : s.incorrectCount = cfg.state.incorrectCount)
    (h7 : 0 ≤ s.remainingTime) (h8 : s.remainingTime ≤ s.totalTime) :
    Inv p { cfg with state := s } where
  budget := by simpa [h1] using hi.budget
  time_nonneg := h7
  time_le := h8
  index_lt := by simpa [h2] using hi.index_lt
  review_length := by simpa [h2, h3] using hi.review_length
  idle := by simpa [h4] using hi.idle
  timers_le := hi.timers_le
  closure := by simpa [h1, h2, h3] using hi.closure
  counts_nonneg := by simpa [h5, h6] using hi.counts_nonneg
  counts_le := by simpa [h2, h5, h6] using hi.counts_le
  counts_idle := by simpa [h2, h4, h5, h6] using hi.counts_idle
  counts_pending := by simpa [h2, h5, h6] using hi.counts_pending
  handoff := hi.handoff

theorem inv_tick (p : RouteParams) (cfg : Session) (hi : Inv p cfg) :
    Inv p { cfg with state := tick cfg.state } := by
  have h0 := hi.time_nonneg
  have h1 := hi.time_le
  apply inv_frame p cfg _ hi <;> simp only [tick, tickUpdate] <;> try rfl
  · split_ifs <;> omega
  · split_ifs <;> omega

theorem inv_pressOption (p : RouteParams) (cfg : Session) (item : String) (hi : Inv p cfg) :
    Inv p { cfg with state := onPressOption item cfg.state } := by
  unfold onPressOption
  split_ifs
  · exact inv_frame p cfg _ hi rfl rfl rfl rfl rfl rfl hi.time_nonneg hi.time_le
  · exact hi

theorem inv_pressHint (p : RouteParams) (cfg : Session) (rand : ℚ) (hi : Inv p cfg) :
    Inv p { cfg with state := onPressHint rand cfg.state } := by
  unfold onPressHint
  split_ifs
  · exact inv_frame p cfg _ hi rfl rfl rfl rfl rfl rfl hi.time_nonneg hi.time_le
  · exact hi

theorem inv_submitNow (p : RouteParams) (cfg : Session) (hi : Inv p cfg)
    (hs : cfg.state.submitted = false) : Inv p (submitNow cfg) := by
  have ht := hi.idle hs
  have hc := handleSubmit_counts cfg.state cfg.state
  have hn := hi.counts_nonneg
  have hl := hi.counts_idle hs
  refine ⟨hi.budget, hi.time_nonneg, hi.time_le, hi.index_lt, hi.review_length, ?_, ?_, ?_,
    ?_, ?_, ?_, ?_, hi.handoff⟩
  · intro h; simp [submitNow, handleSubmit] at h
  · simp [submitNow, ht]
  · intro t hmem
    simp only [submitNow, ht, List.nil_append, List.mem_singleton] at hmem
    subst hmem
    exact ⟨rfl, rfl, rfl⟩
  · exact ⟨le_trans hn.1 hc.2.1, le_trans hn.2 hc.2.2⟩
  · have h2 : (submitNow cfg).state.currentIndex = cfg.state.currentIndex := rfl
    rw [h2]
    exact le_trans hc.1 (by omega)
  · intro h; simp [submitNow, handleSubmit] at h
  · intro c hmem
    simp [submitNow, ht] at hmem

theorem inv_timeUp (p : RouteParams) (cfg : Session) (hi : Inv p cfg)
    (hs : cfg.state.submitted = false) :
    Inv p { cfg with
      state := autoSubmit cfg.state
      timers := cfg.timers ++ [Timer.submit cfg.state] } := by
  have ht := hi.idle hs
  refine ⟨hi.budget, hi.time_nonneg, hi.time_le, hi.index_lt, hi.review_length, ?_, ?_, ?_,
    hi.counts_nonneg, hi.counts_le, ?_, ?_, hi.handoff⟩
  · intro h; simp [autoSubmit] at h
  · simp [ht]
  · intro t hmem
    simp only [ht, List.nil_append, List.mem_singleton] at hmem
    subst hmem
    exact ⟨rfl, rfl, rfl⟩
  · intro h; simp [autoSubmit] at h
  · intro c _
    exact hi.counts_idle hs

theorem inv_fire_submit (p : RouteParams) (cfg : Session) (k : ℕ) (c : QuizState)
    (hi : Inv p cfg) (hk : cfg.timers[k]? = some (Timer.submit c)) :
    Inv p { cfg with
      state := handleSubmit c cfg.state
      timers := cfg.timers.eraseIdx k ++ [Timer.next c] } := by
  obtain ⟨ht, he⟩ := timers_single hi.timers_le hk
  have hcl := hi.closure (Timer.submit c) (by simp [ht])
  have hc := handleSubmit_counts c cfg.state
  have hn := hi.counts_nonneg
  have hl := hi.counts_pending c (by simp [ht])
  refine ⟨hi.budget, hi.time_nonneg, hi.time_le, hi.index_lt, hi.review_length, ?_, ?_, ?_,
    ?_, ?_, ?_, ?_, hi.handoff⟩
  · intro h; simp [handleSubmit] at h
  · simp [he]
  · intro t hmem
    simp only [he, List.nil_append, List.mem_singleton] at hmem
    subst hmem
    exact hcl
  · exact ⟨le_trans hn.1 hc.2.1, le_trans hn.2 hc.2.2⟩
  · have h2 : (handleSubmit c cfg.state).currentIndex = cfg.state.currentIndex := rfl
    simp only [h2]
    exact le_trans hc.1 (by omega)
  · intro h; simp [handleSubmit] at h
  · intro c' hmem
    simp [he] at hmem

theorem fullReview_length (c : QuizState) :
    (fullReview c).length = c.reviewItems.length + 1 := by
  simp [fullReview]

theorem inv_fire_advance (p : RouteParams) (cfg : Session) (k : ℕ) (c : QuizState)
    (qd : QuestionData) (hi : Inv p cfg) (hk : cfg.timers[k]? = some (Timer.next c))
    (hlt : (c.currentIndex : ℤ) < (p.questions.length : ℤ) - 1) :
    Inv p
      { state := { advance c cfg.state with questionData := qd }
        timers := cfg.timers.eraseIdx k
        calls := cfg.calls ++ [] } := by
  obtain ⟨ht, he⟩ := timers_single hi.timers_le hk
  obtain ⟨hc1, hc2, hc3⟩ := hi.closure (Timer.next c) (by simp [ht])
  simp only [Timer.closure] at hc1 hc2 hc3
  have hv := totalTime_values _ _ hi.budget
  have hn := hi.counts_nonneg
  have hl := hi.counts_le
  refine ⟨hi.budget, ?_, ?_, ?_, ?_, fun _ => he, by simp [he], by simp [he], hn, ?_, ?_,
    by simp [he], by simpa using hi.handoff⟩
  · simp only [advance, hc1]; omega
  · simp only [advance, hc1]; exact le_refl _
  · simp only [advance]; omega
  · simp only [advance, fullReview_length, hc3, hi.review_length, hc2]
  · simp only [advance, hc2]; push_cast; omega
  · intro _; simp only [advance, hc2]; push_cast; omega

theorem inv_fire_finish (p : RouteParams) (cfg : Session) (k : ℕ) (c : QuizState) (env : Env)
    (hi : Inv p cfg) (hk : cfg.timers[k]? = some (Timer.next c))
    (hge : ¬ (c.currentIndex : ℤ) < (p.questions.length : ℤ) - 1) :
    Inv p
      { state := cfg.state
        timers := cfg.timers.eraseIdx k
        calls := cfg.calls ++ finish p env c } := by
  obtain ⟨ht, he⟩ := timers_single hi.timers_le hk
  obtain ⟨hc1, hc2, hc3⟩ := hi.closure (Timer.next c) (by simp [ht])
  simp only [Timer.closure] at hc1 hc2 hc3
  have hidx := hi.index_lt
  refine ⟨hi.budget, hi.time_nonneg, hi.time_le, hi.index_lt, hi.review_length, fun _ => he,
    by simp [he], by simp [he], hi.counts_nonneg, hi.counts_le, hi.counts_idle, by simp [he],
    ?_⟩
  intro r hr
  rcases List.mem_append.mp hr with hr | hr
  · exact hi.handoff r hr
  · rw [finish_handoff p env c r hr]
    simp only [resultParams, fullReview_length, hc3, hi.review_length]
    omega

theorem inv_step (p : RouteParams) (decode : String → String) (e : Event)
    (cfg cfg' : Session) (hi : Inv p cfg) (h : step p decode e cfg = some cfg') :
    Inv p cfg' := by
  cases e with
  | tick =>
    simp only [step] at h
    split_ifs at h
    cases h
    exact inv_tick p cfg hi
  | pressOption item =>
    simp only [step] at h
    split_ifs at h
    cases h
    exact inv_pressOption p cfg item hi
  | pressHint rand =>
    simp only [step] at h
    split_ifs at h
    cases h
    exact inv_pressHint p cfg rand hi
  | pressSubmit =>
    simp only [step] at h
    split_ifs at h with hg
    cases h
    refine inv_submitNow p cfg hi ?_
    simp only [submitEnabled, Bool.and_eq_true, Bool.not_eq_true'] at hg
    exact hg.2
  | timeUp =>
    simp only [step] at h
    split_ifs at h with hg
    cases h
    refine inv_timeUp p cfg hi ?_
    simp only [autoSubmitDue, Bool.and_eq_true, Bool.not_eq_true'] at hg
    exact hg.2
  | fire k env options =>
    simp only [step] at h
    split at h
    · cases h
    · rename_i c hk
      cases h
      exact inv_fire_submit p cfg k c hi hk
    · rename_i c hk
      obtain ⟨ht, _⟩ := timers_single hi.timers_le hk
      obtain ⟨_, hc2, _⟩ := hi.closure (Timer.next c) (by simp [ht])
      simp only [Timer.closure] at hc2
      by_cases hlt : (c.currentIndex : ℤ) < (p.questions.length : ℤ) - 1
      · have hr : afterDelay p env c cfg.state = (advance c cfg.state, []) := by
          simp [afterDelay, hlt]
        rw [hr] at h
        have hne : ¬ (advance c cfg.state).currentIndex = cfg.state.currentIndex := by
          simp [advance, hc2]
        simp only [hne, if_false] at h
        split at h
        · cases h
        · split_ifs at h
          cases h
          exact inv_fire_advance p cfg k c _ hi hk hlt
      · have hr : afterDelay p env c cfg.state = (cfg.state, finish p env c) := by
          simp [afterDelay, hlt]
        rw [hr] at h
        simp only [if_true] at h
        cases h
        exact inv_fire_finish p cfg k c env hi hk hlt

theorem inv_run (p : RouteParams) (decode : String → String) (evs : List Event) :
    ∀ cfg cfg' : Session, Inv p cfg → run p decode evs cfg = some cfg' → Inv p cfg' := by
  induction evs with
  | nil =>
    intro cfg cfg' hi h
    simp only [run, Option.some.injEq] at h
    exact h ▸ hi
  | cons e es ih =>
    intro cfg cfg' hi h
    simp only [run] at h
    cases hs : step p decode e cfg with
    | none => simp [hs] at h
    | some mid =>
      rw [hs] at h
      exact ih mid cfg' (inv_step p decode e cfg mid hi hs) h

theorem inv_reachable (p : RouteParams) (decode : String → String) (cfg : Session)
    (h : Reachable p decode cfg) : Inv p cfg := by
  obtain ⟨start, options, cfg0, evs, h0, hr⟩ := h
  exact inv_run p decode evs cfg0 cfg (inv_init p decode start options cfg0 h0) hr

/-! ## Decimal digits and the patterns matched at finalization -/

theorem digitChar_isDigit (k : ℕ) (h : k < 10) :
    (Nat.digitChar k).isDigit = true ∧ (Nat.digitChar k).toNat - 48 = k := by
  interval_cases k <;> exact ⟨by decide, by decide⟩

theorem digitsValue_append (a : List Char) (d : Char) :
    digitsValue (a ++ [d]) = 10 * digitsValue a + (d.toNat - 48) := by
  simp [digitsValue, List.foldl_append]

theorem toDigitsCore_spec (fuel : ℕ) :
    ∀ (n : ℕ) (ds : List Char), n < fuel →
      ∃ front, Nat.toDigitsCore 10 fuel n ds = front ++ ds ∧ front ≠ [] ∧
        (∀ d ∈ front, d.isDigit = true) ∧ digitsValue front = n := by
  induction fuel with
  | zero => intro n ds h; omega
  | succ fuel ih =>
    intro n ds h
    have hd := digitChar_isDigit (n % 10) (Nat.mod_lt _ (by norm_num))
    simp only [Nat.toDigitsCore]
    split_ifs with h0
    · refine ⟨[Nat.digitChar (n % 10)], rfl, by simp, by simpa using hd.1, ?_⟩
      have : digitsValue [Nat.digitChar (n % 10)] = 10 * digitsValue [] +
          ((Nat.digitChar (n % 10)).toNat - 48) := digitsValue_append [] _
      rw [this, hd.2]
      simp only [digitsValue, List.foldl_nil]
      omega
    · have hlt : n / 10 < fuel := by omega
      obtain ⟨front, hf, hne, hdig, hval⟩ := ih (n / 10) (Nat.digitChar (n % 10) :: ds) hlt
      refine ⟨front ++ [Nat.digitChar (n % 10)], by simp [hf], by simp, ?_, ?_⟩
      · intro d hmem
        rcases List.mem_append.mp hmem with hm | hm
        · exact hdig d hm
        · simp only [List.mem_singleton] at hm
          rw [hm]; exact hd.1
      · rw [digitsValue_append, hval, hd.2]
        omega

theorem decimal_spec (n : ℕ) :
    decimal n ≠ [] ∧ (∀ d ∈ decimal n, d.isDigit = true) ∧ digitsValue (decimal n) = n := by
  obtain ⟨front, hf, hne, hdig, hval⟩ := toDigitsCore_spec (n + 1) n [] (by omega)
  have : decimal n = front := by simpa [decimal, Nat.toDigits] using hf
  rw [this]
  exact ⟨hne, hdig, hval⟩

theorem takeWhile_digits (ds rest : List Char) (c : Char) (hds : ∀ d ∈ ds, d.isDigit = true)
    (hc : c.isDigit = false) :
    (ds ++ c :: rest).takeWhile Char.isDigit = ds ∧
    (ds ++ c :: rest).dropWhile Char.isDigit = c :: rest := by
  constructor
  · rw [List.takeWhile_append_of_pos hds, List.takeWhile_cons_of_neg (by simp [hc])]
    simp
  · rw [List.dropWhile_append_of_pos hds, List.dropWhile_cons_of_neg (by simp [hc])]

theorem matchCatHere_of_pattern (ds post : List Char) (hne : ds ≠ [])
    (hds : ∀ d ∈ ds, d.isDigit = true) :
    matchCatHere ('c' :: 'a' :: 't' :: (ds ++ '_' :: post)) = some ds := by
  obtain ⟨h1, h2⟩ := takeWhile_digits ds post '_' hds (by decide)
  simp only [matchCatHere, h1, h2]
  cases ds with
  | nil => exact absurd rfl hne
  | cons d ds => rfl

theorem matchCatHere_some (l ds : List Char) (h : matchCatHere l = some ds) :
    ∃ post, ds ≠ [] ∧ (∀ d ∈ ds, d.isDigit = true) ∧
      l = 'c' :: 'a' :: 't' :: (ds ++ '_' :: post) := by
  unfold matchCatHere at h
  split at h
  · rename_i rest
    split at h
    · rename_i d ds' post htake hdrop
      simp only [Option.some.injEq] at h
      subst h
      refine ⟨post, by simp, ?_, ?_⟩
      · intro x hx
        rw [← htake] at hx
        exact (List.mem_takeWhile_imp hx)
      · have := List.takeWhile_append_dropWhile Char.isDigit rest
        rw [htake, hdrop] at this
        rw [← this]
    · cases h
  · cases h

theorem matchCat_some (l ds : List Char) (h : matchCat l = some ds) : HasCatPattern l := by
  induction l with
  | nil => simp [matchCat] at h
  | cons c cs ih =>
    simp only [matchCat] at h
    split at h
    · rename_i ds' hh
      obtain ⟨post, hne, hdig, hl⟩ := matchCatHere_some _ _ hh
      exact ⟨[], ds', post, hne, hdig, by simpa using hl⟩
    · obtain ⟨pre, ds', post, hne, hdig, hl⟩ := ih h
      exact ⟨c :: pre, ds', post, hne, hdig, by simp [hl]⟩

theorem matchCat_of_pattern (l : List Char) (h : HasCatPattern l) : matchCat l ≠ none := by
  obtain ⟨pre, ds, post, hne, hdig, hl⟩ := h
  subst hl
  induction pre with
  | nil =>
    simp only [List.nil_append, matchCat, matchCatHere_of_pattern ds post hne hdig]
    simp
  | cons c cs ih =>
    simp only [List.cons_append, matchCat]
    split
    · simp
    · exact ih

theorem category_id_eq_none_iff (quizSetId : String) :
    category_id quizSetId = none ↔ ¬ HasCatPattern quizSetId.data := by
  unfold category_id
  constructor
  · intro h hp
    apply matchCat_of_pattern _ hp
    simpa using h
  · intro h
    cases hm : matchCat quizSetId.data with
    | none => rfl
    | some ds => exact absurd (matchCat_some _ _ hm) h

/-! ## Numbers: the values `parseInt` returns and the digits a template prints -/

theorem excessBits_of_lt (fuel v : ℕ) (h : v < 2 ^ 53) : excessBits fuel v = 0 := by
  cases fuel with
  | zero => rfl
  | succ fuel => rw [excessBits, if_pos h]

theorem excessBits_spec (fuel : ℕ) :
    ∀ v : ℕ, v ≤ fuel → 2 ^ 53 ≤ v →
      1 ≤ excessBits fuel v ∧ 2 ^ 52 ≤ v / 2 ^ excessBits fuel v := by
  induction fuel with
  | zero =>
    intro v h1 h2
    have : (0 : ℕ) < 2 ^ 53 := by positivity
    omega
  | succ fuel ih =>
    intro v h1 h2
    have hn : ¬ v < 2 ^ 53 := by omega
    simp only [excessBits, hn, if_false]
    refine ⟨by omega, ?_⟩
    have hd : v / 2 ^ (excessBits fuel (v / 2) + 1) = v / 2 / 2 ^ excessBits fuel (v / 2) := by
      rw [pow_succ, mul_comm, Nat.div_div_eq_div_mul]
    rw [hd]
    by_cases hv : 2 ^ 53 ≤ v / 2
    · exact (ih (v / 2) (by omega) hv).2
    · rw [excessBits_of_lt fuel (v / 2) (by omega)]
      simp only [pow_zero, Nat.div_one]
      omega

theorem toNumber_of_lt (v : ℕ) (h : v < 2 ^ 53) : toNumber v = v := by
  simp [toNumber, excessBits_of_lt v v h, Nat.mod_one]

theorem le_toNumber (v : ℕ) (h : 2 ^ 53 ≤ v) : 2 ^ 53 ≤ toNumber v := by
  obtain ⟨h1, h2⟩ := excessBits_spec v v le_rfl h
  have hp : 2 ≤ 2 ^ excessBits v v := by
    calc 2 = 2 ^ 1 := by norm_num
      _ ≤ 2 ^ excessBits v v := Nat.pow_le_pow_right (by norm_num) h1
  have hq : 2 ^ 53 ≤ v / 2 ^ excessBits v v * 2 ^ excessBits v v := by
    calc 2 ^ 53 = 2 ^ 52 * 2 := by norm_num
      _ ≤ v / 2 ^ excessBits v v * 2 ^ excessBits v v := Nat.mul_le_mul h2 hp
  unfold toNumber
  split_ifs
  · exact hq
  · exact le_trans hq (Nat.mul_le_mul_right _ (Nat.le_succ _))

theorem eq_of_toNumber_eq (v x : ℕ) (h : toNumber v = x) (hx : x < 2 ^ 53) : v = x := by
  by_cases hv : v < 2 ^ 53
  · rw [toNumber_of_lt v hv] at h
    exact h
  · have := le_toNumber v (by omega)
    omega

theorem shortestFrom_of_lt (x : ℕ) (hx : x < 2 ^ 53) : ∀ j, shortestFrom x j = x := by
  intro j
  induction j with
  | zero => rfl
  | succ j ih =>
    simp only [shortestFrom]
    split_ifs with h1 h2 h3
    · exact eq_of_toNumber_eq _ _ h2.1 hx
    · exact eq_of_toNumber_eq _ _ h1 hx
    · exact eq_of_toNumber_eq _ _ h3 hx
    · exact ih

theorem numberDigits_of_lt (x : ℕ) (hx : x < 2 ^ 53) : numberDigits x = decimal x := by
  have h : shortestValue x = x := shortestFrom_of_lt x hx _
  have h2 : x < 10 ^ 21 := lt_trans hx (by norm_num)
  simp only [numberDigits, h, h2, if_true]

theorem excessBits_lt (fuel : ℕ) :
    ∀ v : ℕ, v ≤ fuel → v / 2 ^ excessBits fuel v < 2 ^ 53 := by
  induction fuel with
  | zero =>
    intro v h
    have hv : v = 0 := by omega
    subst hv
    simp [excessBits]
  | succ fuel ih =>
    intro v h
    by_cases hlt : v < 2 ^ 53
    · rw [excessBits, if_pos hlt]
      simpa using hlt
    · rw [excessBits, if_neg hlt]
      have hd : v / 2 ^ (excessBits fuel (v / 2) + 1) = v / 2 / 2 ^ excessBits fuel (v / 2) := by
        rw [pow_succ, mul_comm, Nat.div_div_eq_div_mul]
      rw [hd]
      have h53 : (2 : ℕ) ≤ 2 ^ 53 := by norm_num
      exact ih (v / 2) (by omega)

theorem log_eq_excessBits (v : ℕ) (h : 2 ^ 53 ≤ v) : Nat.log 2 v = excessBits v v + 52 := by
  obtain ⟨_, h2⟩ := excessBits_spec v v le_rfl h
  have h3 := excessBits_lt v v le_rfl
  have hpos : 0 < 2 ^ excessBits v v := by positivity
  rw [Nat.log_eq_iff (Or.inl (by omega))]
  constructor
  · calc 2 ^ (excessBits v v + 52) = 2 ^ 52 * 2 ^ excessBits v v := by rw [pow_add, mul_comm]
      _ ≤ v / 2 ^ excessBits v v * 2 ^ excessBits v v := Nat.mul_le_mul_right _ h2
      _ ≤ v := Nat.div_mul_le_self _ _
  · have := (Nat.div_lt_iff_lt_mul hpos).mp h3
    calc v < 2 ^ 53 * 2 ^ excessBits v v := this
      _ = 2 ^ (excessBits v v + 52 + 1) := by rw [← pow_add]; congr 1; omega

theorem roundHalfEven_div (v P : ℕ) (hP : 0 < P) :
    roundHalfEven ((v : ℚ) / (P : ℚ)) =
      if 2 * (v % P) < P ∨ (2 * (v % P) = P ∧ v / P % 2 = 0) then ((v / P : ℕ) : ℤ)
      else ((v / P + 1 : ℕ) : ℤ) := by
  have hPq : (0 : ℚ) < (P : ℚ) := by exact_mod_cast hP
  have hfloor : ⌊(v : ℚ) / (P : ℚ)⌋ = ((v / P : ℕ) : ℤ) := by
    have := Rat.floor_intCast_div_natCast (v : ℤ) P
    simpa using this
  have hdm : (v : ℚ) = ((v / P : ℕ) : ℚ) * (P : ℚ) + ((v % P : ℕ) : ℚ) := by
    have : v = v / P * P + v % P := by
      rw [mul_comm]; exact (Nat.div_add_mod v P).symm
    exact_mod_cast congrArg (Nat.cast : ℕ → ℚ) this
  have hfrac : (v : ℚ) / (P : ℚ) - (((v / P : ℕ) : ℤ) : ℚ) = ((v % P : ℕ) : ℚ) / (P : ℚ) := by
    rw [Int.cast_natCast, eq_div_iff hPq.ne', sub_mul, div_mul_cancel₀ _ hPq.ne']
    linarith
  have hc1 : ((v % P : ℕ) : ℚ) / (P : ℚ) < 1 / 2 ↔ 2 * (v % P) < P := by
    rw [div_lt_iff₀ hPq]
    constructor
    · intro hh
      have : ((2 * (v % P) : ℕ) : ℚ) < (P : ℚ) := by push_cast; linarith
      exact_mod_cast this
    · intro hh
      have : ((2 * (v % P) : ℕ) : ℚ) < (P : ℚ) := by exact_mod_cast hh
      push_cast at this
      linarith
  have hc2 : 1 / 2 < ((v % P : ℕ) : ℚ) / (P : ℚ) ↔ P < 2 * (v % P) := by
    rw [lt_div_iff₀ hPq]
    constructor
    · intro hh
      have : (P : ℚ) < ((2 * (v % P) : ℕ) : ℚ) := by push_cast; linarith
      exact_mod_cast this
    · intro hh
      have : (P : ℚ) < ((2 * (v % P) : ℕ) : ℚ) := by exact_mod_cast hh
      push_cast at this
      linarith
  unfold roundHalfEven
  rw [hfloor, hfrac]
  by_cases h1 : 2 * (v % P) < P
  · rw [if_pos (hc1.mpr h1), if_pos (Or.inl h1)]
  · rw [if_neg (fun hh => h1 (hc1.mp hh))]
    by_cases h2 : P < 2 * (v % P)
    · rw [if_pos (hc2.mpr h2), if_neg (by omega)]
      push_cast; ring
    · rw [if_neg (fun hh => h2 (hc2.mp hh))]
      have heq : 2 * (v % P) = P := by omega
      by_cases h3 : v / P % 2 = 0
      · have : ((v / P : ℕ) : ℤ) % 2 = 0 := by omega
        rw [if_pos this, if_pos (Or.inr ⟨heq, h3⟩)]
      · have : ¬ ((v / P : ℕ) : ℤ) % 2 = 0 := by omega
        rw [if_neg this, if_neg (by tauto)]
        push_cast; ring

/-- The two descriptions of the Number nearest to a natural number agree. -/
theorem toDouble_natCast_eq (v : ℕ) : toDouble (v : ℚ) = toNumber v := by
  by_cases hlt : v < 2 ^ 53
  · rw [toDouble_natCast v hlt, toNumber_of_lt v hlt]
  have h : 2 ^ 53 ≤ v := Nat.le_of_not_lt hlt
  have hvpos : 0 < v := lt_of_lt_of_le (by positivity) h
  have hpos : (0 : ℚ) < v := by exact_mod_cast hvpos
  have hlog : Int.log 2 (v : ℚ) = ((excessBits v v + 52 : ℕ) : ℤ) := by
    rw [Int.log_natCast, log_eq_excessBits v h]
  obtain ⟨P, hP⟩ : ∃ P : ℕ, P = 2 ^ excessBits v v := ⟨_, rfl⟩
  have hPpos : 0 < P := by rw [hP]; positivity
  have hx : (v : ℚ) * 2 ^ ((52 : ℤ) - ((excessBits v v + 52 : ℕ) : ℤ)) = (v : ℚ) / (P : ℚ) := by
    have : (52 : ℤ) - ((excessBits v v + 52 : ℕ) : ℤ) = -(excessBits v v : ℤ) := by
      push_cast; ring
    rw [this, zpow_neg, zpow_natCast, hP]
    push_cast
    rw [div_eq_mul_inv]
  have hback : (2 : ℚ) ^ (((excessBits v v + 52 : ℕ) : ℤ) - 52) = (P : ℚ) := by
    have : ((excessBits v v + 52 : ℕ) : ℤ) - 52 = (excessBits v v : ℤ) := by push_cast; ring
    rw [this, zpow_natCast, hP]
    push_cast
    rfl
  unfold toDouble
  rw [if_neg hpos.ne', abs_of_pos hpos, hlog, hx, roundHalfEven_div v P hPpos, hback,
    if_neg (not_lt.mpr hpos.le)]
  unfold toNumber
  rw [← hP]
  split_ifs
  · rw [Int.cast_natCast, Nat.cast_mul]; ring
  · rw [Int.cast_natCast, Nat.cast_mul]; ring

/-- Values of the Number model: the integers next to `2 ^ 53` and `2 ^ 54` that are
no Numbers go to the neighbour with the even significand, and `2 ^ 60` and `2 ^ 70`
print as JavaScript prints them. -/
theorem toNumber_samples :
    toNumber 9007199254740991 = 9007199254740991 ∧
    toNumber 9007199254740993 = 9007199254740992 ∧
    toNumber 9007199254740995 = 9007199254740996 ∧
    toNumber 18014398509481986 = 18014398509481984 ∧
    toNumber 18014398509481987 = 18014398509481988 ∧
    toNumber 18014398509481990 = 18014398509481992 ∧
    String.mk (numberDigits 9007199254740992) = "9007199254740992" ∧
    String.mk (numberDigits (2 ^ 60)) = "1152921504606847000" ∧
    String.mk (numberDigits (2 ^ 70)) = "1.1805916207174113e+21" ∧
    String.mk (numberDigits 0) = "0" := by
  decide

/-- Claim C14 (counterexample). For `n = 9007199254740993`, which is `2 ^ 53 + 1`, the
category id parsed from `"cat" + decimal(n) + "_easy_set1"` is 9007199254740992 and
not `n`: `parseInt` returns the Number nearest to the integer the digits denote. And a
category id of `10 ^ 21` is printed as `1e+21`, so the key QuizSetContainer builds from
it holds no `cat<digits>_` and no category id is parsed from it. -/
theorem category_id_beyond_safe_integers :
    category_id
        (String.mk ('c' :: 'a' :: 't' :: (decimal 9007199254740993 ++ '_' :: "easy_set1".data)))
      = some 9007199254740992 ∧
    category_id "cat9007199254740993_easy_set1" = some 9007199254740992 ∧
    (9007199254740992 : ℤ) ≠ ((9007199254740993 : ℕ) : ℤ) ∧
    quizSetKey (10 ^ 21) "easy" 1 = "cat1e+21_easy_set1" ∧
    category_id (quizSetKey (10 ^ 21) "easy" 1) = none := by
  decide

/-- Claim C14 (amended). For every natural number `n` below `2 ^ 53`, a safe integer,
and every suffix `s`, the category id parsed from the quiz set id
`"cat" + decimal(n) + "_" + s` is `n`; so the id parsed from a key
`cat<id>_<difficulty>_set<i>` built by QuizSetContainer from such a category id is the
category id, and `cat42_medium_set1` gives 42. -/
theorem category_id_of_key (n : ℕ) (s : List Char) (difficulty : String) (i : ℕ)
    (hn : n < 2 ^ 53) :
    category_id (String.mk ('c' :: 'a' :: 't' :: (decimal n ++ '_' :: s))) = some (n : ℤ) ∧
    category_id (quizSetKey n difficulty i) = some (n : ℤ) ∧
    category_id "cat42_medium_set1" = some 42 := by
  obtain ⟨hne, hdig, hval⟩ := decimal_spec n
  have hparse : parseInt (decimal n) = (n : ℤ) := by
    simp only [parseInt, hval, toNumber_of_lt n hn]
  have key : ∀ post : List Char,
      matchCat ('c' :: 'a' :: 't' :: (decimal n ++ '_' :: post)) = some (decimal n) := by
    intro post
    simp only [matchCat, matchCatHere_of_pattern (decimal n) post hne hdig]
  refine ⟨?_, ?_, by decide⟩
  · simp only [category_id, key, Option.map_some', hparse]
  · have hk : (quizSetKey n difficulty i).data =
        'c' :: 'a' :: 't' :: (decimal n ++ '_' ::
          (difficulty.data ++ ("_set".data ++ decimal i))) := by
      simp [quizSetKey, String.data_append, numberDigits_of_lt n hn]
    simp only [category_id, hk, key, Option.map_some', hparse]

/-- Witness of `category_id_of_key`: the category id 42 and the largest safe integer,
9007199254740991. -/
theorem category_id_of_key_witness :
    category_id (quizSetKey 42 "medium" 1) = some 42 ∧
    category_id (quizSetKey 9007199254740991 "hard" 3) = some 9007199254740991 ∧
    quizSetKey 42 "medium" 1 = "cat42_medium_set1" :=
  ⟨(category_id_of_key 42 [] "medium" 1 (by norm_num)).2.1,
   (category_id_of_key 9007199254740991 [] "hard" 3 (by norm_num)).2.1,
   by decide⟩

/-- Claim C15. For a session that is not daily and whose quiz set id contains no
occurrence of `cat<digits>_`, the finishing branch ends with the error thrown by
indexing the `null` result of `match`: it makes no call at all, so no `quiz_history`
record is written under any category id and the result screen is not opened. -/
theorem finish_without_category (p : RouteParams) (env : Env) (c s : QuizState)
    (hd : startsWith p.quizTitle "Daily Quiz -" = false)
    (hp : ¬ HasCatPattern p.quizSetId.data)
    (hlast : ¬ (c.currentIndex : ℤ) < (p.questions.length : ℤ) - 1) :
    category_id p.quizSetId = none ∧ finish p env c = [] ∧
    afterDelay p env c s = (s, []) ∧
    ∀ r, Effect.insertQuizHistory r ∉ (afterDelay p env c s).2 := by
  have hc := (category_id_eq_none_iff p.quizSetId).mpr hp
  have hf : finish p env c = [] := by
    simp [finish, hd, hc]
  have ha : afterDelay p env c s = (s, []) := by
    simp [afterDelay, hlast, hf]
  exact ⟨hc, hf, ha, by simp [ha]⟩

/-- Witness of `finish_without_category`: the sample question finished under the quiz
set id "daily-2025-07-01" and the title "General Knowledge". -/
theorem finish_without_category_witness :
    finish { sampleNormal with quizSetId := "daily-2025-07-01" } sampleEnv sampleAnswered
      = [] :=
  (finish_without_category { sampleNormal with quizSetId := "daily-2025-07-01" } sampleEnv
    sampleAnswered sampleSubmitted (by decide)
    (by
      rw [← category_id_eq_none_iff]
      decide)
    (by decide)).2.1

/-- Claim C16. The category title recorded for a normal session is the quiz title
without its leading `#<n> `: for every natural `n` and every title `t` that does not
start with a whitespace character, stripping `"#" + decimal(n) + " " + t` (the title
QuizSetContainer builds) gives exactly `t`, and a title that does not start with `#`
followed by a digit is returned unchanged. -/
theorem category_title_strips (p : RouteParams) (env : Env) (c : QuizState) (cat : ℤ)
    (n : ℕ) (t title : String) :
    (historyRecord p env c cat).category_title = category_title p.quizTitle ∧
    ((∀ ch rest, t.data = ch :: rest → isJsSpace ch = false) →
      category_title (quizSetTitle n t) = t) ∧
    ((¬ ∃ d rest, title.data = '#' :: d :: rest ∧ d.isDigit = true) →
      category_title title = title) := by
  refine ⟨rfl, ?_, ?_⟩
  · intro ht
    obtain ⟨hne, hdig, _⟩ := decimal_spec n
    have hd : (quizSetTitle n t).data = '#' :: (decimal n ++ ' ' :: t.data) := by
      simp [quizSetTitle, String.data_append]
    obtain ⟨h1, h2⟩ := takeWhile_digits (decimal n) t.data ' ' hdig (by decide)
    have hsp : (' ' :: t.data).dropWhile isJsSpace = t.data := by
      rw [List.dropWhile_cons_of_pos (by decide)]
      cases hcs : t.data with
      | nil => rfl
      | cons ch rest =>
        rw [List.dropWhile_cons_of_neg (by simp [ht ch rest hcs])]
    unfold category_title
    rw [hd]
    simp only [h1, h2, hsp]
    cases hdec : decimal n with
    | nil => exact absurd hdec hne
    | cons d ds => rfl
  · intro ht
    unfold category_title
    split
    · rename_i rest hrest
      split
      · rfl
      · rename_i d ds htake
        exfalso
        cases rest with
        | nil => simp at htake
        | cons x xs =>
          refine ht ⟨x, xs, hrest, ?_⟩
          by_contra hx
          rw [List.takeWhile_cons_of_neg hx] at htake
          cases htake
    · rfl

/-- Witness of `category_title_strips`: the titles "#1 General Knowledge" and
"Daily Quiz - 2025-07-01". -/
theorem category_title_strips_witness :
    category_title (quizSetTitle 1 "General Knowledge") = "General Knowledge" ∧
    category_title "Daily Quiz - 2025-07-01" = "Daily Quiz - 2025-07-01" :=
  ⟨(category_title_strips sampleNormal sampleEnv sampleAnswered 9 1 "General Knowledge"
      "").2.1 (by
        intro ch rest h
        have : ch = 'G' := by
          have h2 : ("General Knowledge" : String).data.head? = some ch := by rw [h]; rfl
          exact (Option.some.inj h2).symm
        subst this
        decide),
   (category_title_strips sampleNormal sampleEnv sampleAnswered 9 1 ""
      "Daily Quiz - 2025-07-01").2.2 (by
        rintro ⟨d, rest, h, _⟩
        have h2 : ("Daily Quiz - 2025-07-01" : String).data.head? = some '#' := by
          rw [h]; rfl
        exact absurd h2 (by decide))⟩

/-! ## The XP of a correct answer as an integer quotient -/

theorem gainedXP_int (c : QuizState) (hsel : c.selected = some c.questionData.correctAnswer)
    (hT : 0 < c.totalTime) :
    gainedXP c =
      (if c.usedHint then c.remainingTime * 100 / c.totalTime / 2
       else c.remainingTime * 100 / c.totalTime) := by
  have hu : isUnanswered c = false := by simp [isUnanswered, hsel]
  have hc : isCorrect c = true := by simp [isCorrect, hsel]
  have h2 : ∀ a : ℤ, mathFloor ((a : ℚ) / 2) = a / 2 := fun a => by
    simpa using mathFloor_intCast_div a 2 (by norm_num)
  simp only [gainedXP, hu, hc, mathFloor_ratio _ _ hT, h2]
  simp

/-- With a lookup that succeeds over at most one stored row, `saveDailyQuizResult`
keeps the higher score: it inserts when no row is stored, updates the stored row exactly
when the new score is strictly greater and issues no write otherwise, so that after a
call that resolves the only stored score is the maximum. -/
theorem saveDailyQuizResult_accurate_lookup (db : DailyBackend) (userId : Option String)
    (score xp : ℤ) (reviewData : List ReviewItem) (timeTakenSeconds fresh : ℤ)
    (hl : db.lookupFails = false) (hr : db.rows.length ≤ 1) :
    (db.rows = [] →
      ∃ payload,
        (saveDailyQuizResult db userId score xp reviewData timeTakenSeconds).1 =
          some (DbWrite.insert payload) ∧
        payload.score = score ∧ payload.user_id = userId ∧
        payload.quiz_title = "Daily Quiz - " ++ db.dateTaken) ∧
    (∀ row, db.rows = [row] →
      (row.score < score ↔
        ∃ payload,
          (saveDailyQuizResult db userId score xp reviewData timeTakenSeconds).1 =
            some (DbWrite.update row.id payload) ∧ payload.score = score) ∧
      (¬ row.score < score →
        saveDailyQuizResult db userId score xp reviewData timeTakenSeconds = (none, false))) ∧
    ((saveDailyQuizResult db userId score xp reviewData timeTakenSeconds).2 = false →
      (applyWrite db.rows fresh
        (saveDailyQuizResult db userId score xp reviewData timeTakenSeconds).1).map
          (fun r => r.score) =
        [match db.rows with
          | [] => score
          | row :: _ => max row.score score]) := by
  refine ⟨?_, ?_, ?_⟩
  · intro h
    simp [saveDailyQuizResult, DailyBackend.existing, hl, h]
  · intro row h
    by_cases hlt : row.score < score
    · simp [saveDailyQuizResult, DailyBackend.existing, hl, h, hlt]
    · simp [saveDailyQuizResult, DailyBackend.existing, hl, h, hlt]
  · intro _
    cases h : db.rows with
    | nil => simp [saveDailyQuizResult, DailyBackend.existing, hl, h, applyWrite]
    | cons row rest =>
      have hrest : rest = [] := by
        rw [h] at hr
        simp only [List.length_cons] at hr
        exact List.length_eq_zero.mp (by omega)
      subst hrest
      by_cases hlt : row.score < score
      · simp [saveDailyQuizResult, DailyBackend.existing, hl, h, hlt, applyWrite,
          max_eq_right hlt.le]
      · simp [saveDailyQuizResult, DailyBackend.existing, hl, h, hlt, applyWrite,
          max_eq_left (not_lt.mp hlt)]

/-- Claim C13 (evaluation at the failing input). A row of today with score 90 is
stored and the lookup request fails, so its `data` is `null`; the new score is 30. The
function issues a write although the new score is not greater: it inserts a second row
of today, with the lower score, where keeping the higher score asks for no write and
for 90 as the only stored score. From then on two rows match, `.single()` answers
`null` also when the request succeeds, and the next call, with score 10, inserts a
third row. -/
theorem saveDailyQuizResult_lookup_error :
    sampleBackend.rows.map (fun r => r.score) = [90] ∧
    sampleBackend.existing = none ∧
    saveDailyQuizResult sampleBackend (some "user-123") 30 100 sampleReview 12 =
      (some (DbWrite.insert (samplePayload 30)), false) ∧
    (applyWrite sampleBackend.rows 8
      (saveDailyQuizResult sampleBackend (some "user-123") 30 100 sampleReview 12).1).map
        (fun r => r.score) = [90, 30] ∧
    ¬ (30 : ℤ) > 90 ∧
    saveDailyQuizResult
      { sampleBackend with
        rows := applyWrite sampleBackend.rows 8
          (saveDailyQuizResult sampleBackend (some "user-123") 30 100 sampleReview 12).1
        lookupFails := false }
      (some "user-123") 10 100 sampleReview 12 =
      (some (DbWrite.insert (samplePayload 10)), false) := by
  decide

/-- Claim C17 (counterexample). On an easy question (60 s) answered correctly with a
hint, 0 seconds left and 1 second left both gain 0 XP: the slower answer does not score
strictly fewer points. -/
theorem gainedXP_hint_not_strict :
    gainedXP (sampleHinted 0) = 0 ∧ gainedXP (sampleHinted 1) = 0 ∧
    ¬ gainedXP (sampleHinted 0) < gainedXP (sampleHinted 1) := by
  have h0 : gainedXP (sampleHinted 0) = 0 := by
    rw [gainedXP_int _ (by decide) (by decide)]; decide
  have h1 : gainedXP (sampleHinted 1) = 0 := by
    rw [gainedXP_int _ (by decide) (by decide)]; decide
  exact ⟨h0, h1, by rw [h0, h1]; decide⟩

/-- Claim C17 (amended). For every budget `T` in {30, 45, 60}, either hint flag and
remaining times `0 <= R1 < R2 <= T`, the XP of a correct answer at `R1` is at most the
XP at `R2`, and it is strictly less when no hint was used or the budget is 30 or 45. -/
theorem gainedXP_monotone (c1 c2 : QuizState)
    (h1 : c1.selected = some c1.questionData.correctAnswer)
    (h2 : c2.selected = some c2.questionData.correctAnswer)
    (hT : c1.totalTime = 30 ∨ c1.totalTime = 45 ∨ c1.totalTime = 60)
    (hTT : c2.totalTime = c1.totalTime) (hh : c2.usedHint = c1.usedHint)
    (hR0 : 0 ≤ c1.remainingTime) (hR : c1.remainingTime < c2.remainingTime)
    (hRT : c2.remainingTime ≤ c2.totalTime) :
    gainedXP c1 ≤ gainedXP c2 ∧
    (c1.usedHint = false ∨ c1.totalTime ≠ 60 → gainedXP c1 < gainedXP c2) := by
  have hpos : 0 < c1.totalTime := by omega
  rw [gainedXP_int c1 h1 hpos, gainedXP_int c2 h2 (by omega), hTT, hh]
  rcases hT with hT | hT | hT <;> rw [hT] <;> cases c1.usedHint <;> simp <;> omega

/-- Witness of `gainedXP_monotone`: the sample question with 29 and 30 of 30 seconds left. -/
theorem gainedXP_monotone_witness :
    gainedXP { sampleAnswered with remainingTime := 29 } < gainedXP sampleAnswered :=
  (gainedXP_monotone { sampleAnswered with remainingTime := 29 } sampleAnswered
    (by decide) (by decide) (by decide) (by decide) (by decide) (by decide) (by decide)
    (by decide)).2 (by decide)

/-- Claim C18. For a correct answer with integers `0 <= R <= T` and `T > 0`, the XP
gained lies in [0, 100] without a hint and equals 100 exactly when `R = T`; it lies in
[0, 50] when a hint was used. -/
theorem gainedXP_range (c : QuizState)
    (hsel : c.selected = some c.questionData.correctAnswer)
    (hR0 : 0 ≤ c.remainingTime) (hRT : c.remainingTime ≤ c.totalTime)
    (hT : 0 < c.totalTime) :
    (c.usedHint = false →
      0 ≤ gainedXP c ∧ gainedXP c ≤ 100 ∧
      (gainedXP c = 100 ↔ c.remainingTime = c.totalTime)) ∧
    (c.usedHint = true → 0 ≤ gainedXP c ∧ gainedXP c ≤ 50) := by
  have hx := gainedXP_int c hsel hT
  have hq0 : 0 ≤ c.remainingTime * 100 / c.totalTime :=
    Int.ediv_nonneg (by positivity) hT.le
  have hq1 : c.remainingTime * 100 / c.totalTime ≤ 100 :=
    Int.ediv_le_of_le_mul hT (by nlinarith)
  have hq2 : 100 ≤ c.remainingTime * 100 / c.totalTime ↔ c.totalTime ≤ c.remainingTime := by
    rw [Int.le_ediv_iff_mul_le hT]
    constructor <;> intro h <;> nlinarith
  constructor
  · intro hh
    rw [hh] at hx
    simp only [Bool.false_eq_true, if_false] at hx
    rw [hx]
    refine ⟨hq0, hq1, ?_⟩
    constructor
    · intro h; exact le_antisymm hRT (hq2.mp h.ge)
    · intro h; exact le_antisymm hq1 (hq2.mpr h.ge)
  · intro hh
    rw [hh] at hx
    simp only [if_true] at hx
    rw [hx]
    omega

/-- Witness of `gainedXP_range`: the sample question answered at once gains 100 XP,
and at most 50 XP on an easy question with a hint. -/
theorem gainedXP_range_witness :
    gainedXP sampleAnswered = 100 ∧ gainedXP (sampleHinted 60) ≤ 50 :=
  ⟨((gainedXP_range sampleAnswered (by decide) (by decide) (by decide) (by decide)).1
      (by decide)).2.2.mpr (by decide),
   ((gainedXP_range (sampleHinted 60) (by decide) (by decide) (by decide) (by decide)).2
      (by decide)).2⟩

/-! ## Runs of the sample session -/

theorem sample_init :
    initSession sampleNormal id 0 ["6", "9", "12", "3"] = some sampleSession := by
  decide

theorem sample_reachable (evs : List Event) (cfg : Session)
    (h : run sampleNormal id evs sampleSession = some cfg) : Reachable sampleNormal id cfg :=
  ⟨0, ["6", "9", "12", "3"], sampleSession, evs, sample_init, h⟩

theorem sample_timedOut :
    run sampleNormal id (List.replicate 30 Event.tick) sampleSession = some sampleTimedOut := by
  decide

theorem handleSubmit_autoSubmit (c : QuizState) :
    handleSubmit c (autoSubmit c) = handleSubmit c c := by
  simp [handleSubmit, autoSubmit]

theorem step_fire_finish (p : RouteParams) (decode : String → String) (env : Env)
    (options : List String) (cfg : Session) (c : QuizState)
    (ht : cfg.timers = [Timer.next c])
    (hlast : ¬ (c.currentIndex : ℤ) < (p.questions.length : ℤ) - 1) :
    step p decode (Event.fire 0 env options) cfg =
      some { state := cfg.state, timers := [], calls := cfg.calls ++ finish p env c } := by
  have had : afterDelay p env c cfg.state = (cfg.state, finish p env c) := by
    simp [afterDelay, hlast]
  simp only [step, ht, List.getElem?_cons_zero, had, if_true, List.eraseIdx_cons_zero]

theorem step_timeUp_fire (p : RouteParams) (decode : String → String) (env : Env)
    (options : List String) (cfg : Session) (ht : cfg.timers = [])
    (hdue : autoSubmitDue cfg.state = true) :
    run p decode [Event.timeUp, Event.fire 0 env options] cfg = some (submitNow cfg) := by
  have h1 : step p decode Event.timeUp cfg =
      some { cfg with state := autoSubmit cfg.state, timers := [Timer.submit cfg.state] } := by
    simp only [step, hdue, if_true, ht, List.nil_append]
  have h2 : step p decode (Event.fire 0 env options)
      { cfg with state := autoSubmit cfg.state, timers := [Timer.submit cfg.state] } =
      some (submitNow cfg) := by
    simp only [step, List.getElem?_cons_zero, List.eraseIdx_cons_zero, List.nil_append,
      handleSubmit_autoSubmit, submitNow, ht]
  simp only [run, h1, Option.some_bind, Option.bind_some, h2]

/-- Claim C11. When the countdown has reached 0 with nothing selected, the auto-submit
effect and the call of `handleSubmit` it schedules leave the session in the
configuration the submit handler produces: the question is recorded as unanswered,
gains 0 XP and increments neither counter, and the same delayed callback then advances
or finishes. In a single-question session that callback finishes with the calls of
`finish`, and a payload handed off there has `correct = 0`, `incorrect = 0` and
`unanswered = 1`. -/
theorem timeUp_unanswered (p : RouteParams) (decode : String → String) (cfg : Session)
    (env : Env) (options : List String) (hr : Reachable p decode cfg)
    (h0 : cfg.state.remainingTime = 0) (hs : cfg.state.submitted = false)
    (hsel : cfg.state.selected = none) :
    run p decode [Event.timeUp, Event.fire 0 env options] cfg = some (submitNow cfg) ∧
    (submitNow cfg).timers = [Timer.next cfg.state] ∧
    (finalReviewItem cfg.state).status = Status.unanswered ∧
    gainedXP cfg.state = 0 ∧
    (submitNow cfg).state.correctCount = cfg.state.correctCount ∧
    (submitNow cfg).state.incorrectCount = cfg.state.incorrectCount ∧
    (submitNow cfg).state.totalEarnedXP = cfg.state.totalEarnedXP ∧
    (p.questions.length = 1 →
      run p decode [Event.timeUp, Event.fire 0 env options, Event.fire 0 env options] cfg =
        some
          { state := (submitNow cfg).state
            timers := []
            calls := cfg.calls ++ finish p env cfg.state } ∧
      ∀ r, Effect.navigateResult r ∈ finish p env cfg.state →
        r.totalQuestions = 1 ∧ r.correct = 0 ∧ r.incorrect = 0 ∧ r.unanswered = 1) := by
  have hi := inv_reachable p decode cfg hr
  have ht := hi.idle hs
  have hdue : autoSubmitDue cfg.state = true := by simp [autoSubmitDue, h0, hs]
  have hu : isUnanswered cfg.state = true := by simp [isUnanswered, hsel]
  have hg : gainedXP cfg.state = 0 := by simp [gainedXP, hu]
  have hsub : (submitNow cfg).timers = [Timer.next cfg.state] := by simp [submitNow, ht]
  have hrun := step_timeUp_fire p decode env options cfg ht hdue
  refine ⟨hrun, hsub, by simp [finalReviewItem, hu], hg, by simp [submitNow, handleSubmit, hu],
    by simp [submitNow, handleSubmit, hu], by simp [submitNow, handleSubmit, hg], ?_⟩
  intro hlen
  have hidx : cfg.state.currentIndex = 0 := by
    have := hi.index_lt
    omega
  have hcnt := hi.counts_idle hs
  have hnn := hi.counts_nonneg
  have hc0 : cfg.state.correctCount = 0 := by
    rw [hidx] at hcnt; push_cast at hcnt; omega
  have hi0 : cfg.state.incorrectCount = 0 := by
    rw [hidx] at hcnt; push_cast at hcnt; omega
  constructor
  · have hlast : ¬ ((cfg.state.currentIndex : ℤ) < (p.questions.length : ℤ) - 1) := by
      rw [hidx, hlen]; decide
    have hr2 : run p decode [Event.timeUp, Event.fire 0 env options,
        Event.fire 0 env options] cfg =
        (run p decode [Event.timeUp, Event.fire 0 env options] cfg).bind
          (run p decode [Event.fire 0 env options]) := by
      simp only [run]
      cases step p decode Event.timeUp cfg with
      | none => rfl
      | some mid =>
        simp only [Option.some_bind]
        cases step p decode (Event.fire 0 env options) mid with
        | none => rfl
        | some mid2 => rfl
    rw [hr2, hrun]
    simp only [Option.some_bind, Option.bind_some, run,
      step_fire_finish p decode env options (submitNow cfg) cfg.state hsub hlast]
    rfl
  · intro r hmem
    rw [finish_handoff p env cfg.state r hmem]
    simp [resultParams, finalCorrect, finalIncorrect, finalUnanswered, hu, hc0, hi0, hlen]

/-- Witness of `timeUp_unanswered`: the sample session after 30 ticks with no answer. -/
theorem timeUp_unanswered_witness :
    run sampleNormal id [Event.timeUp, Event.fire 0 sampleEnv []] sampleTimedOut =
      some (submitNow sampleTimedOut) ∧
    ∀ r, Effect.navigateResult r ∈ finish sampleNormal sampleEnv sampleTimedOut.state →
      r.totalQuestions = 1 ∧ r.correct = 0 ∧ r.incorrect = 0 ∧ r.unanswered = 1 :=
  ⟨(timeUp_unanswered sampleNormal id sampleTimedOut sampleEnv []
      (sample_reachable _ _ sample_timedOut) rfl rfl rfl).1,
   ((timeUp_unanswered sampleNormal id sampleTimedOut sampleEnv []
      (sample_reachable _ _ sample_timedOut) rfl rfl rfl).2.2.2.2.2.2.2 rfl).2⟩

/-- Claim C12. In every reachable configuration `0 <= remainingTime <= totalTime`,
where `totalTime` is the budget of the difficulty; a countdown tick decrements the
remaining time by exactly 1 while it is positive and leaves it at 0 otherwise, so it
is never negative. -/
theorem remainingTime_bounds (p : RouteParams) (decode : String → String) (cfg : Session)
    (h : Reachable p decode cfg) :
    0 ≤ cfg.state.remainingTime ∧ cfg.state.remainingTime ≤ cfg.state.totalTime ∧
    totalTime p.difficulty = some cfg.state.totalTime ∧
    (0 < cfg.state.remainingTime →
      (tick cfg.state).remainingTime = cfg.state.remainingTime - 1) ∧
    (¬ 0 < cfg.state.remainingTime →
      cfg.state.remainingTime = 0 ∧ (tick cfg.state).remainingTime = 0) ∧
    0 ≤ (tick cfg.state).remainingTime := by
  have hi := inv_reachable p decode cfg h
  have h0 := hi.time_nonneg
  refine ⟨h0, hi.time_le, hi.budget, ?_, ?_, ?_⟩
  · intro hpos
    simp [tick, tickUpdate, hpos]
  · intro hpos
    exact ⟨by omega, by simp [tick, tickUpdate, hpos]⟩
  · simp only [tick, tickUpdate]
    split_ifs <;> omega

/-- Witness of `remainingTime_bounds`: the sample session after 30 ticks. -/
theorem remainingTime_bounds_witness :
    0 ≤ sampleTimedOut.state.remainingTime ∧
    sampleTimedOut.state.remainingTime ≤ sampleTimedOut.state.totalTime ∧
    (tick sampleTimedOut.state).remainingTime = 0 :=
  ⟨(remainingTime_bounds sampleNormal id sampleTimedOut
      (sample_reachable _ _ sample_timedOut)).1,
   (remainingTime_bounds sampleNormal id sampleTimedOut
      (sample_reachable _ _ sample_timedOut)).2.1,
   ((remainingTime_bounds sampleNormal id sampleTimedOut
      (sample_reachable _ _ sample_timedOut)).2.2.2.2.1 (by decide)).2⟩

/-- Claim C19. In every reachable configuration the stored review log has as many
items as `currentIndex`, and the review data of every handoff made has as many items
as the session has questions. -/
theorem reviewItems_length (p : RouteParams) (decode : String → String) (cfg : Session)
    (h : Reachable p decode cfg) :
    cfg.state.reviewItems.length = cfg.state.currentIndex ∧
    ∀ r, Effect.navigateResult r ∈ cfg.calls → r.reviewData.length = p.questions.length := by
  have hi := inv_reachable p decode cfg h
  exact ⟨hi.review_length, hi.handoff⟩

/-- Claim C20. In every reachable configuration `currentIndex` is inside the question
list, and no event decreases it: an event leaves it unchanged, unless it is the firing
of the delayed callback in its advance branch, taken only when
`currentIndex < questions.length - 1`, which increases it by exactly 1. -/
theorem currentIndex_progress (p : RouteParams) (decode : String → String) (e : Event)
    (cfg cfg' : Session) (h : Reachable p decode cfg)
    (hs : step p decode e cfg = some cfg') :
    cfg.state.currentIndex < p.questions.length ∧
    cfg'.state.currentIndex < p.questions.length ∧
    (cfg'.state.currentIndex = cfg.state.currentIndex ∨
      (cfg'.state.currentIndex = cfg.state.currentIndex + 1 ∧
        (cfg.state.currentIndex : ℤ) < (p.questions.length : ℤ) - 1 ∧
        ∃ k env options c, e = Event.fire k env options ∧
          cfg.timers[k]? = some (Timer.next c) ∧
          afterDelay p env c cfg.state = (advance c cfg.state, []))) := by
  have hi := inv_reachable p decode cfg h
  have hi' := inv_step p decode e cfg cfg' hi hs
  refine ⟨hi.index_lt, hi'.index_lt, ?_⟩
  cases e with
  | tick =>
    simp only [step] at hs
    split_ifs at hs
    cases hs
    exact Or.inl rfl
  | pressOption item =>
    simp only [step] at hs
    split_ifs at hs
    cases hs
    left
    simp only [onPressOption]
    split_ifs <;> rfl
  | pressHint rand =>
    simp only [step] at hs
    split_ifs at hs
    cases hs
    left
    simp only [onPressHint]
    split_ifs <;> rfl
  | pressSubmit =>
    simp only [step] at hs
    split_ifs at hs
    cases hs
    exact Or.inl rfl
  | timeUp =>
    simp only [step] at hs
    split_ifs at hs
    cases hs
    exact Or.inl rfl
  | fire k env options =>
    simp only [step] at hs
    split at hs
    · cases hs
    · cases hs
      exact Or.inl rfl
    · rename_i c hk
      obtain ⟨ht, _⟩ := timers_single hi.timers_le hk
      obtain ⟨_, hc2, _⟩ := hi.closure (Timer.next c) (by simp [ht])
      simp only [Timer.closure] at hc2
      by_cases hlt : (c.currentIndex : ℤ) < (p.questions.length : ℤ) - 1
      · have hr : afterDelay p env c cfg.state = (advance c cfg.state, []) := by
          simp [afterDelay, hlt]
        rw [hr] at hs
        have hne : ¬ (advance c cfg.state).currentIndex = cfg.state.currentIndex := by
          simp [advance, hc2]
        simp only [hne, if_false] at hs
        split at hs
        · cases hs
        · split_ifs at hs
          cases hs
          right
          refine ⟨by simp [advance, hc2], by rw [← hc2]; exact hlt, k, env, options, c, rfl,
            hk, hr⟩
      · have hr : afterDelay p env c cfg.state = (cfg.state, finish p env c) := by
          simp [afterDelay, hlt]
        rw [hr] at hs
        simp only [if_true] at hs
        cases hs
        exact Or.inl rfl

/-! ## The random sort keeps the elements -/

theorem insertRandom_perm {α : Type} (rand : ℕ → ℚ) (x : α) :
    ∀ (k : ℕ) (l : List α), (insertRandom rand x k l).1.Perm (x :: l) := by
  intro k l
  induction l generalizing k with
  | nil => simp [insertRandom]
  | cons y ys ih =>
    simp only [insertRandom]
    split_ifs
    · exact List.Perm.refl _
    · exact ((ih (k + 1)).cons y).trans (List.Perm.swap x y ys)

theorem foldl_insertRandom_perm {α : Type} (rand : ℕ → ℚ) (xs : List α) :
    ∀ acc : List α × ℕ,
      (xs.foldl (fun acc x => insertRandom rand x acc.2 acc.1) acc).1.Perm (xs ++ acc.1) := by
  induction xs with
  | nil => intro acc; simp
  | cons x xs ih =>
    intro acc
    simp only [List.foldl_cons]
    refine (ih _).trans ?_
    refine ((insertRandom_perm rand x acc.2 acc.1).append_left xs).trans ?_
    simp

theorem sortRandom_perm {α : Type} (rand : ℕ → ℚ) (xs : List α) :
    (sortRandom rand xs).Perm xs := by
  simpa [sortRandom] using foldl_insertRandom_perm rand xs ([], 0)

/-- Claim C29. The two rounding orders of the hinted XP agree: for a correct answer
with a hint, any integer `R` and `T > 0`, the value of the code,
`floor(floor(R / T * 100) / 2)`, equals `floor((R / T * 100) / 2)` and
`floor(50 * R / T)`. -/
theorem gainedXP_hint_order (c : QuizState)
    (hsel : c.selected = some c.questionData.correctAnswer) (hh : c.usedHint = true)
    (hT : 0 < c.totalTime) :
    gainedXP c =
      ⌊((⌊(c.remainingTime : ℚ) / (c.totalTime : ℚ) * 100⌋ : ℤ) : ℚ) / 2⌋ ∧
    gainedXP c = halveThenFloor c.remainingTime c.totalTime ∧
    gainedXP c = ⌊(50 * c.remainingTime : ℚ) / (c.totalTime : ℚ)⌋ := by
  have hx := gainedXP_int c hsel hT
  rw [hh] at hx
  simp only [if_true] at hx
  have h2T : (0 : ℤ) < c.totalTime * 2 := by omega
  have hTq : (c.totalTime : ℚ) ≠ 0 := by exact_mod_cast hT.ne'
  have e1 : c.remainingTime * 100 / c.totalTime / 2 =
      c.remainingTime * 100 / (c.totalTime * 2) := by
    apply eq_of_forall_le_iff
    intro z
    rw [Int.le_ediv_iff_mul_le (by norm_num), Int.le_ediv_iff_mul_le hT,
      Int.le_ediv_iff_mul_le h2T]
    have : z * 2 * c.totalTime = z * (c.totalTime * 2) := by ring
    rw [this]
  have e2 : c.remainingTime * 100 / (c.totalTime * 2) = c.remainingTime * 50 / c.totalTime := by
    have : c.remainingTime * 100 = c.remainingTime * 50 * 2 := by ring
    rw [this, Int.mul_ediv_mul_of_pos_left _ _ (by norm_num : (0 : ℤ) < 2)]
  refine ⟨?_, ?_, ?_⟩
  · have hu : isUnanswered c = false := by simp [isUnanswered, hsel]
    have hc : isCorrect c = true := by simp [isCorrect, hsel]
    simp [gainedXP, hu, hc, hh, mathFloor]
  · rw [hx, e1, ← mathFloor_intCast_div _ _ h2T]
    unfold halveThenFloor
    congr 1
    push_cast
    field_simp
  · rw [hx, e1, e2, ← mathFloor_intCast_div _ _ hT]
    unfold mathFloor
    congr 1
    push_cast
    ring

/-- Witness of `gainedXP_hint_order`: an easy question with a hint and 7 seconds left
gains 5 XP in every order. -/
theorem gainedXP_hint_order_witness :
    gainedXP (sampleHinted 7) = halveThenFloor 7 60 :=
  (gainedXP_hint_order (sampleHinted 7) (by decide) (by decide) (by decide)).2.1

/-- Claim C30. The advance step, taken from a question that is not the last, sets
`selected = null`, `submitted = false`, `eliminatedOption = null`, `usedHint = false`
and `remainingTime` to the time budget, moves to the next index, and leaves
`correctCount`, `incorrectCount` and the total XP as they are; in a reachable
configuration the budget is that of the difficulty. -/
theorem advance_frame (p : RouteParams) (decode : String → String) (env : Env)
    (c s : QuizState) (cfg cfg' : Session) (k : ℕ) (options : List String)
    (hlt : (c.currentIndex : ℤ) < (p.questions.length : ℤ) - 1) :
    (afterDelay p env c s = (advance c s, []) ∧
      (advance c s).selected = none ∧ (advance c s).submitted = false ∧
      (advance c s).eliminatedOption = none ∧ (advance c s).usedHint = false ∧
      (advance c s).remainingTime = c.totalTime ∧
      (advance c s).currentIndex = c.currentIndex + 1 ∧
      (advance c s).correctCount = s.correctCount ∧
      (advance c s).incorrectCount = s.incorrectCount ∧
      (advance c s).totalEarnedXP = s.totalEarnedXP) ∧
    (Reachable p decode cfg → cfg.timers[k]? = some (Timer.next c) →
      step p decode (Event.fire k env options) cfg = some cfg' →
      cfg'.state.selected = none ∧ cfg'.state.submitted = false ∧
      cfg'.state.eliminatedOption = none ∧ cfg'.state.usedHint = false ∧
      totalTime p.difficulty = some cfg'.state.remainingTime ∧
      cfg'.state.currentIndex = cfg.state.currentIndex + 1 ∧
      cfg'.state.correctCount = cfg.state.correctCount ∧
      cfg'.state.incorrectCount = cfg.state.incorrectCount ∧
      cfg'.state.totalEarnedXP = cfg.state.totalEarnedXP) := by
  have hr : afterDelay p env c s = (advance c s, []) := by simp [afterDelay, hlt]
  refine ⟨⟨hr, rfl, rfl, rfl, rfl, rfl, rfl, rfl, rfl, rfl⟩, ?_⟩
  intro hreach hk hs
  have hi := inv_reachable p decode cfg hreach
  obtain ⟨ht, _⟩ := timers_single hi.timers_le hk
  obtain ⟨hc1, hc2, _⟩ := hi.closure (Timer.next c) (by simp [ht])
  simp only [Timer.closure] at hc1 hc2
  have hr2 : afterDelay p env c cfg.state = (advance c cfg.state, []) := by
    simp [afterDelay, hlt]
  have hne : ¬ (advance c cfg.state).currentIndex = cfg.state.currentIndex := by
    simp [advance, hc2]
  simp only [step, hk, hr2, hne, if_false] at hs
  split at hs
  · cases hs
  · split_ifs at hs
    cases hs
    refine ⟨rfl, rfl, rfl, rfl, ?_, ?_, rfl, rfl, rfl⟩
    · simp only [advance, hc1]
      exact hi.budget
    · simp [advance, hc2]

/-- Claim C25. For a time `t >= 0` in milliseconds the time string of the result screen
is `"<M> m <S> s"` with `M = floor(t / 60000)` and `S = floor((t mod 60000) / 1000)`,
where `0 <= S < 60` and `60000 M + 1000 S <= t < 60000 M + 1000 S + 1000`. -/
theorem timeStr_minutes_seconds (r : ResultParams) (ht : 0 ≤ r.timeTaken) :
    ResultContainer.timeStr r =
      String.mk (decimal (r.timeTaken / 60000).toNat) ++ " m " ++
        String.mk (decimal (r.timeTaken % 60000 / 1000).toNat) ++ " s" ∧
    (r.timeTaken / 60000 = ⌊(r.timeTaken : ℚ) / 60000⌋) ∧
    (r.timeTaken % 60000 / 1000 = ⌊((r.timeTaken % 60000 : ℤ) : ℚ) / 1000⌋) ∧
    0 ≤ r.timeTaken % 60000 / 1000 ∧ r.timeTaken % 60000 / 1000 < 60 ∧
    60000 * (r.timeTaken / 60000) + 1000 * (r.timeTaken % 60000 / 1000) ≤ r.timeTaken ∧
    r.timeTaken <
      60000 * (r.timeTaken / 60000) + 1000 * (r.timeTaken % 60000 / 1000) + 1000 := by
  have hm : mathFloor ((r.timeTaken : ℚ) / 60000) = r.timeTaken / 60000 := by
    simpa using mathFloor_intCast_div r.timeTaken 60000 (by norm_num)
  have hmod : Int.tmod r.timeTaken 60000 = r.timeTaken % 60000 :=
    Int.tmod_eq_emod ht (by norm_num)
  have hs : mathFloor (((r.timeTaken % 60000 : ℤ) : ℚ) / 1000) = r.timeTaken % 60000 / 1000 := by
    simpa using mathFloor_intCast_div (r.timeTaken % 60000) 1000 (by norm_num)
  have hM0 : ¬ r.timeTaken / 60000 < 0 := by omega
  have hS0 : ¬ r.timeTaken % 60000 / 1000 < 0 := by omega
  refine ⟨?_, ?_, ?_, by omega, by omega, by omega, by omega⟩
  · simp only [ResultContainer.timeStr, hm, hmod, hs, numberToString, hM0, hS0, if_false]
  · rw [← hm]; rfl
  · rw [← hs]; rfl

/-- Witness of `timeStr_minutes_seconds`: 62000 ms give "1 m 2 s". -/
theorem timeStr_minutes_seconds_witness :
    ResultContainer.timeStr { sampleResult "#1 General Knowledge" with timeTaken := 62000 } =
      "1 m 2 s" :=
  ((timeStr_minutes_seconds { sampleResult "#1 General Knowledge" with timeTaken := 62000 }
    (by decide)).1).trans (by decide)

/-! ## The daily quiz -/

theorem lookup_of_getElem? {β : Type} (l : List (String × β)) (i : ℕ) (key : String) (v : β)
    (hn : (l.map Prod.fst).Nodup) (h : l[i]? = some (key, v)) : l.lookup key = some v := by
  induction l generalizing i with
  | nil => simp at h
  | cons a l ih =>
    obtain ⟨k0, v0⟩ := a
    simp only [List.map_cons, List.nodup_cons] at hn
    cases i with
    | zero =>
      simp only [List.getElem?_cons_zero, Option.some.injEq, Prod.mk.injEq] at h
      obtain ⟨rfl, rfl⟩ := h
      simp [List.lookup]
    | succ i =>
      simp only [List.getElem?_cons_succ] at h
      have hmem : key ∈ l.map Prod.fst :=
        List.mem_map.mpr ⟨(key, v), List.getElem?_mem h, rfl⟩
      have hne : key ≠ k0 := fun e => hn.1 (e ▸ hmem)
      have hb : (key == k0) = false := by simpa using hne
      simp only [List.lookup, hb]
      exact ih i hn.2 h

theorem startsWith_append (a b : String) : startsWith (a ++ b) a = true := by
  simp [startsWith, String.data_append]

theorem hashString_eq_sum (str : String) :
    hashString str = ((str.data.map charCodes).flatten).sum := by
  rw [hashString, List.sum_eq_foldl]

theorem charCodes_flatten (cs : List Char) (h : ∀ c ∈ cs, c.toNat < 65536) :
    (cs.map charCodes).flatten = cs.map Char.toNat := by
  induction cs with
  | nil => rfl
  | cons c cs ih =>
    have hc : c.toNat < 0x10000 := h c (List.mem_cons_self _ _)
    have ht := ih (fun x hx => h x (List.mem_cons_of_mem _ hx))
    simp only [List.map_cons, List.flatten_cons, ht, charCodes, hc, if_true,
      List.singleton_append]

/-- Claim C23. The quiz set chosen by `generateDailyQuiz` depends on the date string
alone: `hashString` of the date is the sum of its character codes (the code points of
its characters when all are below 65536, as in a date), and for a non-empty quiz-set
map the index (that sum) mod (number of keys) is a valid index; for every random
source the key chosen is the key at that index and the quiz is built from the set
stored under it: its questions are the first 10 of the shuffled results of that set. -/
theorem generateDailyQuiz_choice (today : String) (quizSetMap : List (String × List RawQuestion))
    (hne : quizSetMap ≠ []) (hkeys : (quizSetMap.map Prod.fst).Nodup) :
    hashString today = ((today.data.map charCodes).flatten).sum ∧
    ((∀ c ∈ today.data, c.toNat < 65536) →
      hashString today = (today.data.map Char.toNat).sum) ∧
    ((today.data.map charCodes).flatten).sum % quizSetMap.length < quizSetMap.length ∧
    ∃ key results,
      quizSetMap[((today.data.map charCodes).flatten).sum % quizSetMap.length]? =
        some (key, results) ∧
      chosenKey today quizSetMap = some key ∧
      ∀ rand : ℕ → ℚ, ∃ q,
        generateDailyQuiz today quizSetMap rand = some q ∧
        q.questions = (sortRandom rand results).take 10 ∧
        ∀ x ∈ q.questions, x ∈ results := by
  have hsum := hashString_eq_sum today
  have hpos : 0 < quizSetMap.length := List.length_pos.mpr hne
  have hlt : hashString today % quizSetMap.length < quizSetMap.length := Nat.mod_lt _ hpos
  refine ⟨hsum, ?_, ?_, ?_⟩
  · intro hbmp
    rw [hsum, charCodes_flatten _ hbmp]
  · rw [← hsum]
    exact hlt
  rw [← hsum]
  obtain ⟨⟨key, results⟩, hget⟩ : ∃ e, quizSetMap[hashString today % quizSetMap.length]? =
      some e := ⟨_, List.getElem?_eq_getElem hlt⟩
  have hck : chosenKey today quizSetMap = some key := by
    simp [chosenKey, List.getElem?_map, hget]
  refine ⟨key, results, hget, hck, ?_⟩
  intro rand
  have hl := lookup_of_getElem? quizSetMap _ key results hkeys hget
  have hg : generateDailyQuiz today quizSetMap rand =
      some
        { quizTitle := "Daily Quiz - " ++ today
          quizSetId := "daily-" ++ today
          dateTaken := today
          categoryTitle := "Mixed"
          difficulty := "random"
          questions := (sortRandom rand results).take 10 } := by
    simp only [generateDailyQuiz, hck, hl]
  refine ⟨_, hg, rfl, ?_⟩
  intro x hx
  exact (sortRandom_perm rand results).subset (List.mem_of_mem_take hx)

/-- Witness of `generateDailyQuiz_choice`: on 2025-07-01 the character codes sum to
491, and of the three sets of `sampleMapThree` the one at index 491 mod 3 = 2 is
chosen, the third. A character outside the basic plane, here U+1F600, counts with its
two code units, 0xD83D and 0xDE00. -/
theorem generateDailyQuiz_choice_witness :
    hashString "2025-07-01" = ("2025-07-01".data.map Char.toNat).sum ∧
    ("2025-07-01".data.map Char.toNat).sum = 491 ∧
    491 % sampleMapThree.length = 2 ∧
    chosenKey "2025-07-01" sampleMapThree = some "cat9_hard_set1" ∧
    (generateDailyQuiz "2025-07-01" sampleMapThree (fun _ => 0)).map (fun q => q.questions) =
      some [sampleRaw] ∧
    hashString (String.mk [Char.ofNat 128512]) = 55357 + 56832 ∧
    ∃ key results,
      sampleMapThree[(("2025-07-01".data.map charCodes).flatten).sum %
        sampleMapThree.length]? = some (key, results) ∧
      chosenKey "2025-07-01" sampleMapThree = some key ∧
      ∀ rand : ℕ → ℚ, ∃ q,
        generateDailyQuiz "2025-07-01" sampleMapThree rand = some q ∧
        q.questions = (sortRandom rand results).take 10 ∧
        ∀ x ∈ q.questions, x ∈ results :=
  ⟨(generateDailyQuiz_choice "2025-07-01" sampleMapThree (by decide) (by decide)).2.1
      (by decide),
   by decide, by decide, by decide, by decide, by decide,
   (generateDailyQuiz_choice "2025-07-01" sampleMapThree (by decide) (by decide)).2.2.2⟩

/-- Claim C24. The quiz returned by `generateDailyQuiz` has a title that starts with
"Daily Quiz - " and a quiz set id that starts with "daily-"; a session started from it
takes the daily path when it finishes: `saveDailyQuizResult` is its first call, no
`quiz_history` insert is made, and the calls do not depend on the quiz set id, from
which no category id is parsed. -/
theorem generateDailyQuiz_daily_path (today : String)
    (quizSetMap : List (String × List RawQuestion)) (rand : ℕ → ℚ) (q : DailyQuiz)
    (env : Env) (c : QuizState) (h : generateDailyQuiz today quizSetMap rand = some q) :
    startsWith q.quizTitle "Daily Quiz - " = true ∧
    startsWith q.quizSetId "daily-" = true ∧
    (∃ rest, finish (dailyRouteParams q) env c =
      Effect.saveDailyQuizResult env.userId (score (dailyRouteParams q) c) (xp c)
        (fullReview c) (timeTaken env c) :: rest) ∧
    (∀ r, Effect.insertQuizHistory r ∉ finish (dailyRouteParams q) env c) ∧
    (∀ quizSetId, finish { dailyRouteParams q with quizSetId := quizSetId } env c =
      finish (dailyRouteParams q) env c) := by
  have hq : q.quizTitle = "Daily Quiz - " ++ today ∧ q.quizSetId = "daily-" ++ today := by
    unfold generateDailyQuiz at h
    split at h
    · cases h
    · split at h
      · cases h
      · cases h
        exact ⟨rfl, rfl⟩
  have h1 : startsWith q.quizTitle "Daily Quiz - " = true := by
    rw [hq.1]; exact startsWith_append _ _
  have h2 : startsWith q.quizSetId "daily-" = true := by
    rw [hq.2]; exact startsWith_append _ _
  have h3 : startsWith (dailyRouteParams q).quizTitle "Daily Quiz -" = true := by
    have : (dailyRouteParams q).quizTitle = "Daily Quiz -" ++ (" " ++ today) := by
      simp only [dailyRouteParams, hq.1]
      rfl
    rw [this]; exact startsWith_append _ _
  refine ⟨h1, h2, ⟨_, by rw [finish, if_pos h3]⟩, ?_, ?_⟩
  · intro r hr
    rw [finish, if_pos h3] at hr
    split_ifs at hr <;> simp at hr
  · intro quizSetId
    have h4 : startsWith ({ dailyRouteParams q with quizSetId := quizSetId }).quizTitle
        "Daily Quiz -" = true := h3
    rw [finish, if_pos h4, finish, if_pos h3]
    rfl

/-- Witness of `generateDailyQuiz_daily_path`: the daily quiz of the sample map. -/
theorem generateDailyQuiz_daily_path_witness :
    startsWith sampleDailyQuiz.quizTitle "Daily Quiz - " = true ∧
    startsWith sampleDailyQuiz.quizSetId "daily-" = true :=
  ⟨(generateDailyQuiz_daily_path "2025-07-01" sampleMap (fun _ => 0) sampleDailyQuiz sampleEnv
      sampleAnswered (by decide)).1,
   (generateDailyQuiz_daily_path "2025-07-01" sampleMap (fun _ => 0) sampleDailyQuiz sampleEnv
      sampleAnswered (by decide)).2.1⟩

/-! ## The local rank -/

theorem rankBefore_total (a b : RankEntry) : rankBefore a b ∨ rankBefore b a := by
  unfold rankBefore rankCompare
  split_ifs <;> omega

theorem rankBefore_trans (a b c : RankEntry) (hab : rankBefore a b) (hbc : rankBefore b c) :
    rankBefore a c := by
  unfold rankBefore rankCompare at *
  split_ifs at * <;> omega

theorem sortedRanking_sorted (historyData : List XpRow) (profiles : List Profile) :
    (sortedRanking historyData profiles).Sorted rankBefore := by
  haveI : IsTotal RankEntry rankBefore := ⟨rankBefore_total⟩
  haveI : IsTrans RankEntry rankBefore := ⟨rankBefore_trans⟩
  exact List.sorted_insertionSort rankBefore _

theorem sortedRanking_perm (historyData : List XpRow) (profiles : List Profile) :
    (sortedRanking historyData profiles).Perm (combined historyData profiles) :=
  List.perm_insertionSort rankBefore _

theorem toNumberInt_of_lt (z : ℤ) (h : z.natAbs < 2 ^ 53) : toNumberInt z = z := by
  unfold toNumberInt
  split_ifs with h0
  · rw [toNumber_of_lt _ (by omega)]
    omega
  · rw [toNumber_of_lt _ (by omega)]
    omega

theorem foldl_toNumberInt (rows : List XpRow) :
    ∀ acc : ℤ, acc.natAbs + (rows.map (fun h => (h.xp.getD 0).natAbs)).sum < 2 ^ 53 →
      rows.foldl (fun sum h => toNumberInt (sum + h.xp.getD 0)) acc =
        acc + (rows.map (fun h => h.xp.getD 0)).sum := by
  induction rows with
  | nil => intro acc _; simp
  | cons a rows ih =>
    intro acc h
    simp only [List.map_cons, List.sum_cons] at h
    have hle : (acc + a.xp.getD 0).natAbs ≤ acc.natAbs + (a.xp.getD 0).natAbs :=
      Int.natAbs_add_le _ _
    have hstep : toNumberInt (acc + a.xp.getD 0) = acc + a.xp.getD 0 :=
      toNumberInt_of_lt _ (by omega)
    simp only [List.foldl_cons, hstep, List.map_cons, List.sum_cons]
    rw [ih (acc + a.xp.getD 0) (by omega)]
    ring

theorem xpMap_eq_sum (historyData : List XpRow) (id : String)
    (h : (historyData.map (fun h => (h.xp.getD 0).natAbs)).sum < 2 ^ 53) :
    xpMap historyData id =
      ((historyData.filter (fun h => h.user_id = id)).map (fun h => h.xp.getD 0)).sum := by
  have hsub : ((historyData.filter (fun h => h.user_id = id)).map
      (fun h => (h.xp.getD 0).natAbs)).sum ≤
      (historyData.map (fun h => (h.xp.getD 0).natAbs)).sum :=
    List.Sublist.sum_le_sum (List.Sublist.map _ (List.filter_sublist _)) (fun _ _ => Nat.zero_le _)
  have := foldl_toNumberInt (historyData.filter (fun h => h.user_id = id)) 0
    (by simp only [Int.natAbs_zero, zero_add]; omega)
  simpa [xpMap] using this

/-- A total beyond `2 ^ 53`: the rows 9007199254740992, 1 and 1 of one user add up to
9007199254740992 in Numbers, each `+ 1` being rounded away. -/
theorem xpMap_beyond_safe_integers :
    xpMap [⟨"u1", some 9007199254740992⟩, ⟨"u1", some 1⟩, ⟨"u1", some 1⟩] "u1"
      = 9007199254740992 := by
  decide

/-- Claim C26. The local rank of a user is "#k", where `k` is the 1-based position of
the first entry of the user in the profiles sorted by total XP descending and then by
`created_at` ascending, and it is "-" when the user has no profile. The total XP of a
profile is the value of `xpMap` under its id, which is the sum of `xp || 0` over the
`quiz_history` rows of that user whenever the sizes of all XP values add up to less
than `2 ^ 53`. Every profile with strictly more total XP than the user, or with equal
XP and a strictly earlier `created_at`, stands ahead of the user. -/
theorem localRank_position (historyData : List XpRow) (profiles : List Profile)
    (userId : String) :
    ((historyData.map (fun h => (h.xp.getD 0).natAbs)).sum < 2 ^ 53 →
      ∀ id, xpMap historyData id =
        ((historyData.filter (fun h => h.user_id = id)).map (fun h => h.xp.getD 0)).sum) ∧
    (sortedRanking historyData profiles).Perm
      (profiles.map (fun p =>
        { id := p.id, created_at := p.created_at, totalXP := xpMap historyData p.id })) ∧
    (sortedRanking historyData profiles).Pairwise
      (fun a b => b.totalXP < a.totalXP ∨
        (a.totalXP = b.totalXP ∧ a.created_at ≤ b.created_at)) ∧
    ((∀ p ∈ profiles, p.id ≠ userId) → localRank historyData profiles userId = "-") ∧
    ((∃ p ∈ profiles, p.id = userId) →
      ∃ k u,
        localRank historyData profiles userId = "#" ++ String.mk (decimal (k + 1)) ∧
        (sortedRanking historyData profiles)[k]? = some u ∧ u.id = userId ∧
        u.totalXP = xpMap historyData userId ∧
        (∀ j e, (sortedRanking historyData profiles)[j]? = some e → j < k → e.id ≠ userId) ∧
        (∀ j e, (sortedRanking historyData profiles)[j]? = some e →
          (u.totalXP < e.totalXP ∨ (e.totalXP = u.totalXP ∧ e.created_at < u.created_at)) →
          j < k) ∧
        (∀ q ∈ profiles,
          (xpMap historyData userId < xpMap historyData q.id ∨
            (xpMap historyData q.id = xpMap historyData userId ∧
              q.created_at < u.created_at)) →
          ∃ j, j < k ∧ (sortedRanking historyData profiles)[j]? =
            some { id := q.id, created_at := q.created_at,
                   totalXP := xpMap historyData q.id })) := by
  have hperm := sortedRanking_perm historyData profiles
  have hsorted := sortedRanking_sorted historyData profiles
  refine ⟨fun hb id => xpMap_eq_sum historyData id hb, hperm, ?_, ?_, ?_⟩
  · refine List.Pairwise.imp ?_ hsorted
    intro a b hab
    unfold rankBefore rankCompare at hab
    split_ifs at hab <;> omega
  · intro hno
    have hnone : (sortedRanking historyData profiles).findIdx? (fun entry => entry.id = userId)
        = none := by
      rw [List.findIdx?_eq_none_iff]
      intro x hx
      have hx2 := hperm.subset hx
      simp only [combined, List.mem_map] at hx2
      obtain ⟨p, hp, rfl⟩ := hx2
      simpa using hno p hp
    simp only [localRank, hnone]
  · rintro ⟨p, hp, hpid⟩
    have hex : ∃ x, x ∈ sortedRanking historyData profiles ∧
        (fun entry : RankEntry => decide (entry.id = userId)) x = true := by
      refine ⟨⟨p.id, p.created_at, xpMap historyData p.id⟩, hperm.symm.subset ?_, by simpa using hpid⟩
      simp only [combined, List.mem_map]
      exact ⟨p, hp, rfl⟩
    cases hf : (sortedRanking historyData profiles).findIdx? (fun entry => entry.id = userId) with
    | none =>
      rw [List.findIdx?_eq_none_iff] at hf
      obtain ⟨x, hx, hpx⟩ := hex
      have hfx := hf x hx
      simp only [hfx] at hpx
      cases hpx
    | some k =>
      obtain ⟨hk, hpk, hfirst⟩ := List.findIdx?_eq_some_iff_getElem.mp hf
      have hid : ((sortedRanking historyData profiles)[k]).id = userId := by simpa using hpk
      have htot : ((sortedRanking historyData profiles)[k]).totalXP = xpMap historyData userId := by
        have hmem := hperm.subset (List.getElem_mem hk)
        simp only [combined, List.mem_map] at hmem
        obtain ⟨p2, _, hp2⟩ := hmem
        rw [← hp2] at hid ⊢
        simp only at hid ⊢
        rw [hid]
      have hahead : ∀ j e, (sortedRanking historyData profiles)[j]? = some e →
          (((sortedRanking historyData profiles)[k]).totalXP < e.totalXP ∨
            (e.totalXP = ((sortedRanking historyData profiles)[k]).totalXP ∧
              e.created_at < ((sortedRanking historyData profiles)[k]).created_at)) →
          j < k := by
        intro j e hj hstrict
        obtain ⟨hjl, hje⟩ := List.getElem?_eq_some.mp hj
        by_contra hnot
        have hkj : k ≤ j := Nat.le_of_not_lt hnot
        rcases Nat.eq_or_lt_of_le hkj with heq | hlt
        · subst heq
          rw [hje] at hstrict
          omega
        · have hrel := (List.pairwise_iff_getElem.mp hsorted) k j hk hjl hlt
          rw [hje] at hrel
          unfold rankBefore rankCompare at hrel
          split_ifs at hrel <;> omega
      refine ⟨k, (sortedRanking historyData profiles)[k], by simp only [localRank, hf],
        List.getElem?_eq_getElem hk, hid, htot, ?_, hahead, ?_⟩
      · intro j e hj hjk
        obtain ⟨hjl, hje⟩ := List.getElem?_eq_some.mp hj
        have := hfirst j hjk
        rw [hje] at this
        simpa using this
      · intro q hq hstrict
        have hmem : (⟨q.id, q.created_at, xpMap historyData q.id⟩ : RankEntry) ∈
            sortedRanking historyData profiles := by
          refine hperm.symm.subset ?_
          simp only [combined, List.mem_map]
          exact ⟨q, hq, rfl⟩
        obtain ⟨j, hjl, hje⟩ := List.getElem_of_mem hmem
        have hj : (sortedRanking historyData profiles)[j]? =
            some { id := q.id, created_at := q.created_at,
                   totalXP := xpMap historyData q.id } := by
          rw [List.getElem?_eq_getElem hjl, hje]
        refine ⟨j, hahead j _ hj ?_, hj⟩
        rw [htot]
        exact hstrict

/-- Witness of `localRank_position`: of the profiles of `sampleProfiles`, "u1" has the
most XP (150, the sum of its two rows) and ranks first, "u3" and "u2" have 100 XP each
and "u3", registered earlier, ranks ahead of "u2"; "u4" has rows but no profile and has
no rank. -/
theorem localRank_position_witness :
    localRank sampleXpRows sampleProfiles "u4" = "-" ∧
    localRank sampleXpRows sampleProfiles "u1" = "#1" ∧
    localRank sampleXpRows sampleProfiles "u3" = "#2" ∧
    localRank sampleXpRows sampleProfiles "u2" = "#3" ∧
    (sortedRanking sampleXpRows sampleProfiles).map (fun e => (e.id, e.totalXP)) =
      [("u1", 150), ("u3", 100), ("u2", 100)] ∧
    (∀ id, xpMap sampleXpRows id =
      ((sampleXpRows.filter (fun h => h.user_id = id)).map (fun h => h.xp.getD 0)).sum) ∧
    ∃ k u, localRank sampleXpRows sampleProfiles "u2" = "#" ++ String.mk (decimal (k + 1)) ∧
      (sortedRanking sampleXpRows sampleProfiles)[k]? = some u ∧ u.id = "u2" ∧
      u.totalXP = xpMap sampleXpRows "u2" ∧
      (∀ j e, (sortedRanking sampleXpRows sampleProfiles)[j]? = some e → j < k → e.id ≠ "u2") ∧
      (∀ j e, (sortedRanking sampleXpRows sampleProfiles)[j]? = some e →
        (u.totalXP < e.totalXP ∨ (e.totalXP = u.totalXP ∧ e.created_at < u.created_at)) →
        j < k) ∧
      (∀ q ∈ sampleProfiles,
        (xpMap sampleXpRows "u2" < xpMap sampleXpRows q.id ∨
          (xpMap sampleXpRows q.id = xpMap sampleXpRows "u2" ∧
            q.created_at < u.created_at)) →
        ∃ j, j < k ∧ (sortedRanking sampleXpRows sampleProfiles)[j]? =
          some { id := q.id, created_at := q.created_at,
                 totalXP := xpMap sampleXpRows q.id }) :=
  ⟨(localRank_position sampleXpRows sampleProfiles "u4").2.2.2.1 (by decide),
   by decide, by decide, by decide, by decide,
   (localRank_position sampleXpRows sampleProfiles "u4").1 (by decide),
   (localRank_position sampleXpRows sampleProfiles "u2").2.2.2.2 (by decide)⟩

/-! ## The Happy Camper badge -/

theorem sampleDates_odd (date : String) (n : ℤ) (hm : some date ∈ sampleDates)
    (hn : dayNumber date = some n) : n % 2 = 1 := by
  simp only [sampleDates, List.mem_cons, Option.some.injEq, List.mem_singleton,
    List.not_mem_nil, or_false] at hm
  rcases hm with h | h | h | h | h | h | h | h <;> subst h
  · have : dayNumber "2025-01-01" = some 20089 := by decide
    rw [this] at hn; cases hn; decide
  · have : dayNumber "2025-01-03" = some 20091 := by decide
    rw [this] at hn; cases hn; decide
  · have : dayNumber "2025-01-05" = some 20093 := by decide
    rw [this] at hn; cases hn; decide
  · have : dayNumber "2025-01-07" = some 20095 := by decide
    rw [this] at hn; cases hn; decide
  · have : dayNumber "2025-01-09" = some 20097 := by decide
    rw [this] at hn; cases hn; decide
  · have : dayNumber "2025-01-11" = some 20099 := by decide
    rw [this] at hn; cases hn; decide
  · have : dayNumber "2025-01-13" = some 20101 := by decide
    rw [this] at hn; cases hn; decide
  · have : dayNumber "2025-01-13" = some 20101 := by decide
    rw [this] at hn; cases hn; decide

/-- Claim C27 (evaluation at the failing input). A history with plays on 1, 3, 5, 7,
9, 11 and 13 January 2025 has seven different dates, so the progress of the "Happy
Camper" badge is 1, although it has no plays on 7 consecutive calendar days. -/
theorem happyCamper_without_streak :
    datesSize sampleDates = 7 ∧ happyCamperProgress sampleDates = 1 ∧
    ¬ SevenConsecutiveDays sampleDates := by
  have hsz : datesSize sampleDates = 7 := by decide
  refine ⟨hsz, by norm_num [happyCamperProgress, hsz], ?_⟩
  rintro ⟨first, h⟩
  obtain ⟨d0, hm0, hn0⟩ := h 0 (by norm_num) (by norm_num)
  obtain ⟨d1, hm1, hn1⟩ := h 1 (by norm_num) (by norm_num)
  have h0 := sampleDates_odd d0 _ hm0 hn0
  have h1 := sampleDates_odd d1 _ hm1 hn1
  omega

/-! ## The second invariant -/

theorem countStatus_append (st : Status) (a b : List ReviewItem) :
    countStatus st (a ++ b) = countStatus st a + countStatus st b := by
  simp [countStatus, List.filter_append]

theorem countStatus_total (l : List ReviewItem) :
    countStatus Status.correct l + countStatus Status.incorrect l +
      countStatus Status.unanswered l = (l.length : ℤ) := by
  induction l with
  | nil => simp [countStatus]
  | cons a l ih =>
    have h1 : ∀ st, countStatus st (a :: l) =
        (if a.status = st then 1 else 0) + countStatus st l := by
      intro st
      simp only [countStatus, List.filter_cons]
      split_ifs with h <;> simp_all
      omega
    rw [h1, h1, h1]
    simp only [List.length_cons]
    push_cast
    cases hs : a.status <;> simp <;> omega

theorem countStatus_fullReview (c : QuizState) :
    countStatus Status.correct (fullReview c) =
      countStatus Status.correct c.reviewItems +
        (if !isUnanswered c && isCorrect c then 1 else 0) ∧
    countStatus Status.incorrect (fullReview c) =
      countStatus Status.incorrect c.reviewItems +
        (if !isUnanswered c && !isCorrect c then 1 else 0) := by
  simp only [fullReview, countStatus_append]
  cases hu : isUnanswered c <;> cases hc : isCorrect c <;>
    simp [countStatus, finalReviewItem, hu, hc]

theorem finalCounts_eq (c : QuizState) :
    finalCorrect c = c.correctCount + (if !isUnanswered c && isCorrect c then 1 else 0) ∧
    finalIncorrect c =
      c.incorrectCount + (if !isUnanswered c && !isCorrect c then 1 else 0) := by
  cases hu : isUnanswered c <;> cases hc : isCorrect c <;>
    simp [finalCorrect, finalIncorrect, hu, hc]

theorem handleSubmit_final (c s : QuizState) (h1 : c.correctCount = s.correctCount)
    (h2 : c.incorrectCount = s.incorrectCount) :
    (handleSubmit c s).correctCount = finalCorrect c ∧
    (handleSubmit c s).incorrectCount = finalIncorrect c := by
  obtain ⟨e1, e2⟩ := finalCounts_eq c
  rw [e1, e2, h1, h2]
  cases hu : isUnanswered c <;> cases hc : isCorrect c <;> simp [handleSubmit, hu, hc]

theorem finish_mem (p : RouteParams) (env : Env) (c : QuizState) (e : Effect)
    (he : e ∈ finish p env c) :
    e = Effect.saveDailyQuizResult env.userId (score p c) (xp c) (fullReview c)
          (timeTaken env c) ∨
    e = Effect.cancelAllScheduledNotifications ∨
    e = Effect.setLastDailyQuizDate env.dateString ∨
    e = Effect.navigateResult (resultParams p env c) ∨
    ∃ cat, e = Effect.insertQuizHistory (historyRecord p env c cat) := by
  unfold finish at he
  split at he
  · split_ifs at he <;> simp at he <;> tauto
  · split at he
    · simp at he
    · rename_i cat _
      simp only [List.mem_cons, List.mem_singleton, List.not_mem_nil, or_false] at he
      rcases he with rfl | rfl
      · exact Or.inr (Or.inr (Or.inr (Or.inr ⟨cat, rfl⟩)))
      · exact Or.inr (Or.inr (Or.inr (Or.inl rfl)))

theorem finish_xpArg (p : RouteParams) (env : Env) (c : QuizState) (e : Effect) (x : ℤ)
    (he : e ∈ finish p env c) (hx : e.xpArg = some x) : x = xp c := by
  rcases finish_mem p env c e he with rfl | rfl | rfl | rfl | ⟨cat, rfl⟩
  · simpa [Effect.xpArg] using hx.symm
  · simp [Effect.xpArg] at hx
  · simp [Effect.xpArg] at hx
  · simpa [Effect.xpArg, resultParams] using hx.symm
  · simpa [Effect.xpArg, historyRecord] using hx.symm

theorem inv2_frame (p : RouteParams) (decode : String → String) (cfg : Session)
    (s : QuizState) (g : List ℤ) (h : Inv2 p decode cfg g)
    (h1 : s.totalEarnedXP = cfg.state.totalEarnedXP)
    (h2 : s.currentIndex = cfg.state.currentIndex)
    (h3 : s.reviewItems = cfg.state.reviewItems) (h4 : s.submitted = cfg.state.submitted)
    (h5 : s.correctCount = cfg.state.correctCount)
    (h6 : s.incorrectCount = cfg.state.incorrectCount)
    (h7 : s.questionData = cfg.state.questionData) :
    Inv2 p decode { cfg with state := s } g where
  total := by simpa [h1] using h.total
  glen_idle := by simpa [h2, h4] using h.glen_idle
  glen_locked := by simpa [h2, h4] using h.glen_locked
  counts_idle := by simpa [h3, h4, h5, h6] using h.counts_idle
  pend_submit := by simpa [h1, h5, h6] using h.pend_submit
  pend_next := by simpa [h1, h5, h6] using h.pend_next
  finished := by simpa [h4] using h.finished
  calls_xp := h.calls_xp
  calls_length := h.calls_length
  calls_counts := h.calls_counts
  question := by simpa [h2, h7] using h.question

theorem inv2_init (p : RouteParams) (decode : String → String) (start : ℤ)
    (options : List String) (cfg : Session)
    (h : initSession p decode start options = some cfg) : Inv2 p decode cfg [] := by
  unfold initSession at h
  split at h
  · rename_i T raw hT hq
    split_ifs at h with hperm
    cases h
    refine ⟨rfl, fun _ => rfl, ?_, fun _ => ⟨rfl, rfl⟩, by simp, by simp, by simp, by simp,
      by simp, by simp, ⟨raw, hq, List.isPerm_iff.mp hperm, rfl, rfl⟩⟩
    intro hs
    simp [initialState] at hs
  · cases h

theorem inv2_submitNow (p : RouteParams) (decode : String → String) (cfg : Session)
    (g : List ℤ) (hi : Inv p cfg) (h : Inv2 p decode cfg g)
    (hs : cfg.state.submitted = false) :
    Inv2 p decode (submitNow cfg) (g ++ [gainedXP cfg.state]) := by
  have ht := hi.idle hs
  have hcalls : cfg.calls = [] := by
    by_contra hne
    have := (h.finished hne).1
    rw [hs] at this
    cases this
  obtain ⟨hc1, hc2⟩ := h.counts_idle (Or.inl hs)
  obtain ⟨hf1, hf2⟩ := handleSubmit_final cfg.state cfg.state rfl rfl
  refine ⟨?_, ?_, ?_, ?_, ?_, ?_, ?_, ?_, ?_, ?_, h.question⟩
  · simp [submitNow, handleSubmit, h.total]
  · rintro (hsub | ⟨c, hc⟩)
    · simp [submitNow, handleSubmit] at hsub
    · simp [submitNow, ht] at hc
  · intro _ _
    have := h.glen_idle (Or.inl hs)
    simp only [List.length_append, List.length_singleton, this]
    rfl
  · rintro (hsub | ⟨c, hc⟩)
    · simp [submitNow, handleSubmit] at hsub
    · simp [submitNow, ht] at hc
  · intro c hc
    simp [submitNow, ht] at hc
  · intro c hc
    simp only [submitNow, ht, List.nil_append, List.mem_singleton, Timer.next.injEq] at hc
    subst hc
    exact ⟨rfl, hf1, hf2, hc1, hc2⟩
  · intro hne
    exact absurd hcalls hne
  · intro e he
    simp [submitNow, hcalls] at he
  · intro hne
    exact absurd hcalls hne
  · intro r hr
    simp [submitNow, hcalls] at hr

theorem inv2_timeUp (p : RouteParams) (decode : String → String) (cfg : Session)
    (g : List ℤ) (hi : Inv p cfg) (h : Inv2 p decode cfg g)
    (hs : cfg.state.submitted = false) :
    Inv2 p decode
      { cfg with
        state := autoSubmit cfg.state
        timers := cfg.timers ++ [Timer.submit cfg.state] } g := by
  have ht := hi.idle hs
  have hcalls : cfg.calls = [] := by
    by_contra hne
    have := (h.finished hne).1
    rw [hs] at this
    cases this
  refine ⟨h.total, fun _ => h.glen_idle (Or.inl hs), ?_, fun _ => h.counts_idle (Or.inl hs),
    ?_, ?_, ?_, ?_, ?_, ?_, h.question⟩
  · intro _ hno
    exact absurd (by simp [ht]) (hno cfg.state)
  · intro c hc
    simp only [ht, List.nil_append, List.mem_singleton, Timer.submit.injEq] at hc
    subst hc
    exact ⟨rfl, rfl, rfl⟩
  · intro c hc
    simp [ht] at hc
  · intro hne
    exact absurd hcalls hne
  · intro e he
    simp [hcalls] at he
  · intro hne
    exact absurd hcalls hne
  · intro r hr
    simp [hcalls] at hr

theorem inv2_fire_submit (p : RouteParams) (decode : String → String) (cfg : Session)
    (g : List ℤ) (k : ℕ) (c : QuizState) (hi : Inv p cfg) (h : Inv2 p decode cfg g)
    (hk : cfg.timers[k]? = some (Timer.submit c)) :
    Inv2 p decode
      { cfg with
        state := handleSubmit c cfg.state
        timers := cfg.timers.eraseIdx k ++ [Timer.next c] } (g ++ [gainedXP c]) := by
  obtain ⟨ht, he⟩ := timers_single hi.timers_le hk
  have hmem : Timer.submit c ∈ cfg.timers := by simp [ht]
  have hcalls : cfg.calls = [] := by
    by_contra hne
    have := (h.finished hne).2
    rw [ht] at this
    cases this
  obtain ⟨hp1, hp2, hp3⟩ := h.pend_submit c hmem
  obtain ⟨hc1, hc2⟩ := h.counts_idle (Or.inr ⟨c, hmem⟩)
  obtain ⟨_, _, hcr⟩ := hi.closure (Timer.submit c) hmem
  simp only [Timer.closure] at hcr
  obtain ⟨hf1, hf2⟩ := handleSubmit_final c cfg.state hp2 hp3
  refine ⟨?_, ?_, ?_, ?_, ?_, ?_, ?_, ?_, ?_, ?_, h.question⟩
  · simp [handleSubmit, h.total]
  · rintro (hsub | ⟨c', hc'⟩)
    · simp [handleSubmit] at hsub
    · simp [he] at hc'
  · intro _ _
    have := h.glen_idle (Or.inr ⟨c, hmem⟩)
    simp only [List.length_append, List.length_singleton, this]
    rfl
  · rintro (hsub | ⟨c', hc'⟩)
    · simp [handleSubmit] at hsub
    · simp [he] at hc'
  · intro c' hc'
    simp [he] at hc'
  · intro c' hc'
    simp only [he, List.nil_append, List.mem_singleton, Timer.next.injEq] at hc'
    subst hc'
    refine ⟨?_, hf1, hf2, ?_, ?_⟩
    · simp [handleSubmit, hp1]
    · rw [hp2, hcr]; exact hc1
    · rw [hp3, hcr]; exact hc2
  · intro hne
    exact absurd hcalls hne
  · intro e he'
    simp [hcalls] at he'
  · intro hne
    exact absurd hcalls hne
  · intro r hr
    simp [hcalls] at hr

theorem inv2_fire_advance (p : RouteParams) (decode : String → String) (cfg : Session)
    (g : List ℤ) (k : ℕ) (c : QuizState) (raw : RawQuestion) (options : List String)
    (hi : Inv p cfg) (h : Inv2 p decode cfg g)
    (hk : cfg.timers[k]? = some (Timer.next c))
    (hraw : p.questions[(advance c cfg.state).currentIndex]? = some raw)
    (hperm : options.isPerm (baseOptions decode raw) = true) :
    Inv2 p decode
      { state := { advance c cfg.state with questionData := loadQuestion decode raw options }
        timers := cfg.timers.eraseIdx k
        calls := cfg.calls ++ [] } g := by
  obtain ⟨ht, he⟩ := timers_single hi.timers_le hk
  have hmem : Timer.next c ∈ cfg.timers := by simp [ht]
  have hsub : cfg.state.submitted = true := by
    cases hs : cfg.state.submitted with
    | true => rfl
    | false =>
      have := hi.idle hs
      rw [ht] at this
      cases this
  have hcalls : cfg.calls = [] := by
    by_contra hne
    have := (h.finished hne).2
    rw [ht] at this
    cases this
  have hnosub : ∀ c', Timer.submit c' ∉ cfg.timers := by
    intro c' hc'
    simp [ht] at hc'
  obtain ⟨_, hc2, _⟩ := hi.closure (Timer.next c) hmem
  simp only [Timer.closure] at hc2
  obtain ⟨_, hn2, hn3, hn4, hn5⟩ := h.pend_next c hmem
  obtain ⟨e1, e2⟩ := finalCounts_eq c
  obtain ⟨f1, f2⟩ := countStatus_fullReview c
  have hlen := h.glen_locked hsub hnosub
  refine ⟨h.total, ?_, ?_, ?_, by simp [he], by simp [he], by simp [hcalls], by simp [hcalls],
    by simp [hcalls], by simp [hcalls], ⟨raw, hraw, List.isPerm_iff.mp hperm, rfl, rfl⟩⟩
  · intro _
    simp only [advance, hc2]
    exact hlen
  · intro hs
    simp [advance] at hs
  · intro _
    constructor
    · simp only [advance]
      rw [hn2, e1, f1, hn4]
    · simp only [advance]
      rw [hn3, e2, f2, hn5]

theorem inv2_fire_finish (p : RouteParams) (decode : String → String) (cfg : Session)
    (g : List ℤ) (k : ℕ) (c : QuizState) (env : Env) (hi : Inv p cfg)
    (h : Inv2 p decode cfg g) (hk : cfg.timers[k]? = some (Timer.next c))
    (hge : ¬ (c.currentIndex : ℤ) < (p.questions.length : ℤ) - 1) :
    Inv2 p decode
      { state := cfg.state
        timers := cfg.timers.eraseIdx k
        calls := cfg.calls ++ finish p env c } g := by
  obtain ⟨ht, he⟩ := timers_single hi.timers_le hk
  have hmem : Timer.next c ∈ cfg.timers := by simp [ht]
  have hsub : cfg.state.submitted = true := by
    cases hs : cfg.state.submitted with
    | true => rfl
    | false =>
      have := hi.idle hs
      rw [ht] at this
      cases this
  have hcalls : cfg.calls = [] := by
    by_contra hne
    have := (h.finished hne).2
    rw [ht] at this
    cases this
  have hnosub : ∀ c', Timer.submit c' ∉ cfg.timers := by
    intro c' hc'
    simp [ht] at hc'
  obtain ⟨_, hc2, hc3⟩ := hi.closure (Timer.next c) hmem
  simp only [Timer.closure] at hc2 hc3
  obtain ⟨hn1, hn2, hn3, hn4, hn5⟩ := h.pend_next c hmem
  obtain ⟨e1, e2⟩ := finalCounts_eq c
  obtain ⟨f1, f2⟩ := countStatus_fullReview c
  have hlen := h.glen_locked hsub hnosub
  have hidx := hi.index_lt
  have hlast : cfg.state.currentIndex + 1 = p.questions.length := by omega
  refine ⟨h.total, ?_, fun _ _ => hlen, ?_, by simp [he], by simp [he], fun _ => ⟨hsub, he⟩,
    ?_, ?_, ?_, h.question⟩
  · rintro (hs | ⟨c', hc'⟩)
    · rw [hsub] at hs; cases hs
    · simp [he] at hc'
  · rintro (hs | ⟨c', hc'⟩)
    · rw [hsub] at hs; cases hs
    · simp [he] at hc'
  · intro e hmem' x hx
    simp only [hcalls, List.nil_append] at hmem'
    rw [finish_xpArg p env c e x hmem' hx, ← h.total, ← hn1]
    rfl
  · intro _
    rw [hlen, hlast]
  · intro r hr
    simp only [hcalls, List.nil_append] at hr
    rw [finish_handoff p env c r hr]
    have htot := countStatus_total (fullReview c)
    have hfl : ((fullReview c).length : ℤ) = (p.questions.length : ℤ) := by
      rw [fullReview_length, hc3, hi.review_length, ← hlast]
    simp only [resultParams, finalUnanswered]
    refine ⟨by rw [e1, f1, hn4], by rw [e2, f2, hn5], ?_⟩
    rw [e1, e2, hn4, hn5, ← f1, ← f2]
    omega

theorem inv2_step (p : RouteParams) (decode : String → String) (e : Event)
    (cfg cfg' : Session) (g : List ℤ) (hi : Inv p cfg) (h : Inv2 p decode cfg g)
    (hs : step p decode e cfg = some cfg') : Inv2 p decode cfg' (g ++ gainOf e cfg) := by
  cases e with
  | tick =>
    simp only [step] at hs
    split_ifs at hs
    cases hs
    simpa [gainOf] using
      inv2_frame p decode cfg (tick cfg.state) g h rfl rfl rfl rfl rfl rfl rfl
  | pressOption item =>
    simp only [step] at hs
    split_ifs at hs
    cases hs
    simp only [gainOf, List.append_nil, onPressOption]
    split_ifs
    · exact inv2_frame p decode cfg _ g h rfl rfl rfl rfl rfl rfl rfl
    · exact h
  | pressHint rand =>
    simp only [step] at hs
    split_ifs at hs
    cases hs
    simp only [gainOf, List.append_nil, onPressHint]
    split_ifs
    · exact inv2_frame p decode cfg _ g h rfl rfl rfl rfl rfl rfl rfl
    · exact h
  | pressSubmit =>
    simp only [step] at hs
    split_ifs at hs with hg
    cases hs
    simp only [submitEnabled, Bool.and_eq_true, Bool.not_eq_true'] at hg
    exact inv2_submitNow p decode cfg g hi h hg.2
  | timeUp =>
    simp only [step] at hs
    split_ifs at hs with hg
    cases hs
    simp only [autoSubmitDue, Bool.and_eq_true, Bool.not_eq_true'] at hg
    simpa [gainOf] using inv2_timeUp p decode cfg g hi h hg.2
  | fire k env options =>
    simp only [step] at hs
    split at hs
    · cases hs
    · rename_i c hk
      cases hs
      simpa [gainOf, hk] using inv2_fire_submit p decode cfg g k c hi h hk
    · rename_i c hk
      have hgain : gainOf (Event.fire k env options) cfg = [] := by simp [gainOf, hk]
      rw [hgain, List.append_nil]
      obtain ⟨ht, _⟩ := timers_single hi.timers_le hk
      obtain ⟨_, hc2, _⟩ := hi.closure (Timer.next c) (by simp [ht])
      simp only [Timer.closure] at hc2
      by_cases hlt : (c.currentIndex : ℤ) < (p.questions.length : ℤ) - 1
      · have hr : afterDelay p env c cfg.state = (advance c cfg.state, []) := by
          simp [afterDelay, hlt]
        rw [hr] at hs
        have hne : ¬ (advance c cfg.state).currentIndex = cfg.state.currentIndex := by
          simp [advance, hc2]
        simp only [hne, if_false] at hs
        split at hs
        · cases hs
        · rename_i raw hraw
          split_ifs at hs with hperm
          cases hs
          exact inv2_fire_advance p decode cfg g k c raw options hi h hk hraw hperm
      · have hr : afterDelay p env c cfg.state = (cfg.state, finish p env c) := by
          simp [afterDelay, hlt]
        rw [hr] at hs
        simp only [if_true] at hs
        cases hs
        exact inv2_fire_finish p decode cfg g k c env hi h hk hlt

theorem inv2_run (p : RouteParams) (decode : String → String) (evs : List Event) :
    ∀ (cfg cfg' : Session) (g : List ℤ), Inv p cfg → Inv2 p decode cfg g →
      run p decode evs cfg = some cfg' → Inv2 p decode cfg' (g ++ xpGains p decode evs cfg) := by
  induction evs with
  | nil =>
    intro cfg cfg' g _ h hr
    simp only [run, Option.some.injEq] at hr
    subst hr
    simpa [xpGains] using h
  | cons e es ih =>
    intro cfg cfg' g hi h hr
    simp only [run] at hr
    cases hs : step p decode e cfg with
    | none => simp [hs] at hr
    | some mid =>
      rw [hs] at hr
      have := ih mid cfg' (g ++ gainOf e cfg) (inv_step p decode e cfg mid hi hs)
        (inv2_step p decode e cfg mid g hi h hs) hr
      simpa [xpGains, hs, List.append_assoc] using this

theorem inv2_of_run (p : RouteParams) (decode : String → String) (start : ℤ)
    (options : List String) (cfg0 cfg : Session) (evs : List Event)
    (h0 : initSession p decode start options = some cfg0)
    (hr : run p decode evs cfg0 = some cfg) :
    Inv2 p decode cfg (xpGains p decode evs cfg0) := by
  simpa using inv2_run p decode evs cfg0 cfg [] (inv_init p decode start options cfg0 h0)
    (inv2_init p decode start options cfg0 h0) hr

/-! ## The complete run of the sample session -/

theorem sample_run :
    run sampleNormal id sampleEvents sampleSession = some sampleFinished := by
  have h1 : step sampleNormal id (Event.pressOption "9") sampleSession =
      some { state := sampleAnswered, timers := [], calls := [] } := by
    decide
  have h2 : step sampleNormal id Event.pressSubmit
      { state := sampleAnswered, timers := [], calls := [] } =
      some { state := sampleSubmitted, timers := [Timer.next sampleAnswered], calls := [] } := by
    have hg : submitEnabled sampleAnswered = true := by decide
    simp only [step, hg, if_true]
    rfl
  have hfin : finish sampleNormal sampleEnv sampleAnswered =
      [Effect.insertQuizHistory sampleRecord,
       Effect.navigateResult (sampleResult "#1 General Knowledge")] := by
    have := sample_finish_normal sampleEnv rfl rfl
    simpa [afterDelay, sample_last sampleNormal rfl] using this
  have h3 := step_fire_finish sampleNormal id sampleEnv []
    { state := sampleSubmitted, timers := [Timer.next sampleAnswered], calls := [] }
    sampleAnswered rfl (by decide)
  simp only [sampleEvents, run, h1, Option.some_bind, h2, h3, hfin, List.nil_append,
    Option.bind_some]
  rfl

theorem sample_finished_reachable : Reachable sampleNormal id sampleFinished :=
  sample_reachable sampleEvents sampleFinished sample_run

theorem sample_xpGains : xpGains sampleNormal id sampleEvents sampleSession = [100] := by
  have h1 : step sampleNormal id (Event.pressOption "9") sampleSession =
      some { state := sampleAnswered, timers := [], calls := [] } := by
    decide
  have h2 : step sampleNormal id Event.pressSubmit
      { state := sampleAnswered, timers := [], calls := [] } =
      some { state := sampleSubmitted, timers := [Timer.next sampleAnswered], calls := [] } := by
    have hg : submitEnabled sampleAnswered = true := by decide
    simp only [step, hg, if_true]
    rfl
  have h3 := step_fire_finish sampleNormal id sampleEnv []
    { state := sampleSubmitted, timers := [Timer.next sampleAnswered], calls := [] }
    sampleAnswered rfl (by decide)
  have hg : gainedXP sampleAnswered = 100 := by
    have := sample_xp
    simpa [xp, sampleAnswered, sampleStart, initialState, onPressOption] using this
  simp only [sampleEvents, xpGains, h1, h2, h3, gainOf, hg, List.getElem?_cons_zero]
  rfl

/-- Claim C21. In every run of a session, the `xpEarned` handed to the result screen,
the `xp` given to `saveDailyQuizResult` and the `xp` of the inserted `quiz_history`
record all equal the sum of the XP gained on the questions of the session, one value
per question; it is also the total kept in the state. -/
theorem xpEarned_is_sum (p : RouteParams) (decode : String → String) (start : ℤ)
    (options : List String) (cfg0 cfg : Session) (evs : List Event)
    (h0 : initSession p decode start options = some cfg0)
    (hr : run p decode evs cfg0 = some cfg) :
    (∀ r, Effect.navigateResult r ∈ cfg.calls →
      r.xpEarned = (xpGains p decode evs cfg0).sum) ∧
    (∀ u sc x rv t, Effect.saveDailyQuizResult u sc x rv t ∈ cfg.calls →
      x = (xpGains p decode evs cfg0).sum) ∧
    (∀ record, Effect.insertQuizHistory record ∈ cfg.calls →
      record.xp = (xpGains p decode evs cfg0).sum) ∧
    (cfg.calls ≠ [] → (xpGains p decode evs cfg0).length = p.questions.length) ∧
    cfg.state.totalEarnedXP = (xpGains p decode evs cfg0).sum := by
  have h := inv2_of_run p decode start options cfg0 cfg evs h0 hr
  refine ⟨?_, ?_, ?_, h.calls_length, h.total⟩
  · intro r hmem
    exact h.calls_xp _ hmem _ rfl
  · intro u sc x rv t hmem
    exact h.calls_xp _ hmem _ rfl
  · intro record hmem
    exact h.calls_xp _ hmem _ rfl

/-- Witness of `xpEarned_is_sum`: the sample session, answered at once, gains 100 XP on
its only question and hands off 100. -/
theorem xpEarned_is_sum_witness :
    (sampleResult "#1 General Knowledge").xpEarned =
      (xpGains sampleNormal id sampleEvents sampleSession).sum ∧
    xpGains sampleNormal id sampleEvents sampleSession = [100] :=
  ⟨(xpEarned_is_sum sampleNormal id 0 ["6", "9", "12", "3"] sampleSession sampleFinished
      sampleEvents sample_init sample_run).1 _ (by simp [sampleFinished]),
   sample_xpGains⟩

/-- Claim C22. For every question record and every sequence of values of
`Math.random()`, the options displayed are a permutation of the decoded list
`incorrect_answers` followed by `correct_answer`: there are
`incorrect_answers.length + 1` of them and the decoded correct answer is among them.
The same holds for the question displayed in every reachable configuration. -/
theorem options_permutation (decode : String → String) (rand : ℕ → ℚ) (raw : RawQuestion)
    (p : RouteParams) (cfg : Session) :
    (loadShuffled decode rand raw).options.Perm
      ((raw.incorrect_answers ++ [raw.correct_answer]).map decode) ∧
    (loadShuffled decode rand raw).options.length = raw.incorrect_answers.length + 1 ∧
    (loadShuffled decode rand raw).correctAnswer = decode raw.correct_answer ∧
    (loadShuffled decode rand raw).correctAnswer ∈ (loadShuffled decode rand raw).options ∧
    (sortRandom rand (baseOptions decode raw)).isPerm (baseOptions decode raw) = true ∧
    (Reachable p decode cfg →
      ∃ current, p.questions[cfg.state.currentIndex]? = some current ∧
        cfg.state.questionData.options.Perm
          ((current.incorrect_answers ++ [current.correct_answer]).map decode) ∧
        cfg.state.questionData.options.length = current.incorrect_answers.length + 1 ∧
        cfg.state.questionData.correctAnswer = decode current.correct_answer ∧
        cfg.state.questionData.correctAnswer ∈ cfg.state.questionData.options) := by
  have hperm : (loadShuffled decode rand raw).options.Perm (baseOptions decode raw) :=
    sortRandom_perm rand _
  have hmem : ∀ r : RawQuestion, decode r.correct_answer ∈ baseOptions decode r := by
    intro r
    simp [baseOptions]
  refine ⟨hperm, ?_, rfl, hperm.symm.subset (hmem raw), List.isPerm_iff.mpr hperm, ?_⟩
  · rw [hperm.length_eq]
    simp [baseOptions]
  · rintro ⟨start, options, cfg0, evs, h0, hr⟩
    obtain ⟨current, hq, hp, _, hc⟩ :=
      (inv2_of_run p decode start options cfg0 cfg evs h0 hr).question
    refine ⟨current, hq, hp, ?_, hc, ?_⟩
    · rw [hp.length_eq]
      simp [baseOptions]
    · rw [hc]
      exact hp.symm.subset (hmem current)

/-- Witness of `options_permutation`: the sample session right after mount. -/
theorem options_permutation_witness :
    ∃ current, sampleNormal.questions[sampleSession.state.currentIndex]? = some current ∧
      sampleSession.state.questionData.options.Perm
        ((current.incorrect_answers ++ [current.correct_answer]).map id) ∧
      sampleSession.state.questionData.options.length = current.incorrect_answers.length + 1 ∧
      sampleSession.state.questionData.correctAnswer = id current.correct_answer ∧
      sampleSession.state.questionData.correctAnswer ∈
        sampleSession.state.questionData.options :=
  (options_permutation id (fun _ => 0) sampleRaw sampleNormal sampleSession).2.2.2.2.2
    (sample_reachable [] sampleSession rfl)

/-- Claim C28. In every reachable configuration, the payload of a handoff has counts
`correct`, `incorrect` and `unanswered` equal to the numbers of items of its review
data with the status "correct", "incorrect" and "unanswered", so `unanswered` is not
negative; a session of two questions, the first answered correctly and the second
incorrectly, hands off `totalQuestions = 2, correct = 1, incorrect = 1,
unanswered = 0`. -/
theorem handoff_counts_match_review (p : RouteParams) (decode : String → String)
    (cfg : Session) (h : Reachable p decode cfg) :
    (∀ r, Effect.navigateResult r ∈ cfg.calls →
      r.correct = countStatus Status.correct r.reviewData ∧
      r.incorrect = countStatus Status.incorrect r.reviewData ∧
      r.unanswered = countStatus Status.unanswered r.reviewData ∧
      0 ≤ r.unanswered) ∧
    (run sampleTwo id sampleTwoEvents sampleSession).map handoffCounts =
      some [(2, 1, 1, 0)] := by
  obtain ⟨start, options, cfg0, evs, h0, hr⟩ := h
  have h2 := inv2_of_run p decode start options cfg0 cfg evs h0 hr
  refine ⟨?_, by decide⟩
  intro r hmem
  obtain ⟨e1, e2, e3⟩ := h2.calls_counts r hmem
  refine ⟨e1, e2, e3, ?_⟩
  rw [e3]
  simp [countStatus]

/-- Witness of `handoff_counts_match_review`: the handoff of the sample session. -/
theorem handoff_counts_match_review_witness :
    (sampleResult "#1 General Knowledge").correct =
      countStatus Status.correct (sampleResult "#1 General Knowledge").reviewData ∧
    (sampleResult "#1 General Knowledge").incorrect =
      countStatus Status.incorrect (sampleResult "#1 General Knowledge").reviewData ∧
    (sampleResult "#1 General Knowledge").unanswered =
      countStatus Status.unanswered (sampleResult "#1 General Knowledge").reviewData ∧
    0 ≤ (sampleResult "#1 General Knowledge").unanswered :=
  (handoff_counts_match_review sampleNormal id sampleFinished sample_finished_reachable).1 _
    (by simp [sampleFinished])

theorem sampleTwo_locked_reachable : Reachable sampleTwo id sampleTwoLocked := by
  refine ⟨0, ["6", "9", "12", "3"], sampleSession,
    [Event.pressOption "9", Event.pressSubmit], by decide, ?_⟩
  have h1 : step sampleTwo id (Event.pressOption "9") sampleSession =
      some { state := sampleAnswered, timers := [], calls := [] } := by
    decide
  have h2 : step sampleTwo id Event.pressSubmit
      { state := sampleAnswered, timers := [], calls := [] } = some sampleTwoLocked := by
    have hg : submitEnabled sampleAnswered = true := by decide
    simp only [step, hg, if_true]
    rfl
  simp only [run, h1, Option.some_bind, h2, Option.bind_some]

theorem sampleTwo_advance :
    step sampleTwo id (Event.fire 0 sampleEnv ["6", "9", "12", "3"]) sampleTwoLocked =
      some sampleTwoAdvanced := by
  have hr : afterDelay sampleTwo sampleEnv sampleAnswered sampleTwoLocked.state =
      (advance sampleAnswered sampleSubmitted, []) := by
    have hlt : (sampleAnswered.currentIndex : ℤ) < (sampleTwo.questions.length : ℤ) - 1 := by
      decide
    simp only [afterDelay, hlt, if_true]
    rfl
  have hne : ¬ (advance sampleAnswered sampleSubmitted).currentIndex =
      sampleTwoLocked.state.currentIndex := by decide
  have hq : sampleTwo.questions[(advance sampleAnswered sampleSubmitted).currentIndex]? =
      some sampleRaw := by decide
  have hp : (["6", "9", "12", "3"] : List String).isPerm (baseOptions id sampleRaw) = true := by
    decide
  have ht : sampleTwoLocked.timers[0]? = some (Timer.next sampleAnswered) := rfl
  simp only [step, ht, hr, hne, if_false, hq, hp, if_true]
  rfl

/-- Witness of `advance_frame`: the advance from the first question of the
two-question sample session. -/
theorem advance_frame_witness :
    (advance sampleAnswered sampleSubmitted).selected = none ∧
    (advance sampleAnswered sampleSubmitted).remainingTime = 30 ∧
    (sampleTwoAdvanced.state.selected = none ∧ sampleTwoAdvanced.state.submitted = false ∧
      sampleTwoAdvanced.state.eliminatedOption = none ∧
      sampleTwoAdvanced.state.usedHint = false ∧
      totalTime sampleTwo.difficulty = some sampleTwoAdvanced.state.remainingTime ∧
      sampleTwoAdvanced.state.currentIndex = sampleTwoLocked.state.currentIndex + 1 ∧
      sampleTwoAdvanced.state.correctCount = sampleTwoLocked.state.correctCount ∧
      sampleTwoAdvanced.state.incorrectCount = sampleTwoLocked.state.incorrectCount ∧
      sampleTwoAdvanced.state.totalEarnedXP = sampleTwoLocked.state.totalEarnedXP) :=
  ⟨(advance_frame sampleTwo id sampleEnv sampleAnswered sampleSubmitted sampleTwoLocked
      sampleTwoAdvanced 0 ["6", "9", "12", "3"] (by decide)).1.2.1,
   (advance_frame sampleTwo id sampleEnv sampleAnswered sampleSubmitted sampleTwoLocked
      sampleTwoAdvanced 0 ["6", "9", "12", "3"] (by decide)).1.2.2.2.2.2.1,
   (advance_frame sampleTwo id sampleEnv sampleAnswered sampleSubmitted sampleTwoLocked
      sampleTwoAdvanced 0 ["6", "9", "12", "3"] (by decide)).2 sampleTwo_locked_reachable rfl
      sampleTwo_advance⟩

theorem sampleTwo_advanced_reachable : Reachable sampleTwo id sampleTwoAdvanced := by
  refine ⟨0, ["6", "9", "12", "3"], sampleSession,
    [Event.pressOption "9", Event.pressSubmit, Event.fire 0 sampleEnv ["6", "9", "12", "3"]],
    by decide, ?_⟩
  have h1 : step sampleTwo id (Event.pressOption "9") sampleSession =
      some { state := sampleAnswered, timers := [], calls := [] } := by
    decide
  have h2 : step sampleTwo id Event.pressSubmit
      { state := sampleAnswered, timers := [], calls := [] } = some sampleTwoLocked := by
    have hg : submitEnabled sampleAnswered = true := by decide
    simp only [step, hg, if_true]
    rfl
  simp only [run, h1, Option.some_bind, h2, sampleTwo_advance, Option.bind_some]

/-- Witness of `reviewItems_length`: after the advance of the two-question sample
session the review log holds one item and `currentIndex` is 1; the handoff of the
finished one-question sample session carries one item, as many as it has questions. -/
theorem reviewItems_length_witness :
    sampleTwoAdvanced.state.reviewItems.length = sampleTwoAdvanced.state.currentIndex ∧
    sampleTwoAdvanced.state.currentIndex = 1 ∧
    (sampleResult "#1 General Knowledge").reviewData.length = sampleNormal.questions.length :=
  ⟨(reviewItems_length sampleTwo id sampleTwoAdvanced sampleTwo_advanced_reachable).1,
   by decide,
   (reviewItems_length sampleNormal id sampleFinished sample_finished_reachable).2 _
     (by simp [sampleFinished])⟩

/-- Witness of `currentIndex_progress`: the advance of the two-question sample session
from its first question, index 0, to its second, index 1. -/
theorem currentIndex_progress_witness :
    sampleTwoLocked.state.currentIndex = 0 ∧ sampleTwoAdvanced.state.currentIndex = 1 ∧
    sampleTwoLocked.state.currentIndex < sampleTwo.questions.length ∧
    sampleTwoAdvanced.state.currentIndex < sampleTwo.questions.length ∧
    (sampleTwoAdvanced.state.currentIndex = sampleTwoLocked.state.currentIndex ∨
      (sampleTwoAdvanced.state.currentIndex = sampleTwoLocked.state.currentIndex + 1 ∧
        (sampleTwoLocked.state.currentIndex : ℤ) < (sampleTwo.questions.length : ℤ) - 1 ∧
        ∃ k env options c,
          Event.fire 0 sampleEnv ["6", "9", "12", "3"] = Event.fire k env options ∧
          sampleTwoLocked.timers[k]? = some (Timer.next c) ∧
          afterDelay sampleTwo env c sampleTwoLocked.state =
            (advance c sampleTwoLocked.state, []))) :=
  ⟨by decide, by decide,
   currentIndex_progress sampleTwo id (Event.fire 0 sampleEnv ["6", "9", "12", "3"])
     sampleTwoLocked sampleTwoAdvanced sampleTwo_locked_reachable sampleTwo_advance⟩

end Quizzy
